import Mathlib

/-!
Table interpolation engine of amr-wind (`amr-wind/utilities/linear_interpolation.H`).

A shallow embedding of the search and interpolation routines of
`amr_wind::interp`, with their properties.

Modelling conventions.

* The routines are templates over the value type `T`.  They are embedded twice: in
  `amr_wind.interp` with rational table values, which is the reading in exact real
  arithmetic, and in `amr_wind.interp.machine` with `T = double` and 32-bit `int`
  indices (`amr_wind.machine`), which is what the compiled code computes.
* A table handed over as an iterator pair `begin, end` is a list; `end - begin` is its
  length.  A `y` column handed over as a bare pointer is a list as well.
* In the exact reading indices are unbounded integers (tables are taken to have fewer
  than `2^30` entries, so that `il + ir` does not overflow); in the machine reading
  every `int` result is wrapped to 32 bits.
* Every dereference goes through `readAt`, which faults with `Fault.OutOfBounds`
  outside `[0, len - 1]`; `amrex::Abort` is `Fault.Abort`.
-/

namespace amr_wind.interp

/-- The enumeration `Limits` (lines 8-12). -/
inductive Limits where
  | LOWLIM
  | UPLIM
  | VALID
  deriving DecidableEq, Repr

/-- The struct `Index` (lines 14-18). -/
structure Index where
  idx : Int
  lim : Limits
  deriving DecidableEq, Repr

/-- Ways in which a run can fail to produce a value. -/
inductive Fault where
  | OutOfBounds
  | Abort
  deriving DecidableEq, Repr

/-- Dereference of position `i` of a table: `*(begin + i)` or `a[i]`. -/
def readAt (a : List ℚ) (i : Int) : Except Fault ℚ :=
  if 0 ≤ i then
    match a[i.toNat]? with
    | some v => .ok v
    | none => .error .OutOfBounds
  else .error .OutOfBounds

/-- Store to position `i` of an output array: `a[i] = v`. -/
def writeAt (a : List ℚ) (i : Int) (v : ℚ) : Except Fault (List ℚ) :=
  if 0 ≤ i ∧ i.toNat < a.length then .ok (a.set i.toNat v) else .error .OutOfBounds

/-- The constant `eps = 1.0e-8` of `linear` and `linear_monotonic`, in the exact reading
the rational `1/10^8` (the `double` nearest to it is `machine.eps`). -/
def eps : ℚ := 1 / 100000000

/-- The function `check_bounds` (lines 20-34); `||` short-circuits, so `*begin` is
read only when `sz >= 2`. -/
def check_bounds (x : List ℚ) (q : ℚ) : Except Fault Index :=
  let sz : Int := x.length
  if sz < 2 then .ok ⟨0, .LOWLIM⟩
  else do
    let x0 ← readAt x 0
    if q < x0 then .ok ⟨0, .LOWLIM⟩
    else do
      let xlast ← readAt x (sz - 1)
      if q > xlast then .ok ⟨sz - 1, .UPLIM⟩
      else .ok ⟨0, .VALID⟩

/-- The `while` loop of `bisection_search` (lines 49-58); returns the final `il`.  In the
exact reading the product of line 53 is a rational number and `il + ir` does not wrap;
`machine.bisection_loop` rounds the one and wraps the other. -/
def bisection_loop (x : List ℚ) (q xl : ℚ) (il ir : Int) : Except Fault Int :=
  if ir - il > 1 then
    let mid := (il + ir) >>> (1 : Nat)
    match readAt x mid with
    | .error e => .error e
    | .ok xmid =>
      if (q - xmid) * (q - xl) ≤ 0 then bisection_loop x q xl il mid
      else bisection_loop x q xl mid ir
  else .ok il
termination_by (ir - il).toNat
decreasing_by
  all_goals simp only [Int.shiftRight_eq_div_pow, pow_one, Nat.cast_ofNat]
  all_goals omega

/-- The function `bisection_search` (lines 36-61). -/
def bisection_search (x : List ℚ) (q : ℚ) : Except Fault Index :=
  match check_bounds x q with
  | .error e => .error e
  | .ok idx =>
    if idx.lim = .LOWLIM ∨ idx.lim = .UPLIM then .ok idx
    else do
      let xl ← readAt x 0
      let il ← bisection_loop x q xl 0 x.length
      .ok { idx with idx := il }

/-- The `for` loop of `find_index` (lines 72-77), with `it` as an offset from
`begin`; on `break` the index is `it - begin - 1`, otherwise `idx` is left as it is. -/
def find_index_loop (x : List ℚ) (q : ℚ) (it : Int) (idx : Index) : Except Fault Index :=
  if it < (x.length : Int) then
    match readAt x it with
    | .error e => .error e
    | .ok v =>
      if q ≤ v then .ok { idx with idx := it - 1 }
      else find_index_loop x q (it + 1) idx
  else .ok idx
termination_by ((x.length : Int) - it).toNat
decreasing_by omega

/-- The function `find_index` (lines 63-79). -/
def find_index (x : List ℚ) (q : ℚ) (hint : Int) : Except Fault Index :=
  match check_bounds x q with
  | .error e => .error e
  | .ok idx =>
    if idx.lim = .LOWLIM ∨ idx.lim = .UPLIM then .ok idx
    else find_index_loop x q hint idx

/-- The interpolation arithmetic shared, line for line, by scalar `linear`
(lines 96-101) and `linear_monotonic` (lines 134-138). -/
def interpolate (x y : List ℚ) (j : Int) (q : ℚ) : Except Fault ℚ := do
  let xj1 ← readAt x (j + 1)
  let xj ← readAt x j
  let denom := xj1 - xj
  let facR := if denom > eps then (q - xj) / denom else 1
  let facL := 1 - facR
  let yj ← readAt y j
  let yj1 ← readAt y (j + 1)
  .ok (facL * yj + facR * yj1)

/-- The iterator form of scalar `linear` (lines 81-107). -/
def linear (x y : List ℚ) (xout : ℚ) : Except Fault ℚ :=
  match bisection_search x xout with
  | .error e => .error e
  | .ok idx =>
    if idx.lim = .LOWLIM ∨ idx.lim = .UPLIM then readAt y idx.idx
    else if idx.lim = .VALID then interpolate x y idx.idx xout
    else .error .Abort

/-- The container form of scalar `linear` (lines 109-114). -/
def linear_scalar (xinp yinp : List ℚ) (xout : ℚ) : Except Fault ℚ :=
  linear xinp yinp xout

/-- The macro `AMREX_ASSERT(cond)`; its definition is not part of the sources at hand,
so whether assertions are compiled in is the parameter `assertions`. -/
def amrex_assert (assertions : Bool) (cond : Bool) : Except Fault Unit :=
  if assertions && !cond then .error .Abort else .ok ()

/-- The `for` loop of `linear_monotonic` (lines 126-141). -/
def linear_monotonic_loop (xinp yinp xout : List ℚ) (npts : Int) (i hint : Int)
    (yout : List ℚ) : Except Fault (List ℚ) :=
  if i < npts then
    match readAt xout i with
    | .error e => .error e
    | .ok x =>
      match find_index xinp x hint with
      | .error e => .error e
      | .ok idx =>
        let written : Except Fault (List ℚ) :=
          if idx.lim = .LOWLIM ∨ idx.lim = .UPLIM then
            (readAt yinp idx.idx).bind (writeAt yout i)
          else if idx.lim = .VALID then
            (interpolate xinp yinp idx.idx x).bind (writeAt yout i)
          else .ok yout
        match written with
        | .error e => .error e
        | .ok yout1 => linear_monotonic_loop xinp yinp xout npts (i + 1) (idx.idx + 1) yout1
  else .ok yout
termination_by (npts - i).toNat
decreasing_by omega

/-- The function `linear_monotonic` (lines 116-142); the result is the final `yout`. -/
def linear_monotonic (assertions : Bool) (xinp yinp xout yout : List ℚ) :
    Except Fault (List ℚ) := do
  amrex_assert assertions (xinp.length == yinp.length)
  amrex_assert assertions (xout.length == yout.length)
  linear_monotonic_loop xinp yinp xout xout.length 0 1 yout

/-- The `for` loop of the vector form of `linear` (lines 155-157). -/
def linear_vector_loop (xinp yinp xout : List ℚ) (npts : Int) (i : Int)
    (yout : List ℚ) : Except Fault (List ℚ) :=
  if i < npts then
    match readAt xout i with
    | .error e => .error e
    | .ok x =>
      match (linear_scalar xinp yinp x).bind (writeAt yout i) with
      | .error e => .error e
      | .ok yout1 => linear_vector_loop xinp yinp xout npts (i + 1) yout1
  else .ok yout
termination_by (npts - i).toNat
decreasing_by omega

/-- The vector form of `linear` (lines 144-158); the result is the final `yout`. -/
def linear_vector (assertions : Bool) (xinp yinp xout yout : List ℚ) :
    Except Fault (List ℚ) := do
  amrex_assert assertions (xinp.length == yinp.length)
  amrex_assert assertions (xout.length == yout.length)
  linear_vector_loop xinp yinp xout xout.length 0 yout

/-- The hinted search over a sequence of queries, following the words of the spec:
`find_index` is called with the given hint for the first query and with the previously
returned index plus one for each later query (the protocol of lines 124, 128-129 and
140); the results are collected in order. -/
def find_index_hinted (x : List ℚ) : List ℚ → Int → Except Fault (List Index)
  | [], _ => .ok []
  | q :: qs, hint =>
    match find_index x q hint with
    | .error e => .error e
    | .ok r =>
      match find_index_hinted x qs (r.idx + 1) with
      | .error e => .error e
      | .ok rs => .ok (r :: rs)

/-- The interpolation arithmetic of `interpolate` (lines 96-101 and 134-138) with the
division of the conditional expression as a parameter `dv`; `interpolate` is the
instance where `dv` is the division of `ℚ`. -/
def interpolate_with (dv : ℚ → ℚ → ℚ) (x y : List ℚ) (j : Int) (q : ℚ) : Except Fault ℚ := do
  let xj1 ← readAt x (j + 1)
  let xj ← readAt x j
  let denom := xj1 - xj
  let facR := if denom > eps then dv (q - xj) denom else 1
  let facL := 1 - facR
  let yj ← readAt y j
  let yj1 ← readAt y (j + 1)
  .ok (facL * yj + facR * yj1)

/-- The positions `mid` dereferenced by the `while` loop of `bisection_search`
(line 51), in order; the loop is followed as in `bisection_loop`, and a position is
recorded before it is dereferenced. -/
def bisection_loop_reads (x : List ℚ) (q xl : ℚ) (il ir : Int) : List Int :=
  if ir - il > 1 then
    let mid := (il + ir) >>> (1 : Nat)
    mid ::
      (match readAt x mid with
      | .error _ => []
      | .ok xmid =>
        if (q - xmid) * (q - xl) ≤ 0 then bisection_loop_reads x q xl il mid
        else bisection_loop_reads x q xl mid ir)
  else []
termination_by (ir - il).toNat
decreasing_by
  all_goals simp only [Int.shiftRight_eq_div_pow, pow_one, Nat.cast_ofNat]
  all_goals omega

/-- The successive values of `(il, ir)` at the head of the `while` loop of
`bisection_search` (line 49), the one at which the loop exits included; the loop is
followed as in `bisection_loop`. -/
def bisection_loop_states (x : List ℚ) (q xl : ℚ) (il ir : Int) : List (Int × Int) :=
  (il, ir) ::
    (if ir - il > 1 then
      let mid := (il + ir) >>> (1 : Nat)
      match readAt x mid with
      | .error _ => []
      | .ok xmid =>
        if (q - xmid) * (q - xl) ≤ 0 then bisection_loop_states x q xl il mid
        else bisection_loop_states x q xl mid ir
    else [])
termination_by (ir - il).toNat
decreasing_by
  all_goals simp only [Int.shiftRight_eq_div_pow, pow_one, Nat.cast_ofNat]
  all_goals omega

end amr_wind.interp

/-! Machine arithmetic: the C++ types `double` (IEEE 754 binary64, rounding to
nearest, ties to even) and `int` (32 bits). -/

namespace amr_wind.machine

/-- A value of the C++ type `double`: a finite value `m * 2^(-1074)` given by the
integer `m` (every finite `double` is a multiple of `2^(-1074)`), an infinity, or a
NaN.  The sign of a zero is not represented: the functions modelled compare values and
do not divide by a zero. -/
inductive Dbl where
  | fin (m : Int)
  | pinf
  | ninf
  | nan
  deriving DecidableEq, Repr

/-- The quotient `n / d` rounded to the nearest integer, ties to the even one. -/
def rne (n d : Nat) : Nat :=
  if 2 * (n % d) > d ∨ (2 * (n % d) = d ∧ (n / d) % 2 = 1) then n / d + 1 else n / d

/-- The position of the leading binary digit of `n` (the integer part of its base-2
logarithm, `0` for `n = 0`); the first argument bounds the number of halvings, and `n`
itself is enough. -/
def log2 : Nat → Nat → Nat
  | 0, _ => 0
  | fuel + 1, n => if n ≥ 2 then log2 fuel (n / 2) + 1 else 0

/-- The magnitude `n / d`, counted in units of `2^(-1074)`, rounded to 53 significant
binary digits, and to a whole number of units below `2^52` units (the subnormal
range). -/
def roundMag (n d : Nat) : Nat :=
  rne n (d * 2 ^ (log2 (n / d) (n / d) - 52)) * 2 ^ (log2 (n / d) (n / d) - 52)

/-- Rounding of the magnitude `n / d` (in units of `2^(-1074)`) with the given sign to a
`double`: a magnitude that rounds to `2^1024` or more overflows to an infinity. -/
def round (negative : Bool) (n d : Nat) : Dbl :=
  if roundMag n d ≥ 2 ^ 2098 then (if negative then .ninf else .pinf)
  else .fin (if negative then -(roundMag n d : Int) else (roundMag n d : Int))

/-- The opposite `-a`. -/
def Dbl.neg : Dbl → Dbl
  | .fin m => .fin (-m)
  | .pinf => .ninf
  | .ninf => .pinf
  | .nan => .nan

/-- The sum `a + b`: the exact sum, rounded. -/
def Dbl.add : Dbl → Dbl → Dbl
  | .fin a, .fin b => round (decide (a + b < 0)) (a + b).natAbs 1
  | .nan, _ => .nan
  | _, .nan => .nan
  | .pinf, .ninf => .nan
  | .ninf, .pinf => .nan
  | .pinf, _ => .pinf
  | _, .pinf => .pinf
  | .ninf, _ => .ninf
  | _, .ninf => .ninf

/-- The difference `a - b`: the exact difference, rounded. -/
def Dbl.sub (a b : Dbl) : Dbl := a.add b.neg

/-- The sign of a value that is not a NaN: `-1`, `0` or `1`. -/
def Dbl.sign : Dbl → Int
  | .fin m => Int.sign m
  | .pinf => 1
  | .ninf => -1
  | .nan => 0

/-- The product `a * b`: the exact product, rounded; an infinity times zero is a
NaN. -/
def Dbl.mul : Dbl → Dbl → Dbl
  | .fin a, .fin b => round (decide (a * b < 0)) (a * b).natAbs (2 ^ 1074)
  | .nan, _ => .nan
  | _, .nan => .nan
  | a, b =>
    if a.sign * b.sign = 0 then .nan
    else if a.sign * b.sign > 0 then .pinf else .ninf

/-- The quotient `a / b`: the exact quotient, rounded; a zero divisor counts as `+0`. -/
def Dbl.div : Dbl → Dbl → Dbl
  | .fin a, .fin b =>
    if b = 0 then (if a = 0 then .nan else if a > 0 then .pinf else .ninf)
    else round (decide (a * b < 0)) (a.natAbs * 2 ^ 1074) b.natAbs
  | .nan, _ => .nan
  | _, .nan => .nan
  | .fin _, _ => .fin 0
  | a, .fin b => if b < 0 then a.neg else a
  | _, _ => .nan

/-- The comparison `a < b` (false when an operand is a NaN); `a > b` is `b < a`. -/
def Dbl.lt : Dbl → Dbl → Bool
  | .fin a, .fin b => decide (a < b)
  | .nan, _ => false
  | _, .nan => false
  | .ninf, .ninf => false
  | .ninf, _ => true
  | _, .ninf => false
  | .pinf, _ => false
  | _, .pinf => true

/-- The comparison `a <= b` (false when an operand is a NaN). -/
def Dbl.le : Dbl → Dbl → Bool
  | .fin a, .fin b => decide (a ≤ b)
  | .nan, _ => false
  | _, .nan => false
  | .ninf, _ => true
  | _, .ninf => false
  | _, .pinf => true
  | .pinf, _ => false

/-- The `double` nearest to the non-negative rational `n / d`, as a literal of the
source or a table entry is read. -/
def Dbl.lit (n d : Nat) : Dbl := round false (n * 2 ^ 1074) d

/-- The conversion of an integer to the C++ type `int` (32 bits, two's complement): the
value is wrapped into `[-2^31, 2^31 - 1]`. -/
@[irreducible]
def int32 (z : Int) : Int := (2147483648 + z) % 4294967296 - 2147483648

end amr_wind.machine

/-! The routines of `linear_interpolation.H` once more, instantiated at `T = double`
and with `int` indices: the same lines as in `amr_wind.interp`, in machine arithmetic. -/

deriving instance DecidableEq for Except

namespace amr_wind.interp.machine

open amr_wind.machine

/-- Ways in which a run can fail to produce a value; `NoFuel` is the exhaustion of the
iteration bound given to `bisection_loop`. -/
inductive Fault where
  | OutOfBounds
  | Abort
  | NoFuel
  deriving DecidableEq, Repr

/-- Dereference of position `i` of a table: `*(begin + i)` or `a[i]`. -/
def readAt (a : List Dbl) (i : Int) : Except Fault Dbl :=
  if 0 ≤ i then
    match a[i.toNat]? with
    | some v => .ok v
    | none => .error .OutOfBounds
  else .error .OutOfBounds

/-- Store to position `i` of an output array: `a[i] = v`. -/
def writeAt (a : List Dbl) (i : Int) (v : Dbl) : Except Fault (List Dbl) :=
  if 0 ≤ i ∧ i.toNat < a.length then .ok (a.set i.toNat v) else .error .OutOfBounds

/-- The literal `0.0`. -/
def zero : Dbl := .fin 0

/-- The literal `1.0`. -/
def one : Dbl := .fin (2 ^ 1074)

/-- The constant `eps = 1.0e-8` of `linear` and `linear_monotonic`: the `double`
nearest to `10^(-8)`. -/
def eps : Dbl := Dbl.lit 1 100000000

/-- The function `check_bounds` (lines 20-34) on `double`s; `||` short-circuits, so
`*begin` is read only when `sz >= 2`. -/
def check_bounds (x : List Dbl) (q : Dbl) : Except Fault Index :=
  let sz : Int := int32 x.length
  if sz < 2 then .ok ⟨0, .LOWLIM⟩
  else do
    let x0 ← readAt x 0
    if q.lt x0 then .ok ⟨0, .LOWLIM⟩
    else do
      let xlast ← readAt x (int32 (sz - 1))
      if xlast.lt q then .ok ⟨int32 (sz - 1), .UPLIM⟩
      else .ok ⟨0, .VALID⟩

/-- The `while` loop of `bisection_search` (lines 49-58) on `double`s and `int`s, run
for at most `fuel` iterations; returns the final `il`. -/
def bisection_loop (x : List Dbl) (q xl : Dbl) : Nat → Int → Int → Except Fault Int
  | 0, il, ir => if int32 (ir - il) > 1 then .error .NoFuel else .ok il
  | fuel + 1, il, ir =>
    if int32 (ir - il) > 1 then
      let mid := int32 (il + ir) >>> (1 : Nat)
      match readAt x mid with
      | .error e => .error e
      | .ok xmid =>
        if ((q.sub xmid).mul (q.sub xl)).le zero then bisection_loop x q xl fuel il mid
        else bisection_loop x q xl fuel mid ir
    else .ok il

/-- The function `bisection_search` (lines 36-61) on `double`s; the loop is given
`len` iterations, more than it can use. -/
def bisection_search (x : List Dbl) (q : Dbl) : Except Fault Index :=
  match check_bounds x q with
  | .error e => .error e
  | .ok idx =>
    if idx.lim = .LOWLIM ∨ idx.lim = .UPLIM then .ok idx
    else do
      let xl ← readAt x 0
      let il ← bisection_loop x q xl x.length 0 (int32 x.length)
      .ok { idx with idx := il }

/-- The `for` loop of `find_index` (lines 72-77) on `double`s, with `it` as an offset
from `begin` and `n` the number of positions from `it` to `end`; on `break` the index
is `it - begin - 1`, otherwise `idx` is left as it is. -/
def find_index_loop (x : List Dbl) (q : Dbl) : Nat → Int → Index → Except Fault Index
  | 0, _, idx => .ok idx
  | n + 1, it, idx =>
    match readAt x it with
    | .error e => .error e
    | .ok v =>
      if q.le v then .ok { idx with idx := int32 (it - 1) }
      else find_index_loop x q n (it + 1) idx

/-- The function `find_index` (lines 63-79) on `double`s. -/
def find_index (x : List Dbl) (q : Dbl) (hint : Int) : Except Fault Index :=
  match check_bounds x q with
  | .error e => .error e
  | .ok idx =>
    if idx.lim = .LOWLIM ∨ idx.lim = .UPLIM then .ok idx
    else find_index_loop x q ((x.length : Int) - hint).toNat hint idx

/-- The interpolation arithmetic shared, line for line, by scalar `linear`
(lines 96-101) and `linear_monotonic` (lines 134-138), on `double`s. -/
def interpolate (x y : List Dbl) (j : Int) (q : Dbl) : Except Fault Dbl := do
  let xj1 ← readAt x (int32 (j + 1))
  let xj ← readAt x j
  let denom := xj1.sub xj
  let facR := if eps.lt denom then (q.sub xj).div denom else one
  let facL := one.sub facR
  let yj ← readAt y j
  let yj1 ← readAt y (int32 (j + 1))
  .ok ((facL.mul yj).add (facR.mul yj1))

/-- The iterator form of scalar `linear` (lines 81-107) on `double`s. -/
def linear (x y : List Dbl) (xout : Dbl) : Except Fault Dbl :=
  match bisection_search x xout with
  | .error e => .error e
  | .ok idx =>
    if idx.lim = .LOWLIM ∨ idx.lim = .UPLIM then readAt y idx.idx
    else if idx.lim = .VALID then interpolate x y idx.idx xout
    else .error .Abort

/-- The macro `AMREX_ASSERT(cond)`, with the parameter `assertions` telling whether
assertions are compiled in. -/
def amrex_assert (assertions : Bool) (cond : Bool) : Except Fault Unit :=
  if assertions && !cond then .error .Abort else .ok ()

/-- The `for` loop of `linear_monotonic` (lines 126-141) on `double`s; `n` is the
number of passes left, `npts - i`. -/
def linear_monotonic_loop (xinp yinp xout : List Dbl) :
    Nat → Int → Int → List Dbl → Except Fault (List Dbl)
  | 0, _, _, yout => .ok yout
  | n + 1, i, hint, yout =>
    match readAt xout i with
    | .error e => .error e
    | .ok x =>
      match find_index xinp x hint with
      | .error e => .error e
      | .ok idx =>
        let written : Except Fault (List Dbl) :=
          if idx.lim = .LOWLIM ∨ idx.lim = .UPLIM then
            (readAt yinp idx.idx).bind (writeAt yout i)
          else if idx.lim = .VALID then
            (interpolate xinp yinp idx.idx x).bind (writeAt yout i)
          else .ok yout
        match written with
        | .error e => .error e
        | .ok yout1 =>
          linear_monotonic_loop xinp yinp xout n (i + 1) (int32 (idx.idx + 1)) yout1

/-- The function `linear_monotonic` (lines 116-142) on `double`s; the result is the
final `yout`. -/
def linear_monotonic (assertions : Bool) (xinp yinp xout yout : List Dbl) :
    Except Fault (List Dbl) := do
  amrex_assert assertions (xinp.length == yinp.length)
  amrex_assert assertions (xout.length == yout.length)
  linear_monotonic_loop xinp yinp xout (int32 xout.length).toNat 0 1 yout

/-- A table of 1 600 000 000 entries: zeros, and `1.0` as its last entry. -/
def long_table : List Dbl := List.replicate 1599999999 zero ++ [one]

end amr_wind.interp.machine

/-! Mesoscale forcing (`amr-wind/wind_energy/ABLMesoscaleForcing.H`). -/

namespace amr_wind.ABLMesoscaleForcing

/-- The three-way comparison of two character sequences that `std::string::compare`
returns (negative, zero or positive), by the first differing character and then by
length; it belongs to the C++ standard library and is modelled from its standard
description. -/
def compare_chars : List Char → List Char → Int
  | [], [] => 0
  | [], _ :: _ => -1
  | _ :: _, [] => 1
  | a :: as, b :: bs =>
    if a < b then -1 else if b < a then 1 else compare_chars as bs

/-- The call `s.compare(pos, len, t)`: the substring of `s` of at most `len` characters
from position `pos` is compared with `t`. -/
def string_compare (s : List Char) (pos len : Nat) (t : List Char) : Int :=
  compare_chars ((s.drop pos).take len) t

/-- The member function `forcingToConstant` (lines 76-85), as a function of the member
`m_forcing_transition`. -/
def forcingToConstant (m_forcing_transition : List Char) : Bool :=
  if m_forcing_transition.length < 8 then false
  else
    0 == string_compare m_forcing_transition (m_forcing_transition.length - 8) 8
      "Constant".toList

end amr_wind.ABLMesoscaleForcing

/-! Fixed-wing actuator operations (`amr-wind/wind_energy/actuator/wing/wing_ops.H`).

The per-point arithmetic is carried out in an arbitrary field `K` (the real numbers for
exact real arithmetic); the pitch schedule tables and the simulation clock are rationals,
as all tables of the interpolation engine, and enter `K` through the canonical map.
Vector algebra, the square root, `atan2`, the degree/radian conversions, the airfoil
lookup, the motion update and `FLLCInit` are not defined in the sources at hand. -/

namespace amr_wind.vs

/-- Modelled from the spec: the class `vs::Vector`, a vector of three components; its
header is not among the sources at hand. -/
structure Vector (K : Type) where
  x : K
  y : K
  z : K

variable {K : Type} [Field K]

/-- Modelled from the spec: the sum `a + b` of two vectors. -/
def Vector.add (a b : Vector K) : Vector K := ⟨a.x + b.x, a.y + b.y, a.z + b.z⟩

/-- Modelled from the spec: the difference `a - b` of two vectors. -/
def Vector.sub (a b : Vector K) : Vector K := ⟨a.x - b.x, a.y - b.y, a.z - b.z⟩

/-- Modelled from the spec: the opposite `-a` of a vector. -/
def Vector.neg (a : Vector K) : Vector K := ⟨-a.x, -a.y, -a.z⟩

/-- Modelled from the spec: the product `a * c` (or `c * a`) of a vector and a scalar. -/
def Vector.scale (a : Vector K) (c : K) : Vector K := ⟨a.x * c, a.y * c, a.z * c⟩

/-- Modelled from the spec: the dot product `a & b`. -/
def Vector.dot (a b : Vector K) : K := a.x * b.x + a.y * b.y + a.z * b.z

/-- Modelled from the spec: the cross product `a ^ b`. -/
def Vector.cross (a b : Vector K) : Vector K :=
  ⟨a.y * b.z - a.z * b.y, a.z * b.x - a.x * b.z, a.x * b.y - a.y * b.x⟩

/-- Modelled from the spec: the Euclidean norm `vs::mag(a)`, with the square root as
a parameter. -/
def mag (sqrt : K → K) (a : Vector K) : K := sqrt (a.x * a.x + a.y * a.y + a.z * a.z)

/-- Modelled from the spec: the normalisation `a.unit()`, each component divided by the
norm. -/
def Vector.unit (sqrt : K → K) (a : Vector K) : Vector K :=
  ⟨a.x / mag sqrt a, a.y / mag sqrt a, a.z / mag sqrt a⟩

end amr_wind.vs

namespace amr_wind.actuator

open amr_wind.interp (Fault)

variable {K : Type} [Field K]

/-- The functions called by `ComputeForceOp` whose definitions are not among the sources
at hand, as parameters: `std::sqrt` (inside `vs::mag`), `std::atan2`, `utils::radians`,
`utils::degrees`, the airfoil lookup `aflookup(aoa, cl, cd)` returning `(cl, cd)`, and
`new_wing_position_velocity` (declared at lines 39-47) returning the new points and
the new translational velocity. -/
structure Env (K : Type) where
  sqrt : K → K
  atan2 : K → K → K
  radians : K → K
  degrees : K → K
  aflookup : K → K × K
  new_wing_position_velocity :
    List (vs.Vector K) → vs.Vector K → Int → ℚ → ℚ → String → K → vs.Vector K →
      List (vs.Vector K) × vs.Vector K

/-- The members of the FLLC sub-model that `ComputeForceOp` reads. -/
structure FLLCData where
  initialized : Bool
  fllc_start_time : ℚ

/-- The members of the wing meta data (`data.meta()`) that `ComputeForceOp` uses;
`pitch_timetable_empty` is the value of `wdata.pitch_timetable.empty()`, and `end_`
is the member `end`. -/
structure WingBaseData (K : Type) where
  num_pts : Int
  dx : List K
  chord : List K
  start : vs.Vector K
  end_ : vs.Vector K
  blade_x : vs.Vector K
  vel_tr : vs.Vector K
  motion_type : String
  s_period : K
  s_vector : vs.Vector K
  pitch_timetable_empty : Bool
  time_table : List ℚ
  pitch_table : List ℚ
  pitch : K
  vel_rel : List (vs.Vector K)
  aoa : List K
  cl : List K
  cd : List K
  lift : K
  drag : K
  fllc : Option FLLCData

/-- The members of the actuator grid (`data.grid()`) that `ComputeForceOp` uses. -/
structure ActGrid (K : Type) where
  pos : List (vs.Vector K)
  vel : List (vs.Vector K)
  force : List (vs.Vector K)

/-- The simulation clock (`data.sim().time()`). -/
structure SimTime where
  current_time : ℚ
  new_time : ℚ

/-- The argument `data` of the operators. -/
structure DataType (K : Type) where
  grid : ActGrid K
  wdata : WingBaseData K
  time : SimTime

/-- Dereference of position `i` of an array of any element type. -/
def readElem {α : Type} (a : List α) (i : Int) : Except Fault α :=
  if 0 ≤ i then
    match a[i.toNat]? with
    | some v => .ok v
    | none => .error .OutOfBounds
  else .error .OutOfBounds

/-- Store to position `i` of an array of any element type. -/
def writeElem {α : Type} (a : List α) (i : Int) (v : α) : Except Fault (List α) :=
  if 0 ≤ i ∧ i.toNat < a.length then .ok (a.set i.toNat v) else .error .OutOfBounds

/-- The local reference frame `(blade_x, blade_y, blade_z)` of lines 150-159. -/
def blade_frame (E : Env K) (wdata : WingBaseData K) :
    vs.Vector K × vs.Vector K × vs.Vector K :=
  let wspan := wdata.end_.sub wdata.start
  let blade_x := wdata.blade_x.unit E.sqrt
  let blade_y := wspan.unit E.sqrt
  let blade_z := (blade_x.cross blade_y).unit E.sqrt
  let blade_x := (blade_y.cross blade_z).unit E.sqrt
  (blade_x, blade_y, blade_z)

/-- The relative wind vector of lines 161-165. -/
def wind_vector (E : Env K) (wdata : WingBaseData K) (vel : vs.Vector K) : vs.Vector K :=
  ⟨(vel.sub wdata.vel_tr).dot (blade_frame E wdata).1, 0,
    (vel.sub wdata.vel_tr).dot (blade_frame E wdata).2.2⟩

/-- The angle of attack of lines 172-181 (the diagnostic print is left out). -/
def angle_of_attack (E : Env K) (wdata : WingBaseData K) (current_time : ℚ)
    (windvector : vs.Vector K) : Except Fault K :=
  if !wdata.pitch_timetable_empty then
    match interp.linear_scalar wdata.time_table wdata.pitch_table current_time with
    | .error e => .error e
    | .ok current_pitch => .ok (E.atan2 windvector.z windvector.x + (current_pitch : K))
  else .ok (E.atan2 windvector.z windvector.x + E.radians wdata.pitch)

/-- What one pass of the loop body computes for a point: the values stored in
`grid.force`, `wdata.vel_rel`, `wdata.aoa`, `wdata.cl`, `wdata.cd`, and the local
variables `lift` and `drag`. -/
structure PointForce (K : Type) where
  force : vs.Vector K
  vel_rel : vs.Vector K
  aoa : K
  cl : K
  cd : K
  lift : K
  drag : K

/-- The body of the loop over actuator points (lines 150-208), for the sampled velocity
`vel = grid.vel[ip]` and the values `chord = chord[ip]`, `dx = dx[ip]`. -/
def compute_point (E : Env K) (wdata : WingBaseData K) (current_time : ℚ)
    (vel : vs.Vector K) (chord dx : K) : Except Fault (PointForce K) :=
  let blade_x := (blade_frame E wdata).1
  let blade_y := (blade_frame E wdata).2.1
  let blade_z := (blade_frame E wdata).2.2
  let windvector := wind_vector E wdata vel
  let vmag := vs.mag E.sqrt windvector
  match angle_of_attack E wdata current_time windvector with
  | .error e => .error e
  | .ok aoa =>
    let clcd := E.aflookup aoa
    let qval := 1 / 2 * vmag * vmag * chord * dx
    let lift := qval * clcd.1
    let drag := qval * clcd.2
    let drag_dir := ((blade_x.scale windvector.x).add (blade_z.scale windvector.z)).unit E.sqrt
    let lift_dir := (drag_dir.cross blade_y).unit E.sqrt
    .ok { force := ((lift_dir.scale lift).add (drag_dir.scale drag)).neg
          vel_rel := windvector
          aoa := E.degrees aoa
          cl := clcd.1
          cd := clcd.2
          lift := lift
          drag := drag }

/-- The loop over actuator points (lines 148-209); the reads of `grid.vel[ip]`,
`chord[ip]` and `dx[ip]` come first.  The result holds the running totals and the
updated grid and meta data. -/
def compute_force_loop (E : Env K) (npts : Int) (current_time : ℚ) (ip : Int)
    (total_lift total_drag : K) (grid : ActGrid K) (wdata : WingBaseData K) :
    Except Fault (K × K × ActGrid K × WingBaseData K) :=
  if ip < npts then do
    let vel ← readElem grid.vel ip
    let chord ← readElem wdata.chord ip
    let dx ← readElem wdata.dx ip
    let pt ← compute_point E wdata current_time vel chord dx
    let force ← writeElem grid.force ip pt.force
    let vel_rel ← writeElem wdata.vel_rel ip pt.vel_rel
    let aoa ← writeElem wdata.aoa ip pt.aoa
    let cl ← writeElem wdata.cl ip pt.cl
    let cd ← writeElem wdata.cd ip pt.cd
    compute_force_loop E npts current_time (ip + 1) (total_lift + pt.lift)
      (total_drag + pt.drag) { grid with force := force }
      { wdata with vel_rel := vel_rel, aoa := aoa, cl := cl, cd := cd }
  else .ok (total_lift, total_drag, grid, wdata)
termination_by (npts - ip).toNat
decreasing_by omega

/-- Modelled from the spec: `FLLCInit` initialises the FLLC state, which sets
`initialized`; its definition is not among the sources at hand and its other effects
and arguments are left out. -/
def FLLCInit (fllc : FLLCData) : FLLCData := { fllc with initialized := true }

/-- The lazy FLLC activation of lines 214-224; the second component tells whether
`FLLCInit` was invoked. -/
def fllc_activation (current_time : ℚ) : Option FLLCData → Option FLLCData × Bool
  | none => (none, false)
  | some fllc =>
    if !fllc.initialized && decide (current_time > fllc.fllc_start_time) then
      (some (FLLCInit fllc), true)
    else (some fllc, false)

/-- The operator `ComputeForceOp` (lines 128-225); the second component of the result
tells whether `FLLCInit` was invoked by this call. -/
def ComputeForceOp (E : Env K) (data : DataType K) : Except Fault (DataType K × Bool) :=
  let npts := data.wdata.num_pts
  let moved := E.new_wing_position_velocity data.grid.pos data.wdata.vel_tr npts
    data.time.current_time data.time.new_time data.wdata.motion_type data.wdata.s_period
    data.wdata.s_vector
  let grid := { data.grid with pos := moved.1 }
  let wdata := { data.wdata with vel_tr := moved.2 }
  match compute_force_loop E npts data.time.current_time 0 0 0 grid wdata with
  | .error e => .error e
  | .ok (total_lift, total_drag, grid, wdata) =>
    let act := fllc_activation data.time.current_time wdata.fllc
    .ok ({ data with
            grid := grid
            wdata := { wdata with lift := total_lift, drag := total_drag, fllc := act.1 } },
         act.2)

/-- Successive `ComputeForceOp` steps seen from the FLLC sub-state: the steps run at
the given current times, in order; the result is the final FLLC state and the number
of `FLLCInit` invocations. -/
def fllc_steps : List ℚ → Option FLLCData → Option FLLCData × Nat
  | [], fllc => (fllc, 0)
  | t :: ts, fllc =>
    ((fllc_steps ts (fllc_activation t fllc).1).1,
      (if (fllc_activation t fllc).2 then 1 else 0) +
        (fllc_steps ts (fllc_activation t fllc).1).2)

/-- The environment of the force-assembly example of the spec, for a given square
root: an airfoil lookup giving `Cl = 0.5`, `Cd = 0.05` at every angle, a motion update
that leaves the points and a zero body velocity as they are, and stand-ins for `atan2`
(zero when the `z` component is zero) and for the angle conversions (with `355/113` for
the number pi). -/
def example_env (sqrt : K → K) : Env K where
  sqrt := sqrt
  atan2 := fun z x => z / x
  radians := fun d => d * (355 / 113) / 180
  degrees := fun r => r * 180 / (355 / 113)
  aflookup := fun _ => (1 / 2, 1 / 20)
  new_wing_position_velocity := fun points vtr _ _ _ _ _ _ => (points, vtr)

/-- The wing of the force-assembly example of the spec: `blade_x = (1,0,0)`, span
`(0,1,0)`, zero body velocity, zero pitch and no pitch schedule, with two actuator
points of chord `3` and segment length `2`, and an FLLC sub-model starting at time `5`. -/
def example_wing : WingBaseData K where
  num_pts := 2
  dx := [2, 2]
  chord := [3, 3]
  start := ⟨0, 0, 0⟩
  end_ := ⟨0, 1, 0⟩
  blade_x := ⟨1, 0, 0⟩
  vel_tr := ⟨0, 0, 0⟩
  motion_type := "none"
  s_period := 0
  s_vector := ⟨0, 0, 0⟩
  pitch_timetable_empty := true
  time_table := []
  pitch_table := []
  pitch := 0
  vel_rel := [⟨0, 0, 0⟩, ⟨0, 0, 0⟩]
  aoa := [0, 0]
  cl := [0, 0]
  cd := [0, 0]
  lift := 0
  drag := 0
  fllc := some ⟨false, 5⟩

/-- The example wing with a pitch schedule: pitch `0` at time `0` and pitch `1` at
time `10`. -/
def example_wing_scheduled : WingBaseData K :=
  { (example_wing : WingBaseData K) with
    pitch_timetable_empty := false
    time_table := [0, 10]
    pitch_table := [0, 1] }

/-- A square root on the rationals that is exact at `1` and at `100`, the arguments of
the force-assembly example. -/
def example_sqrt (a : ℚ) : ℚ := if a = 100 then 10 else if a = 1 then 1 else 0

/-- The grid and the meta data after the motion update of lines 138-140, as the loop
over the actuator points receives them. -/
def move_wing (E : Env K) (data : DataType K) : ActGrid K × WingBaseData K :=
  let moved := E.new_wing_position_velocity data.grid.pos data.wdata.vel_tr
    data.wdata.num_pts data.time.current_time data.time.new_time data.wdata.motion_type
    data.wdata.s_period data.wdata.s_vector
  ({ data.grid with pos := moved.1 }, { data.wdata with vel_tr := moved.2 })

/-- The values that one pass of the loop body computes for point `ip` (lines 150-198):
the reads of `grid.vel[ip]`, `chord[ip]` and `dx[ip]` followed by `compute_point`. -/
def point_values (E : Env K) (current_time : ℚ) (grid : ActGrid K) (wdata : WingBaseData K)
    (ip : Int) : Except Fault (PointForce K) := do
  let vel ← readElem grid.vel ip
  let chord ← readElem wdata.chord ip
  let dx ← readElem wdata.dx ip
  compute_point E wdata current_time vel chord dx

/-- The example wing with a reference direction `blade_x = (1,1,0)` that is not
perpendicular to the span `(0,1,0)`. -/
def example_wing_skewed : WingBaseData K :=
  { (example_wing : WingBaseData K) with blade_x := ⟨1, 1, 0⟩ }

/-- The data of the force-assembly example: the example wing with the sampled velocity
`(10,0,0)` at its first point and `v` at its second point, at time `0`. -/
def example_data (v : vs.Vector K) : DataType K where
  grid :=
    { pos := [⟨0, 0, 0⟩, ⟨0, 1, 0⟩]
      vel := [⟨10, 0, 0⟩, v]
      force := [⟨0, 0, 0⟩, ⟨0, 0, 0⟩] }
  wdata := example_wing
  time := ⟨0, 1⟩

/-- A second set of data for the example wing: the first point has the same sampled
velocity, chord and segment length as in `example_data`, the second point has other
ones, and the output arrays and the stored totals have other contents. -/
def example_data_other : DataType K where
  grid :=
    { pos := [⟨0, 0, 0⟩, ⟨0, 1, 0⟩]
      vel := [⟨10, 0, 0⟩, ⟨0, 0, 5⟩]
      force := [⟨1, 2, 3⟩, ⟨4, 5, 6⟩] }
  wdata :=
    { (example_wing : WingBaseData K) with
      chord := [3, 8]
      dx := [2, 7]
      cl := [9, 9]
      lift := 11
      drag := 12 }
  time := ⟨0, 1⟩

end amr_wind.actuator

/-! The AMD LES kernels (`amr-wind/turbulence/LES/AMD.H`), over an ordered field `K`. -/

namespace amr_wind.turbulence

variable {K : Type} [LinearOrderedField K]

/-- The coefficients `Stencil::c00` ... `Stencil::c22` of the template parameter;
`amr-wind/fvm/stencils.H` is not among the sources at hand, so they are parameters. -/
structure Stencil (K : Type) where
  c00 : K
  c01 : K
  c02 : K
  c10 : K
  c11 : K
  c12 : K
  c20 : K
  c21 : K
  c22 : K

/-- The derivatives of the velocity components and of the temperature computed at
lines 67-122 of `amd_muvel` and, with the same text, at lines 155-210 of
`amd_thermal_diff`. -/
structure Gradients (K : Type) where
  ux : K
  vx : K
  wx : K
  tx : K
  uy : K
  vy : K
  wy : K
  ty : K
  uz : K
  vz : K
  wz : K
  tz : K

/-- Lines 67-122 (and 155-210): the stencil derivatives at cell `(i, j, k)`; the
arrays `vel` and `theta` (`amrex::Array4`) are functions of their indices. -/
def amd_gradients (S : Stencil K) (i j k : Int) (dx dy dz : K)
    (vel : Int → Int → Int → Int → K) (theta : Int → Int → Int → K) : Gradients K :=
  let idx := 1 / dx
  let idy := 1 / dy
  let idz := 1 / dz
  { ux := (S.c00 * vel (i + 1) j k 0 + S.c01 * vel i j k 0 + S.c02 * vel (i - 1) j k 0) * idx
    vx := (S.c00 * vel (i + 1) j k 1 + S.c01 * vel i j k 1 + S.c02 * vel (i - 1) j k 1) * idx
    wx := (S.c00 * vel (i + 1) j k 2 + S.c01 * vel i j k 2 + S.c02 * vel (i - 1) j k 2) * idx
    tx := (S.c00 * theta (i + 1) j k + S.c01 * theta i j k + S.c02 * theta (i - 1) j k) * idx
    uy := (S.c10 * vel i (j + 1) k 0 + S.c11 * vel i j k 0 + S.c12 * vel i (j - 1) k 0) * idy
    vy := (S.c10 * vel i (j + 1) k 1 + S.c11 * vel i j k 1 + S.c12 * vel i (j - 1) k 1) * idy
    wy := (S.c10 * vel i (j + 1) k 2 + S.c11 * vel i j k 2 + S.c12 * vel i (j - 1) k 2) * idy
    ty := (S.c10 * theta i (j + 1) k + S.c11 * theta i j k + S.c12 * theta i (j - 1) k) * idy
    uz := (S.c20 * vel i j (k + 1) 0 + S.c21 * vel i j k 0 + S.c22 * vel i j (k - 1) 0) * idz
    vz := (S.c20 * vel i j (k + 1) 1 + S.c21 * vel i j k 1 + S.c22 * vel i j (k - 1) 1) * idz
    wz := (S.c20 * vel i j (k + 1) 2 + S.c21 * vel i j k 2 + S.c22 * vel i j (k - 1) 2) * idz
    tz := (S.c20 * theta i j (k + 1) + S.c21 * theta i j k + S.c22 * theta i j (k - 1)) * idz }

/-- The literal `1e-15` of lines 139, 140, 220 and 221. -/
def tiny : K := 1 / 1000000000000000

/-- The divisor `denom` of `amd_muvel` (lines 137-139). -/
def amd_muvel_denom (g : Gradients K) : K :=
  (g.ux * g.ux + g.uy * g.uy + g.uz * g.uz + g.vx * g.vx + g.vy * g.vy +
    g.vz * g.vz + g.wx * g.wx + g.wy * g.wy + g.wz * g.wz) + tiny

/-- The kernel `amd_muvel` (lines 54-141). -/
def amd_muvel (S : Stencil K) (i j k : Int) (dx dy dz beta C : K)
    (vel : Int → Int → Int → Int → K) (theta : Int → Int → Int → K) : K :=
  let g := amd_gradients S i j k dx dy dz vel theta
  let dx2 := dx * dx
  let dy2 := dy * dy
  let dz2 := dz * dz
  let num_shear :=
    -2 * C *
      (g.ux * (g.ux * g.ux * dx2 + g.uy * g.uy * dy2 + g.uz * g.uz * dz2) +
        g.vy * (g.vx * g.vx * dx2 + g.vy * g.vy * dy2 + g.vz * g.vz * dz2) +
        g.wz * (g.wx * g.wx * dx2 + g.wy * g.wy * dy2 + g.wz * g.wz * dz2) +
        (g.uy + g.vx) * (g.ux * g.vx * dx2 + g.uy * g.vy * dy2 + g.uz * g.vz * dz2) +
        (g.uz + g.wx) * (g.ux * g.wx * dx2 + g.uy * g.wy * dy2 + g.uz * g.wz * dz2) +
        (g.vz + g.wy) * (g.vx * g.wx * dx2 + g.vy * g.wy * dy2 + g.vz * g.wz * dz2))
  let num_buoy := C * beta * (dx2 * g.wx * g.tx + dy2 * g.wy * g.ty + dz2 * g.wz * g.tz)
  let denom := amd_muvel_denom g
  max tiny ((num_shear + num_buoy) / denom)

/-- The divisor `denom` of `amd_thermal_diff` (line 220). -/
def amd_thermal_diff_denom (g : Gradients K) : K :=
  g.tx * g.tx + g.ty * g.ty + g.tz * g.tz + tiny

/-- The kernel `amd_thermal_diff` (lines 143-222). -/
def amd_thermal_diff (S : Stencil K) (i j k : Int) (dx dy dz C : K)
    (vel : Int → Int → Int → Int → K) (theta : Int → Int → Int → K) : K :=
  let g := amd_gradients S i j k dx dy dz vel theta
  let dx2 := dx * dx
  let dy2 := dy * dy
  let dz2 := dz * dz
  let num :=
    -C * ((dx2 * g.ux * g.tx + dy2 * g.uy * g.ty + dz2 * g.uz * g.tz) * g.tx +
      (dx2 * g.vx * g.tx + dy2 * g.vy * g.ty + dz2 * g.vz * g.tz) * g.ty +
      (dx2 * g.wx * g.tx + dy2 * g.wy * g.ty + dz2 * g.wz * g.tz) * g.tz)
  let denom := amd_thermal_diff_denom g
  max tiny (num / denom)

end amr_wind.turbulence

namespace amr_wind.interp

/-! ## Reads -/

theorem readAt_ok_of_lt (a : List ℚ) (i : Int) (h0 : 0 ≤ i) (h : i < a.length) :
    readAt a i = .ok (a.getD i.toNat 0) := by
  have hn : i.toNat < a.length := by omega
  simp [readAt, h0, List.getD_eq_getElem _ _ hn, List.getElem?_eq_getElem hn]

theorem readAt_natCast (a : List ℚ) (n : Nat) (h : n < a.length) :
    readAt a (n : Int) = .ok (a.getD n 0) := by
  have := readAt_ok_of_lt a (n : Int) (by omega) (by omega)
  simpa using this

theorem readAt_error_of_ge (a : List ℚ) (i : Int) (h : (a.length : Int) ≤ i) :
    readAt a i = .error .OutOfBounds := by
  unfold readAt
  split
  · have hn : a.length ≤ i.toNat := by omega
    simp [List.getElem?_eq_none hn]
  · rfl

theorem readAt_error_of_neg (a : List ℚ) (i : Int) (h : i < 0) :
    readAt a i = .error .OutOfBounds := by
  simp [readAt, not_le.mpr h]

/-! ## `check_bounds` -/

theorem check_bounds_short (x : List ℚ) (q : ℚ) (h : x.length < 2) :
    check_bounds x q = .ok ⟨0, .LOWLIM⟩ := by
  have : (x.length : Int) < 2 := by omega
  simp [check_bounds, this]

theorem check_bounds_eq (x : List ℚ) (q : ℚ) (h : 2 ≤ x.length) :
    check_bounds x q =
      .ok (if q < x.getD 0 0 then ⟨0, .LOWLIM⟩
           else if q > x.getD (x.length - 1) 0 then ⟨(x.length : Int) - 1, .UPLIM⟩
           else ⟨0, .VALID⟩) := by
  have h2 : ¬ (x.length : Int) < 2 := by omega
  have r0 : readAt x 0 = .ok (x.getD 0 0) := by
    simpa using readAt_natCast x 0 (by omega)
  have rl : readAt x ((x.length : Int) - 1) = .ok (x.getD (x.length - 1) 0) := by
    have := readAt_ok_of_lt x ((x.length : Int) - 1) (by omega) (by omega)
    rw [this]
    congr 2
    omega
  simp only [check_bounds, h2, if_false, r0, rl, bind, Except.bind]
  split <;> [rfl; (split <;> rfl)]

/-- C4: `check_bounds` never faults and classifies every table and query as specified:
`{0, LOWLIM}` iff the table has fewer than 2 points or `q < x[0]`; otherwise
`{len-1, UPLIM}` iff `q > x[len-1]`; otherwise `{0, VALID}`.  `VALID` is returned iff
`len >= 2` and `x[0] <= q <= x[len-1]`, and on the empty table the result is produced
without any read (a read of the empty table would fault). -/
theorem check_bounds_classifies (x : List ℚ) (q : ℚ) :
    ∃ r, check_bounds x q = .ok r ∧
      r = (if x.length < 2 ∨ q < x.getD 0 0 then ⟨0, .LOWLIM⟩
           else if q > x.getD (x.length - 1) 0 then ⟨(x.length : Int) - 1, .UPLIM⟩
           else ⟨0, .VALID⟩) ∧
      (r = ⟨0, .LOWLIM⟩ ↔ (x.length < 2 ∨ q < x.getD 0 0)) ∧
      (r = ⟨(x.length : Int) - 1, .UPLIM⟩ ↔
        (¬ (x.length < 2 ∨ q < x.getD 0 0) ∧ q > x.getD (x.length - 1) 0)) ∧
      (r = ⟨0, .VALID⟩ ↔
        (¬ (x.length < 2 ∨ q < x.getD 0 0) ∧ ¬ q > x.getD (x.length - 1) 0)) ∧
      (r.lim = .VALID ↔
        (2 ≤ x.length ∧ x.getD 0 0 ≤ q ∧ q ≤ x.getD (x.length - 1) 0)) ∧
      check_bounds [] q = .ok ⟨0, .LOWLIM⟩ := by
  by_cases hlen : x.length < 2
  · refine ⟨_, check_bounds_short x q hlen, ?_⟩
    have h2 : ¬ 2 ≤ x.length := by omega
    simp [hlen, h2, check_bounds_short]
  · have h2 : 2 ≤ x.length := by omega
    have hcb := check_bounds_eq x q h2
    generalize x.getD 0 0 = a at hcb ⊢
    generalize x.getD (x.length - 1) 0 = b at hcb ⊢
    refine ⟨_, hcb, ?_⟩
    by_cases h0 : q < a
    · have : ¬ a ≤ q := not_le.mpr h0
      simp [hlen, h0, this, check_bounds_short]
    · by_cases h1 : q > b
      · have : ¬ q ≤ b := not_le.mpr h1
        have h1' : b < q := h1
        simp [hlen, h0, h1', this, check_bounds_short, not_lt.mp h0]
      · have h0' : a ≤ q := not_lt.mp h0
        have h1' : q ≤ b := not_lt.mp h1
        have h1'' : ¬ b < q := h1
        simp [hlen, h0, h1'', h0', h1', h2, check_bounds_short]

/-! ## `bisection_search` -/

theorem shiftRight_one_eq (a : Int) : a >>> (1 : Nat) = a / 2 := by
  rw [Int.shiftRight_eq_div_pow]; rfl

/-- One iteration of the loop when `ir - il > 1`: the position read is `(il + ir) / 2`. -/
theorem bisection_loop_step (x : List ℚ) (q xl : ℚ) (il ir : Int) (h : ir - il > 1)
    (h0 : 0 ≤ il) (hr : ir ≤ x.length) :
    bisection_loop x q xl il ir =
      if (q - x.getD ((il + ir) / 2).toNat 0) * (q - xl) ≤ 0
      then bisection_loop x q xl il ((il + ir) / 2)
      else bisection_loop x q xl ((il + ir) / 2) ir := by
  rw [bisection_loop]
  simp only [h, if_true, shiftRight_one_eq]
  rw [readAt_ok_of_lt x ((il + ir) / 2) (by omega) (by omega)]

theorem bisection_loop_exit (x : List ℚ) (q xl : ℚ) (il ir : Int) (h : ¬ ir - il > 1) :
    bisection_loop x q xl il ir = .ok il := by
  rw [bisection_loop]
  simp only [h, if_false]

/-- Loop invariant of the bisection: started inside the table, the loop returns an
index `r` of `[il, ir - 1]`; the test sent the search right at `r` unless `r` is the
initial `il`, and left at `r + 1` unless `r + 1` is the initial `ir`. -/
theorem bisection_loop_spec (x : List ℚ) (q xl : ℚ) :
    ∀ (n : Nat) (il ir : Int), (ir - il).toNat = n → 0 ≤ il → il < ir → ir ≤ x.length →
      ∃ r, bisection_loop x q xl il ir = .ok r ∧ il ≤ r ∧ r + 1 ≤ ir ∧
        (r = il ∨ ¬ ((q - x.getD r.toNat 0) * (q - xl) ≤ 0)) ∧
        (r + 1 = ir ∨ (q - x.getD (r + 1).toNat 0) * (q - xl) ≤ 0) := by
  intro n
  induction n using Nat.strong_induction_on with
  | _ n ih =>
    intro il ir hn h0 hlt hr
    by_cases h : ir - il > 1
    · rw [bisection_loop_step x q xl il ir h h0 hr]
      have hm1 : il < (il + ir) / 2 := by omega
      have hm2 : (il + ir) / 2 < ir := by omega
      by_cases hc : (q - x.getD ((il + ir) / 2).toNat 0) * (q - xl) ≤ 0
      · simp only [hc, if_true]
        obtain ⟨r, hr1, hr2, hr3, hr4, hr5⟩ :=
          ih ((il + ir) / 2 - il).toNat (by omega) il ((il + ir) / 2) rfl h0 hm1 (by omega)
        refine ⟨r, hr1, hr2, by omega, hr4, ?_⟩
        rcases hr5 with hr5 | hr5
        · right; rw [hr5]; exact hc
        · right; exact hr5
      · simp only [hc, if_false]
        obtain ⟨r, hr1, hr2, hr3, hr4, hr5⟩ :=
          ih (ir - (il + ir) / 2).toNat (by omega) ((il + ir) / 2) ir rfl (by omega) hm2 hr
        refine ⟨r, hr1, by omega, hr3, ?_, hr5⟩
        rcases hr4 with hr4 | hr4
        · right; rw [hr4]; exact hc
        · right; exact hr4
    · rw [bisection_loop_exit x q xl il ir h]
      exact ⟨il, rfl, le_refl _, by omega, Or.inl rfl, Or.inl (by omega)⟩

/-- With `xl < q` the loop test `(q - v) * (q - xl) <= 0` is the comparison `q <= v`. -/
theorem test_iff_le (q xl v : ℚ) (h : xl < q) : (q - v) * (q - xl) ≤ 0 ↔ q ≤ v := by
  have hpos : 0 < q - xl := by linarith
  constructor
  · intro hc
    by_contra hlt
    have : 0 < (q - v) * (q - xl) := mul_pos (by linarith) hpos
    linarith
  · intro hle
    exact mul_nonpos_of_nonpos_of_nonneg (by linarith) hpos.le

theorem bisection_search_of_check (x : List ℚ) (q : ℚ) (r : Index)
    (hc : check_bounds x q = .ok r) (hl : r.lim ≠ .VALID) :
    bisection_search x q = .ok r := by
  have : r.lim = .LOWLIM ∨ r.lim = .UPLIM := by
    cases hr : r.lim <;> simp_all
  simp [bisection_search, hc, this]

theorem check_bounds_valid (x : List ℚ) (q : ℚ) (h2 : 2 ≤ x.length)
    (hlo : x.getD 0 0 ≤ q) (hhi : q ≤ x.getD (x.length - 1) 0) :
    check_bounds x q = .ok ⟨0, .VALID⟩ := by
  rw [check_bounds_eq x q h2, if_neg (not_lt.mpr hlo), if_neg (not_lt.mpr hhi)]

/-- In-range queries on any table (sorted or not) with at least two points: the search
returns `VALID` with an index `r` of `[0, len - 2]`; `r = 0` when `q = x[0]`, and
otherwise `x[r] < q` unless `r = 0`, and `q <= x[r + 1]`. -/
theorem bisection_search_valid (x : List ℚ) (q : ℚ) (h2 : 2 ≤ x.length)
    (hlo : x.getD 0 0 ≤ q) (hhi : q ≤ x.getD (x.length - 1) 0) :
    ∃ r : Int, bisection_search x q = .ok ⟨r, .VALID⟩ ∧ 0 ≤ r ∧ r + 2 ≤ x.length ∧
      (q = x.getD 0 0 → r = 0) ∧
      (x.getD 0 0 < q →
        (r = 0 ∨ x.getD r.toNat 0 < q) ∧ q ≤ x.getD (r + 1).toNat 0) := by
  obtain ⟨r, hr, hr0, hr1, hL, hR⟩ :=
    bisection_loop_spec x q (x.getD 0 0) _ 0 x.length rfl (le_refl _) (by omega) (le_refl _)
  have r0 : readAt x 0 = .ok (x.getD 0 0) := by
    simpa using readAt_natCast x 0 (by omega)
  have hbs : bisection_search x q = .ok ⟨r, .VALID⟩ := by
    simp only [bisection_search, check_bounds_valid x q h2 hlo hhi, r0, hr, bind, Except.bind,
      reduceCtorEq, or_self, if_false]
  have hne : r + 1 ≠ x.length := by
    intro he
    have hrn : r.toNat = x.length - 1 := by omega
    rcases hL with hL | hL
    · omega
    · apply hL
      rw [hrn]
      exact mul_nonpos_of_nonpos_of_nonneg (by linarith) (by linarith)
  refine ⟨r, hbs, hr0, by omega, ?_, ?_⟩
  · intro he
    rcases hL with hL | hL
    · exact hL
    · exfalso; apply hL; rw [he]; simp
  · intro hlt
    constructor
    · rcases hL with hL | hL
      · exact Or.inl hL
      · right
        rw [test_iff_le q _ _ hlt] at hL
        exact not_le.mp hL
    · rcases hR with hR | hR
      · exact absurd hR hne
      · exact (test_iff_le q _ _ hlt).mp hR

/-! ## Sorted tables -/

theorem sorted_getD_le (x : List ℚ) (hs : x.Sorted (· ≤ ·)) (i j : Nat) (hij : i ≤ j)
    (hj : j < x.length) : x.getD i 0 ≤ x.getD j 0 := by
  rcases Nat.eq_or_lt_of_le hij with h | h
  · subst h; exact le_refl _
  · rw [List.getD_eq_getElem _ _ (by omega), List.getD_eq_getElem _ _ hj]
    exact (List.pairwise_iff_getElem.mp hs) i j _ hj h

theorem sorted_getD_lt (x : List ℚ) (hs : x.Sorted (· < ·)) (i j : Nat) (hij : i < j)
    (hj : j < x.length) : x.getD i 0 < x.getD j 0 := by
  rw [List.getD_eq_getElem _ _ (by omega), List.getD_eq_getElem _ _ hj]
  exact (List.pairwise_iff_getElem.mp hs) i j _ hj hij

/-- Exact arithmetic (rational samples, unbounded indices): on a sorted table with at
least 2 points `bisection_search` returns a result for every query; if it is `VALID` then `0 <= idx <= len-2` and
`x[idx] <= q <= x[idx+1]`; if it is `LOWLIM` then `idx = 0`; if it is `UPLIM` then
`idx = len-1`. -/
theorem bisection_search_invariant (x : List ℚ) (q : ℚ) (hs : x.Sorted (· ≤ ·))
    (h2 : 2 ≤ x.length) :
    ∃ r, bisection_search x q = .ok r ∧
      (r.lim = .VALID →
        0 ≤ r.idx ∧ r.idx ≤ (x.length : Int) - 2 ∧
          x.getD r.idx.toNat 0 ≤ q ∧ q ≤ x.getD (r.idx.toNat + 1) 0) ∧
      (r.lim = .LOWLIM → r.idx = 0) ∧
      (r.lim = .UPLIM → r.idx = (x.length : Int) - 1) := by
  by_cases h0 : q < x.getD 0 0
  · have hc : check_bounds x q = .ok ⟨0, .LOWLIM⟩ := by
      rw [check_bounds_eq x q h2, if_pos h0]
    exact ⟨_, bisection_search_of_check x q _ hc (by simp), by simp⟩
  · by_cases h1 : q > x.getD (x.length - 1) 0
    · have hc : check_bounds x q = .ok ⟨(x.length : Int) - 1, .UPLIM⟩ := by
        rw [check_bounds_eq x q h2, if_neg h0, if_pos h1]
      exact ⟨_, bisection_search_of_check x q _ hc (by simp), by simp⟩
    · obtain ⟨r, hr, hr0, hr1, he, hlt⟩ :=
        bisection_search_valid x q h2 (not_lt.mp h0) (not_lt.mp h1)
      refine ⟨_, hr, ?_, by simp, by simp⟩
      intro _
      have hsucc : (r + 1).toNat = r.toNat + 1 := by omega
      show 0 ≤ r ∧ r ≤ (x.length : Int) - 2 ∧
        x.getD r.toNat 0 ≤ q ∧ q ≤ x.getD (r.toNat + 1) 0
      refine ⟨hr0, by omega, ?_, ?_⟩
      · rcases eq_or_lt_of_le (not_lt.mp h0) with heq | hlt0
        · have := he heq.symm
          rw [this]; simpa using (not_lt.mp h0)
        · rcases (hlt hlt0).1 with hz | hz
          · rw [hz]; simpa using (not_lt.mp h0)
          · exact le_of_lt hz
      · rcases eq_or_lt_of_le (not_lt.mp h0) with heq | hlt0
        · have hr00 := he heq.symm
          rw [hr00, ← heq]
          exact sorted_getD_le x hs 0 1 (by omega) (by omega)
        · have := (hlt hlt0).2
          rw [hsucc] at this
          exact this

/-- In-range queries on a sorted table with at least two points: the search returns
`VALID` with a bracketing index `j <= len - 2`, and `x[j] < q` unless `j = 0`. -/
theorem bisection_search_sorted (x : List ℚ) (q : ℚ) (hs : x.Sorted (· ≤ ·))
    (h2 : 2 ≤ x.length) (hlo : x.getD 0 0 ≤ q) (hhi : q ≤ x.getD (x.length - 1) 0) :
    ∃ j : Nat, bisection_search x q = .ok ⟨(j : Int), .VALID⟩ ∧ j + 1 < x.length ∧
      (j = 0 ∨ x.getD j 0 < q) ∧ x.getD j 0 ≤ q ∧ q ≤ x.getD (j + 1) 0 := by
  obtain ⟨r, hr, hr0, hr1, he, hlt⟩ := bisection_search_valid x q h2 hlo hhi
  have hcast : ((r.toNat : Nat) : Int) = r := Int.toNat_of_nonneg hr0
  have hsucc : (r + 1).toNat = r.toNat + 1 := by omega
  refine ⟨r.toNat, by rw [hcast]; exact hr, by omega, ?_⟩
  rcases eq_or_lt_of_le hlo with heq | hlt0
  · have hr00 : r = 0 := he heq.symm
    subst hr00
    refine ⟨Or.inl rfl, by simpa using hlo, ?_⟩
    rw [← heq]
    exact sorted_getD_le x hs 0 1 (by omega) (by omega)
  · obtain ⟨hL, hR⟩ := hlt hlt0
    rw [hsucc] at hR
    refine ⟨?_, ?_, hR⟩
    · rcases hL with hL | hL
      · left; omega
      · exact Or.inr hL
    · rcases hL with hL | hL
      · rw [hL]; simpa using hlo
      · exact le_of_lt hL

/-- Instance of `bisection_search_invariant`: the table `[0, 1, 2, 3]` queried at `3/2`; the result is `VALID`
with `idx = 1`. -/
theorem bisection_search_invariant_witness :
    ([0, 1, 2, 3] : List ℚ).Sorted (· ≤ ·) ∧ 2 ≤ ([0, 1, 2, 3] : List ℚ).length ∧
    bisection_search [0, 1, 2, 3] (3 / 2) = .ok ⟨1, .VALID⟩ ∧
    ∃ r, bisection_search [0, 1, 2, 3] (3 / 2) = .ok r ∧
      (r.lim = .VALID →
        0 ≤ r.idx ∧ r.idx ≤ (([0, 1, 2, 3] : List ℚ).length : Int) - 2 ∧
          ([0, 1, 2, 3] : List ℚ).getD r.idx.toNat 0 ≤ 3 / 2 ∧
          3 / 2 ≤ ([0, 1, 2, 3] : List ℚ).getD (r.idx.toNat + 1) 0) ∧
      (r.lim = .LOWLIM → r.idx = 0) ∧
      (r.lim = .UPLIM → r.idx = (([0, 1, 2, 3] : List ℚ).length : Int) - 1) := by
  refine ⟨by decide, by decide, ?_,
    bisection_search_invariant [0, 1, 2, 3] (3 / 2) (by decide) (by decide)⟩
  obtain ⟨j, hb, hj, _, hj1, hj2⟩ :=
    bisection_search_sorted [0, 1, 2, 3] (3 / 2) (by decide) (by decide)
      (by norm_num) (by norm_num)
  have hj3 : j < 3 := by
    have : j + 1 < 4 := hj
    omega
  interval_cases j
  · norm_num at hj2
  · exact hb
  · norm_num at hj1

/-! ## Scalar `linear` -/

theorem linear_of_check (x y : List ℚ) (q : ℚ) (r : Index)
    (hc : check_bounds x q = .ok r) (hl : r.lim ≠ .VALID) :
    linear x y q = readAt y r.idx := by
  have hb := bisection_search_of_check x q r hc hl
  have : r.lim = .LOWLIM ∨ r.lim = .UPLIM := by
    cases hr : r.lim <;> simp_all
  simp only [linear, hb, this, if_true]

theorem linear_of_valid (x y : List ℚ) (q : ℚ) (j : Int)
    (hb : bisection_search x q = .ok ⟨j, .VALID⟩) :
    linear x y q = interpolate x y j q := by
  simp only [linear, hb, reduceCtorEq, or_self, if_false, if_true]

theorem interpolate_eq (x y : List ℚ) (q : ℚ) (j : Nat) (hj : j + 1 < x.length)
    (hy : y.length = x.length) :
    interpolate x y (j : Int) q =
      .ok ((1 - (if x.getD (j + 1) 0 - x.getD j 0 > eps
                 then (q - x.getD j 0) / (x.getD (j + 1) 0 - x.getD j 0) else 1)) * y.getD j 0
           + (if x.getD (j + 1) 0 - x.getD j 0 > eps
              then (q - x.getD j 0) / (x.getD (j + 1) 0 - x.getD j 0) else 1)
             * y.getD (j + 1) 0) := by
  have e1 : readAt x ((j : Int) + 1) = .ok (x.getD (j + 1) 0) := by
    have := readAt_natCast x (j + 1) hj
    simpa using this
  have e2 : readAt x (j : Int) = .ok (x.getD j 0) := readAt_natCast x j (by omega)
  have e3 : readAt y ((j : Int) + 1) = .ok (y.getD (j + 1) 0) := by
    have := readAt_natCast y (j + 1) (by omega)
    simpa using this
  have e4 : readAt y (j : Int) = .ok (y.getD j 0) := readAt_natCast y j (by omega)
  simp only [interpolate, e1, e2, e3, e4, bind, Except.bind]

/-- C2 (amended): for a table with at least one point and `x[0] <= x[last]` (as in every
sorted table) and a `y` column of the same length, scalar `linear` returns exactly
`y[0]` when `q < x[0]` and exactly `y[last]` when `q > x[last]`. -/
theorem linear_flat_extrapolation (x y : List ℚ) (q : ℚ) (h1 : 1 ≤ x.length)
    (hy : y.length = x.length) (hord : x.getD 0 0 ≤ x.getD (x.length - 1) 0) :
    (q < x.getD 0 0 → linear x y q = .ok (y.getD 0 0)) ∧
    (q > x.getD (x.length - 1) 0 → linear x y q = .ok (y.getD (y.length - 1) 0)) := by
  have ry0 : readAt y 0 = .ok (y.getD 0 0) := by
    simpa using readAt_natCast y 0 (by omega)
  by_cases h2 : x.length < 2
  · have hlen : x.length = 1 := by omega
    have hc := check_bounds_short x q h2
    have hl := linear_of_check x y q _ hc (by simp)
    have hylen : y.length - 1 = 0 := by omega
    rw [hl, hylen]
    exact ⟨fun _ => ry0, fun _ => ry0⟩
  · have h2' : 2 ≤ x.length := by omega
    constructor
    · intro hq
      have hc : check_bounds x q = .ok ⟨0, .LOWLIM⟩ := by
        rw [check_bounds_eq x q h2', if_pos hq]
      rw [linear_of_check x y q _ hc (by simp)]
      exact ry0
    · intro hq
      have hq0 : ¬ q < x.getD 0 0 := not_lt.mpr (le_trans hord (le_of_lt hq))
      have hc : check_bounds x q = .ok ⟨(x.length : Int) - 1, .UPLIM⟩ := by
        rw [check_bounds_eq x q h2', if_neg hq0, if_pos hq]
      rw [linear_of_check x y q _ hc (by simp)]
      have := readAt_ok_of_lt y ((x.length : Int) - 1) (by omega) (by omega)
      rw [this]
      congr 2
      omega

/-- Instance of C2 (amended): `x = [0,1,2,3]`, `y = [0,10,20,30]`, query `5`; the
value is `30`. -/
theorem linear_flat_extrapolation_witness :
    1 ≤ ([0, 1, 2, 3] : List ℚ).length ∧
    ([0, 10, 20, 30] : List ℚ).length = ([0, 1, 2, 3] : List ℚ).length ∧
    ([0, 1, 2, 3] : List ℚ).getD 0 0 ≤
      ([0, 1, 2, 3] : List ℚ).getD (([0, 1, 2, 3] : List ℚ).length - 1) 0 ∧
    linear [0, 1, 2, 3] [0, 10, 20, 30] (-1) = .ok 0 ∧
    linear [0, 1, 2, 3] [0, 10, 20, 30] 5 = .ok 30 := by
  have hm := linear_flat_extrapolation [0, 1, 2, 3] [0, 10, 20, 30] (-1) (by decide)
    (by decide) (by norm_num)
  have hp := linear_flat_extrapolation [0, 1, 2, 3] [0, 10, 20, 30] 5 (by decide)
    (by decide) (by norm_num)
  refine ⟨by decide, by decide, by norm_num, ?_, ?_⟩
  · rw [hm.1 (by norm_num)]; norm_num
  · rw [hp.2 (by norm_num)]; norm_num

/-- C2 fails as stated on a table that is not sorted: with `x = [5, 1]`, `y = [0, 1]`
and `q = 3`, the query is above `x[last] = 1`, yet `linear` returns `y[0] = 0` (the test
`q < x[0]` comes first) and not `y[last] = 1`. -/
theorem linear_flat_extrapolation_counterexample :
    1 ≤ ([5, 1] : List ℚ).length ∧ ([0, 1] : List ℚ).length = ([5, 1] : List ℚ).length ∧
    (3 : ℚ) > ([5, 1] : List ℚ).getD (([5, 1] : List ℚ).length - 1) 0 ∧
    linear [5, 1] [0, 1] 3 = .ok 0 ∧
    linear [5, 1] [0, 1] 3 ≠ .ok (([0, 1] : List ℚ).getD (([0, 1] : List ℚ).length - 1) 0) := by
  have hc : check_bounds [5, 1] 3 = .ok ⟨0, .LOWLIM⟩ := by
    rw [check_bounds_eq _ _ (by decide)]
    norm_num
  have hv : linear [5, 1] [0, 1] 3 = .ok 0 := by
    rw [linear_of_check _ _ _ _ hc (by simp)]
    rfl
  refine ⟨by decide, by decide, by norm_num, hv, ?_⟩
  rw [hv]
  norm_num

/-- C9 (amended): on every table with fewer than 2 points `bisection_search` returns
`{0, LOWLIM}`, and on every table with exactly one point, with a `y` column of the same
length, scalar `linear` returns `y[0]` for every query. -/
theorem degenerate_table (x y : List ℚ) (q : ℚ) (hlt : x.length < 2)
    (hy : y.length = x.length) :
    bisection_search x q = .ok ⟨0, .LOWLIM⟩ ∧
    (x.length = 1 → linear x y q = .ok (y.getD 0 0)) := by
  have hc := check_bounds_short x q hlt
  refine ⟨bisection_search_of_check x q _ hc (by simp), ?_⟩
  intro h1
  rw [linear_of_check x y q _ hc (by simp)]
  simpa using readAt_natCast y 0 (by omega)

/-- Instance of C9 (amended): the one-point table `x = [2]`, `y = [7]`, query `5`. -/
theorem degenerate_table_witness :
    ([2] : List ℚ).length < 2 ∧ ([7] : List ℚ).length = ([2] : List ℚ).length ∧
    bisection_search [2] 5 = .ok ⟨0, .LOWLIM⟩ ∧
    ([2] : List ℚ).length = 1 ∧ linear [2] [7] 5 = .ok (([7] : List ℚ).getD 0 0) :=
  ⟨by decide, by decide, (degenerate_table [2] [7] 5 (by decide) (by decide)).1, by decide,
    (degenerate_table [2] [7] 5 (by decide) (by decide)).2 (by decide)⟩

/-- C9 fails as stated on the empty table: `linear` reads `yinp[0]`, a position outside
the (empty) `y` column, so no value is produced. -/
theorem degenerate_table_counterexample :
    ([] : List ℚ).length < 2 ∧ ([] : List ℚ).length = ([] : List ℚ).length ∧
    bisection_search [] 0 = .ok ⟨0, .LOWLIM⟩ ∧
    linear [] [] 0 = .error .OutOfBounds ∧
    ¬ ∃ v, linear [] [] 0 = .ok v := by
  have hc := check_bounds_short [] 0 (by decide)
  have hv : linear [] [] 0 = .error .OutOfBounds := by
    rw [linear_of_check _ _ _ _ hc (by simp)]
    rfl
  refine ⟨by decide, rfl, bisection_search_of_check _ _ _ hc (by simp), hv, ?_⟩
  rw [hv]
  simp

/-! ## Endpoint queries -/

/-- The three cases of `bisection_search` on a sorted table with at least 2 points. -/
theorem bisection_search_cases (x : List ℚ) (q : ℚ) (hs : x.Sorted (· ≤ ·))
    (h2 : 2 ≤ x.length) :
    (q < x.getD 0 0 ∧ check_bounds x q = .ok ⟨0, .LOWLIM⟩) ∨
    (x.getD (x.length - 1) 0 < q ∧
      check_bounds x q = .ok ⟨(x.length : Int) - 1, .UPLIM⟩) ∨
    (x.getD 0 0 ≤ q ∧ q ≤ x.getD (x.length - 1) 0 ∧
      check_bounds x q = .ok ⟨0, .VALID⟩ ∧
      ∃ j : Nat, bisection_search x q = .ok ⟨(j : Int), .VALID⟩ ∧ j + 1 < x.length ∧
        (j = 0 ∨ x.getD j 0 < q) ∧ x.getD j 0 ≤ q ∧ q ≤ x.getD (j + 1) 0) := by
  by_cases h0 : q < x.getD 0 0
  · left
    exact ⟨h0, by rw [check_bounds_eq x q h2, if_pos h0]⟩
  · by_cases h1 : q > x.getD (x.length - 1) 0
    · right; left
      exact ⟨h1, by rw [check_bounds_eq x q h2, if_neg h0, if_pos h1]⟩
    · right; right
      exact ⟨not_lt.mp h0, not_lt.mp h1,
        check_bounds_valid x q h2 (not_lt.mp h0) (not_lt.mp h1),
        bisection_search_sorted x q hs h2 (not_lt.mp h0) (not_lt.mp h1)⟩

/-- A `VALID` result of `bisection_search` on a sorted table is a bracket of the query. -/
theorem bisection_search_valid_inv (x : List ℚ) (q : ℚ) (hs : x.Sorted (· ≤ ·)) (j : Int)
    (hb : bisection_search x q = .ok ⟨j, .VALID⟩) :
    2 ≤ x.length ∧ ∃ k : Nat, j = (k : Int) ∧ k + 1 < x.length ∧
      (k = 0 ∨ x.getD k 0 < q) ∧ x.getD k 0 ≤ q ∧ q ≤ x.getD (k + 1) 0 := by
  by_cases h2 : x.length < 2
  · rw [bisection_search_of_check x q _ (check_bounds_short x q h2) (by simp)] at hb
    simp at hb
  · have h2' : 2 ≤ x.length := by omega
    refine ⟨h2', ?_⟩
    rcases bisection_search_cases x q hs h2' with ⟨_, hc⟩ | ⟨_, hc⟩ | ⟨_, _, _, k, hk, hrest⟩
    · rw [bisection_search_of_check x q _ hc (by simp)] at hb
      simp at hb
    · rw [bisection_search_of_check x q _ hc (by simp)] at hb
      simp at hb
    · rw [hk] at hb
      simp only [Except.ok.injEq, Index.mk.injEq, and_true] at hb
      exact ⟨k, hb.symm, hrest⟩

/-- The scan of `find_index` on a sorted table, started at a position `it` with
`1 <= it <= j + 1` where `j` brackets the query, stops at `j + 1` and yields `j`. -/
theorem find_index_loop_spec (x : List ℚ) (q : ℚ) (hs : x.Sorted (· ≤ ·)) (idx : Index)
    (j : Nat) (hj : j + 1 < x.length) (hjl : j = 0 ∨ x.getD j 0 < q)
    (hjr : q ≤ x.getD (j + 1) 0) :
    ∀ (n : Nat) (it : Int), ((j : Int) + 1 - it).toNat = n → 1 ≤ it → it ≤ (j : Int) + 1 →
      find_index_loop x q it idx = .ok { idx with idx := (j : Int) } := by
  intro n
  induction n with
  | zero =>
    intro it hn h1 hle
    have hit : it = (j : Int) + 1 := by omega
    subst hit
    rw [find_index_loop]
    have hlt : (j : Int) + 1 < (x.length : Int) := by omega
    have hread : readAt x ((j : Int) + 1) = .ok (x.getD (j + 1) 0) := by
      simpa using readAt_natCast x (j + 1) hj
    simp only [hlt, if_true, hread, hjr]
    congr 2
    omega
  | succ n ih =>
    intro it hn h1 hle
    have hlt : it < (x.length : Int) := by omega
    have hitj : it.toNat ≤ j := by omega
    have hj0 : j ≠ 0 := by omega
    have hxj : x.getD j 0 < q := by
      rcases hjl with h | h
      · exact absurd h hj0
      · exact h
    have hle' := sorted_getD_le x hs it.toNat j hitj (by omega)
    have hnot : ¬ q ≤ x.getD it.toNat 0 := by
      intro hc
      linarith
    rw [find_index_loop]
    simp only [hlt, if_true, readAt_ok_of_lt x it (by omega) hlt, hnot, if_false]
    exact ih (it + 1) (by omega) (by omega) (by omega)

/-- On a sorted table, `find_index` with a hint that is at least 1 and not beyond the
bracket of the query returns what `bisection_search` returns. -/
theorem find_index_eq_bisection (x : List ℚ) (q : ℚ) (hint : Int) (hs : x.Sorted (· ≤ ·))
    (h1 : 1 ≤ hint)
    (hh : ∀ j : Int, bisection_search x q = .ok ⟨j, .VALID⟩ → hint ≤ j + 1) :
    find_index x q hint = bisection_search x q := by
  have hnv : ∀ r : Index, check_bounds x q = .ok r → r.lim ≠ .VALID →
      find_index x q hint = bisection_search x q := by
    intro r hc hl
    rw [bisection_search_of_check x q r hc hl]
    have : r.lim = .LOWLIM ∨ r.lim = .UPLIM := by
      cases hr : r.lim <;> simp_all
    simp only [find_index, hc, this, if_true]
  by_cases h2 : x.length < 2
  · exact hnv _ (check_bounds_short x q h2) (by simp)
  · rcases bisection_search_cases x q hs (by omega) with
      ⟨_, hc⟩ | ⟨_, hc⟩ | ⟨_, _, hc, j, hb, hj, hjl, _, hjr⟩
    · exact hnv _ hc (by simp)
    · exact hnv _ hc (by simp)
    · rw [hb]
      simp only [find_index, hc, reduceCtorEq, or_self, if_false]
      exact find_index_loop_spec x q hs _ j hj hjl hjr _ hint rfl h1 (hh _ hb)

/-- On a sorted table `bisection_search` always returns, with a non-negative index. -/
theorem bisection_search_total (x : List ℚ) (q : ℚ) (hs : x.Sorted (· ≤ ·)) :
    ∃ r, bisection_search x q = .ok r ∧ 0 ≤ r.idx := by
  by_cases h2 : x.length < 2
  · exact ⟨_, bisection_search_of_check x q _ (check_bounds_short x q h2) (by simp),
      le_refl _⟩
  · rcases bisection_search_cases x q hs (by omega) with
      ⟨_, hc⟩ | ⟨_, hc⟩ | ⟨_, _, _, j, hb, _⟩
    · exact ⟨_, bisection_search_of_check x q _ hc (by simp), le_refl _⟩
    · refine ⟨_, bisection_search_of_check x q _ hc (by simp), ?_⟩
      show (0 : Int) ≤ (x.length : Int) - 1
      omega
    · exact ⟨_, hb, Int.natCast_nonneg j⟩

/-- The index returned for a query is not beyond the bracket of any later, larger
query that is in range: the next hint `idx + 1` stays usable. -/
theorem next_hint_le (x : List ℚ) (q q2 : ℚ) (hs : x.Sorted (· ≤ ·)) (r : Index)
    (hb : bisection_search x q = .ok r) (hq : q ≤ q2) (j2 : Int)
    (hb2 : bisection_search x q2 = .ok ⟨j2, .VALID⟩) :
    r.idx + 1 ≤ j2 + 1 := by
  obtain ⟨h2, k2, hk2, hk2lt, _, _, hk2r⟩ := bisection_search_valid_inv x q2 hs j2 hb2
  subst hk2
  rcases bisection_search_cases x q hs h2 with
    ⟨_, hc⟩ | ⟨hup, _⟩ | ⟨_, _, _, k, hk, hklt, hkl, _, _⟩
  · rw [bisection_search_of_check x q _ hc (by simp)] at hb
    simp only [Except.ok.injEq] at hb
    subst hb
    show (0 : Int) + 1 ≤ (k2 : Int) + 1
    omega
  · exfalso
    have := sorted_getD_le x hs (k2 + 1) (x.length - 1) (by omega) (by omega)
    linarith
  · rw [hk] at hb
    simp only [Except.ok.injEq] at hb
    subst hb
    show (k : Int) + 1 ≤ (k2 : Int) + 1
    by_contra hlt
    have hk0 : k ≠ 0 := by omega
    have hxk : x.getD k 0 < q := by
      rcases hkl with h | h
      · exact absurd h hk0
      · exact h
    have := sorted_getD_le x hs (k2 + 1) k (by omega) (by omega)
    linarith

/-- The hinted pass with any usable starting hint agrees with independent bisection. -/
theorem find_index_hinted_spec (x : List ℚ) (hs : x.Sorted (· ≤ ·)) :
    ∀ (qs : List ℚ) (hint : Int), qs.Sorted (· ≤ ·) → 1 ≤ hint →
      (∀ q ∈ qs, ∀ j : Int, bisection_search x q = .ok ⟨j, .VALID⟩ → hint ≤ j + 1) →
      ∃ rs, find_index_hinted x qs hint = .ok rs ∧
        List.Forall₂ (fun q r => bisection_search x q = .ok r) qs rs := by
  intro qs
  induction qs with
  | nil =>
    intro hint _ _ _
    exact ⟨[], rfl, List.Forall₂.nil⟩
  | cons q qs ih =>
    intro hint hq h1 hh
    obtain ⟨r, hr, hr0⟩ := bisection_search_total x q hs
    have hf : find_index x q hint = .ok r := by
      rw [find_index_eq_bisection x q hint hs h1 (hh q (List.mem_cons_self _ _)), hr]
    have hq' := List.sorted_cons.mp hq
    obtain ⟨rs, hrs, hall⟩ := ih (r.idx + 1) hq'.2 (by omega)
      (fun q2 hq2 j2 hb2 => next_hint_le x q q2 hs r hr (hq'.1 q2 hq2) j2 hb2)
    refine ⟨r :: rs, ?_, List.Forall₂.cons hr hall⟩
    simp only [find_index_hinted, hf, hrs]

/-- Exact arithmetic (rational samples, unbounded indices): for every sorted table and
every non-decreasing sequence of queries, calling
`find_index` with hint `1` for the first query and the previously returned index plus
one for each later query returns, at every query, the same `{idx, classification}`
pair as an independent `bisection_search` on that query. -/
theorem find_index_hinted_eq_bisection (x qs : List ℚ) (hs : x.Sorted (· ≤ ·))
    (hq : qs.Sorted (· ≤ ·)) :
    ∃ rs, find_index_hinted x qs 1 = .ok rs ∧
      List.Forall₂ (fun q r => bisection_search x q = .ok r) qs rs := by
  refine find_index_hinted_spec x hs qs 1 hq (le_refl _) ?_
  intro q _ j hb
  obtain ⟨_, k, hk, _⟩ := bisection_search_valid_inv x q hs j hb
  omega

/-- Instance of `find_index_hinted_eq_bisection`: the table `[0, 1, 2, 3]` and the
queries `-1, 0, 1/2, 1, 5/2, 3, 5`. -/
theorem find_index_hinted_eq_bisection_witness :
    ([0, 1, 2, 3] : List ℚ).Sorted (· ≤ ·) ∧
    ([-1, 0, 1 / 2, 1, 5 / 2, 3, 5] : List ℚ).Sorted (· ≤ ·) ∧
    ∃ rs, find_index_hinted [0, 1, 2, 3] [-1, 0, 1 / 2, 1, 5 / 2, 3, 5] 1 = .ok rs ∧
      List.Forall₂ (fun q r => bisection_search [0, 1, 2, 3] q = .ok r)
        [-1, 0, 1 / 2, 1, 5 / 2, 3, 5] rs :=
  ⟨by decide, by norm_num [List.Sorted],
    find_index_hinted_eq_bisection [0, 1, 2, 3] [-1, 0, 1 / 2, 1, 5 / 2, 3, 5]
      (by decide) (by norm_num [List.Sorted])⟩

/-! ## `linear_monotonic` and the vector form of `linear` -/

/-- On a sorted table with at least one point and a `y` column of the same length,
scalar `linear` returns a value for every query. -/
theorem linear_total (x y : List ℚ) (q : ℚ) (hs : x.Sorted (· ≤ ·)) (h1 : 1 ≤ x.length)
    (hy : y.length = x.length) : ∃ v, linear x y q = .ok v := by
  have ry0 : readAt y 0 = .ok (y.getD 0 0) := by
    simpa using readAt_natCast y 0 (by omega)
  by_cases h2 : x.length < 2
  · exact ⟨_, by rw [linear_of_check x y q _ (check_bounds_short x q h2) (by simp)]; exact ry0⟩
  · rcases bisection_search_cases x q hs (by omega) with
      ⟨_, hc⟩ | ⟨_, hc⟩ | ⟨_, _, _, j, hb, hj, _⟩
    · exact ⟨_, by rw [linear_of_check x y q _ hc (by simp)]; exact ry0⟩
    · exact ⟨_, by
        rw [linear_of_check x y q _ hc (by simp)]
        exact readAt_ok_of_lt y ((x.length : Int) - 1) (by omega) (by omega)⟩
    · exact ⟨_, by rw [linear_of_valid x y q j hb, interpolate_eq x y q j hj hy]⟩

theorem writeAt_ok (a : List ℚ) (i : Nat) (v : ℚ) (h : i < a.length) :
    writeAt a (i : Int) v = .ok (a.set i v) := by
  have : (0 : Int) ≤ (i : Int) ∧ ((i : Int)).toNat < a.length := ⟨by omega, by simpa using h⟩
  rw [writeAt, if_pos this, Int.toNat_ofNat]

/-- One iteration of the loop of `linear_monotonic` when the hinted search agrees with
the bisection: the value stored is the one scalar `linear` returns. -/
theorem linear_monotonic_loop_step (x y xout yout : List ℚ) (npts i hint : Int)
    (hi : i < npts) (q : ℚ) (hq : readAt xout i = .ok q) (r : Index)
    (hf : find_index x q hint = .ok r) (hb : bisection_search x q = .ok r) :
    linear_monotonic_loop x y xout npts i hint yout =
      match (linear x y q).bind (writeAt yout i) with
      | .error e => .error e
      | .ok yout1 => linear_monotonic_loop x y xout npts (i + 1) (r.idx + 1) yout1 := by
  rw [linear_monotonic_loop]
  simp only [hi, if_true, hq, hf, linear, hb]
  cases hl : r.lim <;> simp

/-- Loop invariant of `linear_monotonic`: entries before `i` are kept, and every entry
from `i` on receives the value of scalar `linear` at its query. -/
theorem linear_monotonic_loop_spec (x y xout : List ℚ) (hs : x.Sorted (· ≤ ·))
    (h1 : 1 ≤ x.length) (hy : y.length = x.length) (hq : xout.Sorted (· ≤ ·)) :
    ∀ (n i : Nat) (hint : Int) (yout : List ℚ), i + n = xout.length →
      yout.length = xout.length → 1 ≤ hint →
      (∀ k, i ≤ k → k < xout.length → ∀ j : Int,
        bisection_search x (xout.getD k 0) = .ok ⟨j, .VALID⟩ → hint ≤ j + 1) →
      ∃ ys, linear_monotonic_loop x y xout (xout.length : Int) (i : Int) hint yout = .ok ys ∧
        ys.length = xout.length ∧
        (∀ k, k < i → ys.getD k 0 = yout.getD k 0) ∧
        (∀ k, i ≤ k → k < xout.length → linear x y (xout.getD k 0) = .ok (ys.getD k 0)) := by
  intro n
  induction n with
  | zero =>
    intro i hint yout hin hlen _ _
    refine ⟨yout, ?_, hlen, fun _ _ => rfl, fun k h1 h2 => by omega⟩
    rw [linear_monotonic_loop]
    have : ¬ (i : Int) < (xout.length : Int) := by omega
    simp only [this, if_false]
  | succ n ih =>
    intro i hint yout hin hlen hh1 hh
    have hi : i < xout.length := by omega
    have hiI : (i : Int) < (xout.length : Int) := by omega
    obtain ⟨r, hr, hr0⟩ := bisection_search_total x (xout.getD i 0) hs
    have hf : find_index x (xout.getD i 0) hint = .ok r := by
      rw [find_index_eq_bisection x _ hint hs hh1 (hh i (le_refl _) hi), hr]
    obtain ⟨v, hv⟩ := linear_total x y (xout.getD i 0) hs h1 hy
    rw [linear_monotonic_loop_step x y xout yout _ _ hint hiI _ (readAt_natCast xout i hi) r
      hf hr, hv]
    simp only [Except.bind, writeAt_ok yout i v (by omega)]
    obtain ⟨ys, hys, hyl, hkeep, hval⟩ := ih (i + 1) (r.idx + 1) (yout.set i v) (by omega)
      (by simpa using hlen) (by omega)
      (fun k hk1 hk2 j hb2 =>
        next_hint_le x _ _ hs r hr (sorted_getD_le xout hq i k (by omega) hk2) j hb2)
    refine ⟨ys, by simpa using hys, hyl, ?_, ?_⟩
    · intro k hk
      rw [hkeep k (by omega)]
      simp only [List.getD_eq_getElem?_getD]
      rw [List.getElem?_set_ne (by omega)]
    · intro k hk1 hk2
      rcases Nat.eq_or_lt_of_le hk1 with he | hlt
      · subst he
        rw [hv, hkeep i (by omega)]
        simp only [List.getD_eq_getElem?_getD]
        rw [List.getElem?_set_self (by omega)]
        rfl
      · exact hval k (by omega) hk2

/-- Loop invariant of the vector form of `linear`. -/
theorem linear_vector_loop_spec (x y xout : List ℚ) (hs : x.Sorted (· ≤ ·))
    (h1 : 1 ≤ x.length) (hy : y.length = x.length) :
    ∀ (n i : Nat) (yout : List ℚ), i + n = xout.length → yout.length = xout.length →
      ∃ ys, linear_vector_loop x y xout (xout.length : Int) (i : Int) yout = .ok ys ∧
        ys.length = xout.length ∧
        (∀ k, k < i → ys.getD k 0 = yout.getD k 0) ∧
        (∀ k, i ≤ k → k < xout.length →
          linear_scalar x y (xout.getD k 0) = .ok (ys.getD k 0)) := by
  intro n
  induction n with
  | zero =>
    intro i yout hin hlen
    refine ⟨yout, ?_, hlen, fun _ _ => rfl, fun k h1 h2 => by omega⟩
    rw [linear_vector_loop]
    have : ¬ (i : Int) < (xout.length : Int) := by omega
    simp only [this, if_false]
  | succ n ih =>
    intro i yout hin hlen
    have hi : i < xout.length := by omega
    have hiI : (i : Int) < (xout.length : Int) := by omega
    obtain ⟨v, hv⟩ := linear_total x y (xout.getD i 0) hs h1 hy
    have hv' : linear_scalar x y (xout.getD i 0) = .ok v := hv
    rw [linear_vector_loop]
    simp only [hiI, if_true, readAt_natCast xout i hi, hv', Except.bind,
      writeAt_ok yout i v (by omega)]
    obtain ⟨ys, hys, hyl, hkeep, hval⟩ := ih (i + 1) (yout.set i v) (by omega)
      (by simpa using hlen)
    refine ⟨ys, by simpa using hys, hyl, ?_, ?_⟩
    · intro k hk
      rw [hkeep k (by omega)]
      simp only [List.getD_eq_getElem?_getD]
      rw [List.getElem?_set_ne (by omega)]
    · intro k hk1 hk2
      rcases Nat.eq_or_lt_of_le hk1 with he | hlt
      · subst he
        rw [hv', hkeep i (by omega)]
        simp only [List.getD_eq_getElem?_getD]
        rw [List.getElem?_set_self (by omega)]
        rfl
      · exact hval k (by omega) hk2

theorem list_eq_of_getD (a b : List ℚ) (hl : a.length = b.length)
    (h : ∀ k, k < a.length → a.getD k 0 = b.getD k 0) : a = b := by
  apply List.ext_getElem hl
  intro k h1 h2
  have := h k h1
  rwa [List.getD_eq_getElem _ _ h1, List.getD_eq_getElem _ _ h2] at this

theorem amrex_assert_true (assertions : Bool) : amrex_assert assertions true = .ok () := by
  simp [amrex_assert]

/-- Exact arithmetic (rational samples, unbounded indices): for every sorted table `x`
with at least one point, `y` of the same length and
every non-decreasing query sequence `xout` (with `yout` of the length of `xout`),
`linear_monotonic` returns and writes `yout[i] = linear(x, y, xout[i])` for every `i`;
the vector form of `linear` writes the same output. -/
theorem linear_monotonic_eq_linear (assertions : Bool) (x y xout yout : List ℚ)
    (hs : x.Sorted (· ≤ ·)) (h1 : 1 ≤ x.length) (hy : y.length = x.length)
    (hq : xout.Sorted (· ≤ ·)) (hyo : yout.length = xout.length) :
    ∃ ys, linear_monotonic assertions x y xout yout = .ok ys ∧
      ys.length = xout.length ∧
      (∀ k, k < xout.length → linear_scalar x y (xout.getD k 0) = .ok (ys.getD k 0)) ∧
      linear_vector assertions x y xout yout = .ok ys := by
  have ha1 : (x.length == y.length) = true := by simp [hy]
  have ha2 : (xout.length == yout.length) = true := by simp [hyo]
  obtain ⟨ys, hys, hyl, _, hval⟩ :=
    linear_monotonic_loop_spec x y xout hs h1 hy hq xout.length 0 1 yout (by omega) hyo
      (le_refl _) (by
        intro k _ _ j hb
        obtain ⟨_, m, hm, _⟩ := bisection_search_valid_inv x _ hs j hb
        omega)
  obtain ⟨zs, hzs, hzl, _, hzval⟩ :=
    linear_vector_loop_spec x y xout hs h1 hy xout.length 0 yout (by omega) hyo
  have hzy : zs = ys := by
    apply list_eq_of_getD zs ys (by omega)
    intro k hk
    have e1 := hval k (Nat.zero_le _) (by omega)
    have e2 := hzval k (Nat.zero_le _) (by omega)
    have e1' : linear_scalar x y (xout.getD k 0) = .ok (ys.getD k 0) := e1
    rw [e2] at e1'
    exact Except.ok.inj e1'
  refine ⟨ys, ?_, hyl, fun k hk => hval k (Nat.zero_le _) hk, ?_⟩
  · simp only [linear_monotonic, ha1, ha2, amrex_assert_true, bind, Except.bind]
    simpa using hys
  · simp only [linear_vector, ha1, ha2, amrex_assert_true, bind, Except.bind]
    rw [← hzy]
    simpa using hzs

/-- Instance of `linear_monotonic_eq_linear`: `x = [0,1,2]`, `y = [0,10,40]` and the
queries
`-1, 0, 1/2, 1, 3/2, 2, 5`, with assertions compiled in. -/
theorem linear_monotonic_eq_linear_witness :
    ([0, 1, 2] : List ℚ).Sorted (· ≤ ·) ∧ 1 ≤ ([0, 1, 2] : List ℚ).length ∧
    ([0, 10, 40] : List ℚ).length = ([0, 1, 2] : List ℚ).length ∧
    ([-1, 0, 1 / 2, 1, 3 / 2, 2, 5] : List ℚ).Sorted (· ≤ ·) ∧
    ([0, 0, 0, 0, 0, 0, 0] : List ℚ).length = ([-1, 0, 1 / 2, 1, 3 / 2, 2, 5] : List ℚ).length ∧
    ∃ ys, linear_monotonic true [0, 1, 2] [0, 10, 40] [-1, 0, 1 / 2, 1, 3 / 2, 2, 5]
        [0, 0, 0, 0, 0, 0, 0] = .ok ys ∧
      ys.length = ([-1, 0, 1 / 2, 1, 3 / 2, 2, 5] : List ℚ).length ∧
      (∀ k, k < ([-1, 0, 1 / 2, 1, 3 / 2, 2, 5] : List ℚ).length →
        linear_scalar [0, 1, 2] [0, 10, 40]
          (([-1, 0, 1 / 2, 1, 3 / 2, 2, 5] : List ℚ).getD k 0) = .ok (ys.getD k 0)) ∧
      linear_vector true [0, 1, 2] [0, 10, 40] [-1, 0, 1 / 2, 1, 3 / 2, 2, 5]
        [0, 0, 0, 0, 0, 0, 0] = .ok ys :=
  ⟨by decide, by decide, by decide, by norm_num [List.Sorted], by decide,
    linear_monotonic_eq_linear true [0, 1, 2] [0, 10, 40] [-1, 0, 1 / 2, 1, 3 / 2, 2, 5]
      [0, 0, 0, 0, 0, 0, 0] (by decide) (by decide) (by decide) (by norm_num [List.Sorted])
      (by decide)⟩

/-! ## Degenerate denominators -/

theorem interpolate_with_eq (dv : ℚ → ℚ → ℚ) (x y : List ℚ) (q : ℚ) (j : Nat)
    (hj : j + 1 < x.length) (hjy : j + 1 < y.length) :
    interpolate_with dv x y (j : Int) q =
      .ok ((1 - (if x.getD (j + 1) 0 - x.getD j 0 > eps
                 then dv (q - x.getD j 0) (x.getD (j + 1) 0 - x.getD j 0) else 1)) * y.getD j 0
           + (if x.getD (j + 1) 0 - x.getD j 0 > eps
              then dv (q - x.getD j 0) (x.getD (j + 1) 0 - x.getD j 0) else 1)
             * y.getD (j + 1) 0) := by
  have e1 : readAt x ((j : Int) + 1) = .ok (x.getD (j + 1) 0) := by
    have := readAt_natCast x (j + 1) hj
    simpa using this
  have e2 : readAt x (j : Int) = .ok (x.getD j 0) := readAt_natCast x j (by omega)
  have e3 : readAt y ((j : Int) + 1) = .ok (y.getD (j + 1) 0) := by
    have := readAt_natCast y (j + 1) hjy
    simpa using this
  have e4 : readAt y (j : Int) = .ok (y.getD j 0) := readAt_natCast y j (by omega)
  simp only [interpolate_with, e1, e2, e3, e4, bind, Except.bind]

theorem interpolate_eq_with (x y : List ℚ) (j : Int) (q : ℚ) :
    interpolate x y j q = interpolate_with (fun a b => a / b) x y j q := rfl

/-- C12 (amended): when assertions are compiled in, the vector form of `linear` and
`linear_monotonic` abort on tables with `len(x) != len(y)`, for every query sequence
and output array, instead of writing a value. -/
theorem length_mismatch_aborts (x y xout yout : List ℚ) (h : x.length ≠ y.length) :
    linear_vector true x y xout yout = .error .Abort ∧
    linear_monotonic true x y xout yout = .error .Abort := by
  have hb : (x.length == y.length) = false := by simpa using h
  constructor
  · simp only [linear_vector, amrex_assert, hb, Bool.not_false, Bool.and_self, if_true,
      bind, Except.bind]
  · simp only [linear_monotonic, amrex_assert, hb, Bool.not_false, Bool.and_self, if_true,
      bind, Except.bind]

/-- Instance of C12 (amended): `x = [0, 1]`, `y = [0, 10, 20]`, one query `1/2`. -/
theorem length_mismatch_aborts_witness :
    ([0, 1] : List ℚ).length ≠ ([0, 10, 20] : List ℚ).length ∧
    linear_vector true [0, 1] [0, 10, 20] [1 / 2] [0] = .error .Abort ∧
    linear_monotonic true [0, 1] [0, 10, 20] [1 / 2] [0] = .error .Abort :=
  ⟨by decide, length_mismatch_aborts [0, 1] [0, 10, 20] [1 / 2] [0] (by decide)⟩

/-- C12 fails as stated: the container form of scalar `linear` has no length check; on
`x = [0, 1]`, `y = [0, 10, 20]` (lengths 2 and 3) and the query `1/2` it returns the
value `5`.  With assertions compiled out the vector form returns a value as well. -/
theorem length_mismatch_counterexample :
    ([0, 1] : List ℚ).length ≠ ([0, 10, 20] : List ℚ).length ∧
    linear_scalar [0, 1] [0, 10, 20] (1 / 2) = .ok 5 ∧
    linear_vector false [0, 1] [0, 10, 20] [1 / 2] [0] = .ok [5] := by
  have hv : linear_scalar [0, 1] [0, 10, 20] (1 / 2) = .ok 5 := by
    obtain ⟨k, hb, hk, _, _, _⟩ :=
      bisection_search_sorted [0, 1] (1 / 2) (by decide) (by decide)
        (by norm_num) (by norm_num)
    have hk0 : k = 0 := by
      have : k + 1 < 2 := hk
      omega
    subst hk0
    show linear [0, 1] [0, 10, 20] (1 / 2) = .ok 5
    rw [linear_of_valid _ _ _ _ hb, interpolate_eq_with,
      interpolate_with_eq _ _ _ _ 0 (by decide) (by decide)]
    norm_num [eps]
  refine ⟨by decide, hv, ?_⟩
  have hr : readAt [1 / 2] 0 = .ok (1 / 2) := rfl
  have hw : writeAt [0] 0 5 = .ok [5] := rfl
  simp only [linear_vector, amrex_assert, Bool.false_and, Bool.false_eq_true, if_false,
    bind, Except.bind]
  rw [linear_vector_loop]
  simp only [List.length_singleton, Nat.cast_one, zero_lt_one, if_true, hr, hv, Except.bind, hw]
  rw [linear_vector_loop]
  simp

/-! ## Reachability of the abort branch, and bounds of the searches on any table -/

theorem readAt_cases (a : List ℚ) (i : Int) :
    (∃ v, readAt a i = .ok v) ∨ readAt a i = .error .OutOfBounds := by
  unfold readAt
  split
  · split
    · exact Or.inl ⟨_, rfl⟩
    · exact Or.inr rfl
  · exact Or.inr rfl

/-- On any table (sorted or not) `bisection_search` returns; the index is `0` for
`LOWLIM`, `len - 1` for `UPLIM` (the table then has at least 2 points) and lies in
`[0, len - 2]` for `VALID`. -/
theorem bisection_search_any (x : List ℚ) (q : ℚ) :
    ∃ r, bisection_search x q = .ok r ∧
      (r.lim = .LOWLIM → r.idx = 0) ∧
      (r.lim = .UPLIM → r.idx = (x.length : Int) - 1 ∧ 2 ≤ x.length) ∧
      (r.lim = .VALID → 0 ≤ r.idx ∧ r.idx + 2 ≤ (x.length : Int)) := by
  by_cases h2 : x.length < 2
  · exact ⟨_, bisection_search_of_check x q _ (check_bounds_short x q h2) (by simp),
      by simp⟩
  · have h2' : 2 ≤ x.length := by omega
    by_cases h0 : q < x.getD 0 0
    · have hc : check_bounds x q = .ok ⟨0, .LOWLIM⟩ := by
        rw [check_bounds_eq x q h2', if_pos h0]
      exact ⟨_, bisection_search_of_check x q _ hc (by simp), by simp⟩
    · by_cases h1 : q > x.getD (x.length - 1) 0
      · have hc : check_bounds x q = .ok ⟨(x.length : Int) - 1, .UPLIM⟩ := by
          rw [check_bounds_eq x q h2', if_neg h0, if_pos h1]
        exact ⟨_, bisection_search_of_check x q _ hc (by simp), by simp [h2']⟩
      · obtain ⟨r, hr, hr0, hr1, _, _⟩ :=
          bisection_search_valid x q h2' (not_lt.mp h0) (not_lt.mp h1)
        exact ⟨_, hr, by simp, by simp, fun _ => ⟨hr0, hr1⟩⟩

/-- The scan of `find_index` on any table, started at a position `it >= 1`: it reads
inside the table only, keeps the classification, and either leaves the index as it
was or sets it to a position of `[it - 1, len - 2]`. -/
theorem find_index_loop_any (x : List ℚ) (q : ℚ) (idx : Index) :
    ∀ (n : Nat) (it : Int), ((x.length : Int) - it).toNat = n → 1 ≤ it →
      ∃ r, find_index_loop x q it idx = .ok r ∧ r.lim = idx.lim ∧
        (r.idx = idx.idx ∨ (it - 1 ≤ r.idx ∧ r.idx + 2 ≤ (x.length : Int))) := by
  intro n
  induction n with
  | zero =>
    intro it hn h1
    have hge : ¬ it < (x.length : Int) := by omega
    rw [find_index_loop]
    simp only [hge, if_false]
    exact ⟨idx, rfl, rfl, Or.inl rfl⟩
  | succ n ih =>
    intro it hn h1
    have hlt : it < (x.length : Int) := by omega
    rw [find_index_loop]
    simp only [hlt, if_true, readAt_ok_of_lt x it (by omega) hlt]
    by_cases hc : q ≤ x.getD it.toNat 0
    · simp only [hc, if_true]
      refine ⟨_, rfl, rfl, Or.inr ⟨le_refl _, ?_⟩⟩
      show it - 1 + 2 ≤ (x.length : Int)
      omega
    · simp only [hc, if_false]
      obtain ⟨r, hr, hl, hi⟩ := ih (it + 1) (by omega) (by omega)
      refine ⟨r, hr, hl, ?_⟩
      rcases hi with hi | ⟨hi1, hi2⟩
      · exact Or.inl hi
      · exact Or.inr ⟨by omega, hi2⟩

/-- C14 (amended): for every table, every query (in any order relative to earlier
queries) and every hint `>= 1`, `find_index` reads only table positions within
`[0, len-1]` (it returns without a fault); on a table with at least one point the
returned index is within `[0, len-1]`, and when the classification is `VALID` it is
within `[0, len-2]`; on the empty table the result is `{0, LOWLIM}`. -/
theorem find_index_in_bounds (x : List ℚ) (q : ℚ) (hint : Int) (h1 : 1 ≤ hint) :
    ∃ r, find_index x q hint = .ok r ∧
      (1 ≤ x.length → 0 ≤ r.idx ∧ r.idx ≤ (x.length : Int) - 1) ∧
      (r.lim = .VALID → 0 ≤ r.idx ∧ r.idx ≤ (x.length : Int) - 2) ∧
      (x.length = 0 → r = ⟨0, .LOWLIM⟩) := by
  have hnv : ∀ r : Index, check_bounds x q = .ok r → r.lim ≠ .VALID →
      find_index x q hint = .ok r := by
    intro r hc hl
    have : r.lim = .LOWLIM ∨ r.lim = .UPLIM := by
      cases hr : r.lim <;> simp_all
    simp only [find_index, hc, this, if_true]
  by_cases h2 : x.length < 2
  · refine ⟨_, hnv _ (check_bounds_short x q h2) (by simp), ?_, by simp, fun _ => rfl⟩
    intro hx
    show (0 : Int) ≤ 0 ∧ (0 : Int) ≤ (x.length : Int) - 1
    omega
  · have h2' : 2 ≤ x.length := by omega
    by_cases h0 : q < x.getD 0 0
    · have hc : check_bounds x q = .ok ⟨0, .LOWLIM⟩ := by
        rw [check_bounds_eq x q h2', if_pos h0]
      refine ⟨_, hnv _ hc (by simp), ?_, by simp, fun h => by omega⟩
      intro _
      show (0 : Int) ≤ 0 ∧ (0 : Int) ≤ (x.length : Int) - 1
      omega
    · by_cases hl : q > x.getD (x.length - 1) 0
      · have hc : check_bounds x q = .ok ⟨(x.length : Int) - 1, .UPLIM⟩ := by
          rw [check_bounds_eq x q h2', if_neg h0, if_pos hl]
        refine ⟨_, hnv _ hc (by simp), ?_, by simp, fun h => by omega⟩
        intro _
        show (0 : Int) ≤ (x.length : Int) - 1 ∧ (x.length : Int) - 1 ≤ (x.length : Int) - 1
        omega
      · have hc := check_bounds_valid x q h2' (not_lt.mp h0) (not_lt.mp hl)
        obtain ⟨r, hr, hlim, hidx⟩ := find_index_loop_any x q ⟨0, .VALID⟩ _ hint rfl h1
        have hf : find_index x q hint = .ok r := by
          simp only [find_index, hc, reduceCtorEq, or_self, if_false]
          exact hr
        have hb : 0 ≤ r.idx ∧ r.idx ≤ (x.length : Int) - 2 := by
          rcases hidx with hi | ⟨hi1, hi2⟩
          · rw [hi]
            show (0 : Int) ≤ 0 ∧ (0 : Int) ≤ (x.length : Int) - 2
            omega
          · omega
        exact ⟨r, hf, fun _ => ⟨hb.1, by omega⟩, fun _ => hb, fun h => by omega⟩

/-- Instance of C14 (amended): the hint `3` on the table `[0, 1, 2]`, past its end. -/
theorem find_index_in_bounds_witness :
    (1 : Int) ≤ 3 ∧
    ∃ r, find_index [0, 1, 2] (3 / 2) 3 = .ok r ∧
      (1 ≤ ([0, 1, 2] : List ℚ).length →
        0 ≤ r.idx ∧ r.idx ≤ (([0, 1, 2] : List ℚ).length : Int) - 1) ∧
      (r.lim = .VALID → 0 ≤ r.idx ∧ r.idx ≤ (([0, 1, 2] : List ℚ).length : Int) - 2) ∧
      (([0, 1, 2] : List ℚ).length = 0 → r = ⟨0, .LOWLIM⟩) :=
  ⟨by decide, find_index_in_bounds [0, 1, 2] (3 / 2) 3 (by decide)⟩

/-- C14 fails as stated on the empty table: `find_index` returns the index `0`, which is
not a position of the table (`[0, len-1]` is empty). -/
theorem find_index_in_bounds_counterexample :
    (1 : Int) ≤ 1 ∧ find_index [] 0 1 = .ok ⟨0, .LOWLIM⟩ ∧
    ¬ ((0 : Int) ≤ 0 ∧ (0 : Int) ≤ (([] : List ℚ).length : Int) - 1) := by
  refine ⟨by decide, ?_, by decide⟩
  have hc := check_bounds_short [] 0 (by decide)
  simp only [find_index, hc, true_or, if_true]

/-- Every position read by the bisection loop lies strictly between the `il` and `ir`
it was started with. -/
theorem bisection_loop_reads_between (x : List ℚ) (q xl : ℚ) :
    ∀ (n : Nat) (il ir : Int), (ir - il).toNat = n →
      ∀ m ∈ bisection_loop_reads x q xl il ir, il < m ∧ m < ir := by
  intro n
  induction n using Nat.strong_induction_on with
  | _ n ih =>
    intro il ir hn m hm
    rw [bisection_loop_reads] at hm
    by_cases h : ir - il > 1
    · simp only [h, if_true, shiftRight_one_eq, List.mem_cons] at hm
      have hm1 : il < (il + ir) / 2 := by omega
      have hm2 : (il + ir) / 2 < ir := by omega
      rcases hm with hm | hm
      · rw [hm]; exact ⟨hm1, hm2⟩
      · rcases readAt_cases x ((il + ir) / 2) with ⟨v, hv⟩ | hv
        · rw [hv] at hm
          by_cases hc : (q - v) * (q - xl) ≤ 0
          · simp only [hc, if_true] at hm
            have := ih ((il + ir) / 2 - il).toNat (by omega) il ((il + ir) / 2) rfl m hm
            omega
          · simp only [hc, if_false] at hm
            have := ih (ir - (il + ir) / 2).toNat (by omega) ((il + ir) / 2) ir rfl m hm
            omega
        · rw [hv] at hm
          simp at hm
    · simp only [h, if_false, List.not_mem_nil] at hm

/-- Exact arithmetic (rational samples, unbounded indices): for every table (sorted or
not) with at least 2 points and every query
classified `VALID`, every position `mid` read by the loop of `bisection_search`
satisfies `1 <= mid <= len-1`, the search returns, and the returned index satisfies
`0 <= idx <= len-2`; for a table of exactly 2 points the returned index is `0`. -/
theorem bisection_reads_in_table (x : List ℚ) (q : ℚ) (h2 : 2 ≤ x.length)
    (hv : check_bounds x q = .ok ⟨0, .VALID⟩) :
    (∀ m ∈ bisection_loop_reads x q (x.getD 0 0) 0 x.length,
      1 ≤ m ∧ m ≤ (x.length : Int) - 1) ∧
    ∃ r : Int, bisection_search x q = .ok ⟨r, .VALID⟩ ∧ 0 ≤ r ∧ r ≤ (x.length : Int) - 2 ∧
      (x.length = 2 → r = 0) := by
  constructor
  · intro m hm
    have := bisection_loop_reads_between x q (x.getD 0 0) _ 0 x.length rfl m hm
    omega
  · have hlo : x.getD 0 0 ≤ q := by
      by_contra h
      rw [check_bounds_eq x q h2, if_pos (not_le.mp h)] at hv
      simp at hv
    have hhi : q ≤ x.getD (x.length - 1) 0 := by
      by_contra h
      rw [check_bounds_eq x q h2, if_neg (not_lt.mpr hlo), if_pos (not_le.mp h)] at hv
      simp at hv
    obtain ⟨r, hr, hr0, hr1, _, _⟩ := bisection_search_valid x q h2 hlo hhi
    exact ⟨r, hr, hr0, by omega, fun h => by omega⟩

/-- Instance of `bisection_reads_in_table`: the unsorted table `[0, 5, 1, 3]` queried
at `2`; the positions
read are `2` and `1`. -/
theorem bisection_reads_in_table_witness :
    2 ≤ ([0, 5, 1, 3] : List ℚ).length ∧
    check_bounds [0, 5, 1, 3] 2 = .ok ⟨0, .VALID⟩ ∧
    bisection_loop_reads [0, 5, 1, 3] 2 (([0, 5, 1, 3] : List ℚ).getD 0 0) 0
        ([0, 5, 1, 3] : List ℚ).length ≠ [] ∧
    (∀ m ∈ bisection_loop_reads [0, 5, 1, 3] 2 (([0, 5, 1, 3] : List ℚ).getD 0 0) 0
        ([0, 5, 1, 3] : List ℚ).length,
      1 ≤ m ∧ m ≤ (([0, 5, 1, 3] : List ℚ).length : Int) - 1) ∧
    ∃ r : Int, bisection_search [0, 5, 1, 3] 2 = .ok ⟨r, .VALID⟩ ∧ 0 ≤ r ∧
      r ≤ (([0, 5, 1, 3] : List ℚ).length : Int) - 2 ∧
      (([0, 5, 1, 3] : List ℚ).length = 2 → r = 0) := by
  have hv : check_bounds [0, 5, 1, 3] 2 = .ok ⟨0, .VALID⟩ :=
    check_bounds_valid _ _ (by decide) (by norm_num) (by norm_num)
  refine ⟨by decide, hv, ?_, bisection_reads_in_table [0, 5, 1, 3] 2 (by decide) hv⟩
  rw [bisection_loop_reads]
  simp

end amr_wind.interp

namespace amr_wind.ABLMesoscaleForcing

/-! ## `forcingToConstant` -/

theorem compare_chars_eq_zero (a b : List Char) : compare_chars a b = 0 ↔ a = b := by
  induction a generalizing b with
  | nil =>
    cases b with
    | nil => simp [compare_chars]
    | cons c cs => simp [compare_chars]
  | cons d ds ih =>
    cases b with
    | nil => simp [compare_chars]
    | cons c cs =>
      simp only [compare_chars]
      by_cases h1 : d < c
      · simp only [h1, if_true]
        constructor
        · intro h; omega
        · intro h
          rw [List.cons.injEq] at h
          rw [h.1] at h1
          exact absurd h1 (lt_irrefl _)
      · by_cases h2 : c < d
        · simp only [h1, h2, if_true, if_false]
          constructor
          · intro h; omega
          · intro h
            rw [List.cons.injEq] at h
            rw [h.1] at h2
            exact absurd h2 (lt_irrefl _)
        · simp only [h1, h2, if_false]
          have hcd : d = c := le_antisymm (not_lt.mp h2) (not_lt.mp h1)
          rw [ih cs, List.cons.injEq]
          constructor
          · intro h; exact ⟨hcd, h⟩
          · intro h; exact h.2

/-- C20: for every string value, `forcingToConstant` returns true if and only if
`m_forcing_transition` ends with the 8-character suffix `Constant`; it returns false
for every string shorter than 8 characters, the empty string included. -/
theorem forcingToConstant_iff (s : List Char) :
    (forcingToConstant s = true ↔ ∃ p : List Char, s = p ++ "Constant".toList) ∧
    (s.length < 8 → forcingToConstant s = false) ∧
    forcingToConstant [] = false ∧
    ("Constant".toList).length = 8 := by
  have hlen : ("Constant".toList).length = 8 := by decide
  refine ⟨?_, ?_, by decide, hlen⟩
  · by_cases h : s.length < 8
    · simp only [forcingToConstant, h, if_true, Bool.false_eq_true, false_iff]
      rintro ⟨p, hp⟩
      rw [hp, List.length_append, hlen] at h
      omega
    · simp only [forcingToConstant, h, if_false, string_compare, beq_iff_eq]
      rw [eq_comm, compare_chars_eq_zero]
      have hd : (s.drop (s.length - 8)).length = 8 := by
        rw [List.length_drop]; omega
      have ht : (s.drop (s.length - 8)).take 8 = s.drop (s.length - 8) := by
        apply List.take_of_length_le
        omega
      rw [ht]
      constructor
      · intro he
        refine ⟨s.take (s.length - 8), ?_⟩
        rw [← he, List.take_append_drop]
      · rintro ⟨p, hp⟩
        have hpl : s.length - 8 = p.length := by
          rw [hp, List.length_append, hlen]; omega
        rw [hpl, hp, List.drop_left]
  · intro h
    simp only [forcingToConstant, h, if_true]

end amr_wind.ABLMesoscaleForcing

namespace amr_wind.vs

/-! ## Vector algebra -/

variable {K : Type} [LinearOrderedField K]

theorem dot_comm (a b : Vector K) : a.dot b = b.dot a := by
  simp only [Vector.dot]; ring

theorem mag_eq (sqrt : K → K) (a : Vector K) : mag sqrt a = sqrt (a.dot a) := rfl

theorem dot_self_nonneg (a : Vector K) : 0 ≤ a.dot a := by
  simp only [Vector.dot]
  nlinarith [mul_self_nonneg a.x, mul_self_nonneg a.y, mul_self_nonneg a.z]

theorem dot_self_ne_zero (a : Vector K) (h : a ≠ ⟨0, 0, 0⟩) : a.dot a ≠ 0 := by
  intro h0
  apply h
  simp only [Vector.dot] at h0
  have hx : a.x = 0 := by
    nlinarith [mul_self_nonneg a.x, mul_self_nonneg a.y, mul_self_nonneg a.z]
  have hy : a.y = 0 := by
    nlinarith [mul_self_nonneg a.x, mul_self_nonneg a.y, mul_self_nonneg a.z]
  have hz : a.z = 0 := by
    nlinarith [mul_self_nonneg a.x, mul_self_nonneg a.y, mul_self_nonneg a.z]
  cases a
  simp_all

theorem dot_cross_left (a b : Vector K) : (a.cross b).dot a = 0 := by
  simp only [Vector.dot, Vector.cross]; ring

theorem dot_cross_right (a b : Vector K) : (a.cross b).dot b = 0 := by
  simp only [Vector.dot, Vector.cross]; ring

/-- Lagrange's identity. -/
theorem dot_cross_cross (a b : Vector K) :
    (a.cross b).dot (a.cross b) = a.dot a * b.dot b - a.dot b * a.dot b := by
  simp only [Vector.dot, Vector.cross]; ring

/-- The scalar triple product. -/
theorem dot_cross_assoc (a b c : Vector K) : (a.cross b).dot c = a.dot (b.cross c) := by
  simp only [Vector.dot, Vector.cross]; ring

theorem dot_combination (a b c : Vector K) (p q : K) :
    ((a.scale p).add (b.scale q)).dot c = p * a.dot c + q * b.dot c := by
  simp only [Vector.dot, Vector.add, Vector.scale]; ring

theorem dot_combination_self (a b : Vector K) (p q : K) :
    ((a.scale p).add (b.scale q)).dot ((a.scale p).add (b.scale q)) =
      p * p * a.dot a + 2 * (p * q) * a.dot b + q * q * b.dot b := by
  simp only [Vector.dot, Vector.add, Vector.scale]; ring

theorem dot_neg_left (a b : Vector K) : a.neg.dot b = -(a.dot b) := by
  simp only [Vector.dot, Vector.neg]; ring

theorem dot_unit_left (sqrt : K → K) (a b : Vector K) :
    (a.unit sqrt).dot b = a.dot b / mag sqrt a := by
  simp only [Vector.dot, Vector.unit]; ring

theorem dot_unit_right (sqrt : K → K) (a b : Vector K) :
    a.dot (b.unit sqrt) = a.dot b / mag sqrt b := by
  simp only [Vector.dot, Vector.unit]; ring

theorem cross_unit_unit_dot (sqrt : K → K) (a b : Vector K) :
    ((a.unit sqrt).cross (b.unit sqrt)).dot ((a.unit sqrt).cross (b.unit sqrt)) =
      (a.cross b).dot (a.cross b) / ((mag sqrt a * mag sqrt b) * (mag sqrt a * mag sqrt b)) := by
  simp only [Vector.dot, Vector.cross, Vector.unit]; ring

theorem mag_mul_self (sqrt : K → K)
    (hs : ∀ c : K, 0 ≤ c → 0 ≤ sqrt c ∧ sqrt c * sqrt c = c) (a : Vector K) :
    mag sqrt a * mag sqrt a = a.dot a :=
  (hs _ (dot_self_nonneg a)).2

theorem mag_ne_zero (sqrt : K → K)
    (hs : ∀ c : K, 0 ≤ c → 0 ≤ sqrt c ∧ sqrt c * sqrt c = c) (a : Vector K) (h : a.dot a ≠ 0) :
    mag sqrt a ≠ 0 := by
  intro h0
  apply h
  rw [← mag_mul_self sqrt hs a, h0, mul_zero]

theorem mag_eq_one (sqrt : K → K)
    (hs : ∀ c : K, 0 ≤ c → 0 ≤ sqrt c ∧ sqrt c * sqrt c = c) (a : Vector K) (h : a.dot a = 1) :
    mag sqrt a = 1 := by
  have h1 := mag_mul_self sqrt hs a
  have h2 : 0 ≤ mag sqrt a := (hs _ (dot_self_nonneg a)).1
  rw [h] at h1
  nlinarith

theorem unit_dot_self (sqrt : K → K)
    (hs : ∀ c : K, 0 ≤ c → 0 ≤ sqrt c ∧ sqrt c * sqrt c = c) (a : Vector K) (h : a.dot a ≠ 0) :
    (a.unit sqrt).dot (a.unit sqrt) = 1 := by
  rw [dot_unit_left, dot_unit_right, div_div, mag_mul_self sqrt hs a]
  exact div_self h

theorem sqrt_mul_self (sqrt : K → K)
    (hs : ∀ c : K, 0 ≤ c → 0 ≤ sqrt c ∧ sqrt c * sqrt c = c) (c : K) (hc : 0 ≤ c) :
    sqrt (c * c) = c := by
  obtain ⟨h1, h2⟩ := hs (c * c) (mul_self_nonneg c)
  nlinarith

end amr_wind.vs

namespace amr_wind.actuator

open amr_wind.interp (Fault)
open amr_wind.vs

/-! ## `ComputeForceOp`: the local frame -/

variable {K : Type} [LinearOrderedField K]

/-- The frame of `ComputeForceOp` is orthonormal when the span is non-zero, the
reference `blade_x` is not parallel to it and the square root is exact. -/
theorem blade_frame_orthonormal (E : Env K)
    (hs : ∀ c : K, 0 ≤ c → 0 ≤ E.sqrt c ∧ E.sqrt c * E.sqrt c = c) (wdata : WingBaseData K)
    (hspan : wdata.end_.sub wdata.start ≠ ⟨0, 0, 0⟩)
    (hpar : wdata.blade_x.cross (wdata.end_.sub wdata.start) ≠ ⟨0, 0, 0⟩) :
    (blade_frame E wdata).1.dot (blade_frame E wdata).1 = 1 ∧
    (blade_frame E wdata).2.1.dot (blade_frame E wdata).2.1 = 1 ∧
    (blade_frame E wdata).2.2.dot (blade_frame E wdata).2.2 = 1 ∧
    (blade_frame E wdata).1.dot (blade_frame E wdata).2.1 = 0 ∧
    (blade_frame E wdata).1.dot (blade_frame E wdata).2.2 = 0 ∧
    (blade_frame E wdata).2.1.dot (blade_frame E wdata).2.2 = 0 ∧
    (blade_frame E wdata).1 = (blade_frame E wdata).2.1.cross (blade_frame E wdata).2.2 := by
  set s := wdata.end_.sub wdata.start with hsdef
  set b := wdata.blade_x with hbdef
  have hss : s.dot s ≠ 0 := dot_self_ne_zero s hspan
  have hcc : (b.cross s).dot (b.cross s) ≠ 0 := dot_self_ne_zero _ hpar
  have hbb : b.dot b ≠ 0 := by
    intro h0
    have hL := dot_cross_cross b s
    rw [h0] at hL
    have hn := dot_self_nonneg (b.cross s)
    have : (b.cross s).dot (b.cross s) = 0 := by nlinarith [mul_self_nonneg (b.dot s)]
    exact hcc this
  have hms := mag_ne_zero E.sqrt hs s hss
  have hmb := mag_ne_zero E.sqrt hs b hbb
  -- blade_y and the first blade_x are unit vectors
  have hy1 : (s.unit E.sqrt).dot (s.unit E.sqrt) = 1 := unit_dot_self E.sqrt hs s hss
  -- the cross product of the two is not zero
  have hc0 : ((b.unit E.sqrt).cross (s.unit E.sqrt)).dot
      ((b.unit E.sqrt).cross (s.unit E.sqrt)) ≠ 0 := by
    rw [cross_unit_unit_dot]
    exact div_ne_zero hcc (mul_ne_zero (mul_ne_zero hmb hms) (mul_ne_zero hmb hms))
  set c := (b.unit E.sqrt).cross (s.unit E.sqrt) with hcdef
  have hz1 : (c.unit E.sqrt).dot (c.unit E.sqrt) = 1 := unit_dot_self E.sqrt hs c hc0
  have hzy : (c.unit E.sqrt).dot (s.unit E.sqrt) = 0 := by
    rw [dot_unit_left, hcdef, dot_cross_right, zero_div]
  have hyz : (s.unit E.sqrt).dot (c.unit E.sqrt) = 0 := by
    rw [dot_comm]; exact hzy
  -- the second blade_x
  set e := (s.unit E.sqrt).cross (c.unit E.sqrt) with hedef
  have he1 : e.dot e = 1 := by
    rw [hedef, dot_cross_cross, hy1, hz1, hyz]; ring
  have hme : mag E.sqrt e = 1 := mag_eq_one E.sqrt hs e he1
  have hxe : e.unit E.sqrt = e := by
    simp only [Vector.unit, hme, div_one]
  have hframe : blade_frame E wdata = (e, s.unit E.sqrt, c.unit E.sqrt) := by
    simp only [blade_frame, ← hsdef, ← hbdef, ← hcdef, ← hedef, hxe]
  rw [hframe]
  refine ⟨he1, hy1, hz1, ?_, ?_, hyz, rfl⟩
  · show e.dot (s.unit E.sqrt) = 0
    rw [hedef, dot_cross_left]
  · show e.dot (c.unit E.sqrt) = 0
    rw [hedef, dot_cross_right]

/-! ## `ComputeForceOp`: one actuator point -/

/-- The outcome of the loop body for one point, field by field, once the angle of
attack `a` has been computed. -/
theorem compute_point_eq (E : Env K) (wdata : WingBaseData K) (current_time : ℚ)
    (vel : Vector K) (chord dx a : K)
    (ha : angle_of_attack E wdata current_time (wind_vector E wdata vel) = .ok a) :
    ∃ r drag_dir, compute_point E wdata current_time vel chord dx = .ok r ∧
      drag_dir = (((blade_frame E wdata).1.scale (wind_vector E wdata vel).x).add
        ((blade_frame E wdata).2.2.scale (wind_vector E wdata vel).z)).unit E.sqrt ∧
      r.force = ((((drag_dir.cross (blade_frame E wdata).2.1).unit E.sqrt).scale r.lift).add
        (drag_dir.scale r.drag)).neg ∧
      r.vel_rel = wind_vector E wdata vel ∧
      r.aoa = E.degrees a ∧
      r.cl = (E.aflookup a).1 ∧
      r.cd = (E.aflookup a).2 ∧
      r.lift = 1 / 2 * mag E.sqrt (wind_vector E wdata vel) *
        mag E.sqrt (wind_vector E wdata vel) * chord * dx * (E.aflookup a).1 ∧
      r.drag = 1 / 2 * mag E.sqrt (wind_vector E wdata vel) *
        mag E.sqrt (wind_vector E wdata vel) * chord * dx * (E.aflookup a).2 := by
  simp only [compute_point, ha]
  exact ⟨_, _, rfl, rfl, rfl, rfl, rfl, rfl, rfl, rfl, rfl⟩

open amr_wind.interp (Fault)
open amr_wind.vs

variable {K : Type} [LinearOrderedField K]

/-- C17: in exact arithmetic (an exact square root), for every wing whose span is
non-zero and whose reference `blade_x` is not parallel to the span, and every point with
non-zero in-plane relative wind, the force stored for the point satisfies
`force . drag_dir = -drag`, `force . lift_dir = -lift` and `force . blade_y = 0`, where
`drag_dir` is the unit in-plane wind direction and `lift_dir = drag_dir x blade_y` (its
normalisation changes nothing), `force` is `-(lift_dir * lift + drag_dir * drag)`, and
`lift` and `drag` are `0.5 * (wx^2 + wz^2) * chord * dx` times `Cl` and `Cd`, the airfoil
lookup at the computed angle of attack; when the relative wind is along `+blade_x`,
`force . blade_x = -drag` and `force . blade_z = -lift`. -/
theorem force_direction (E : Env K)
    (hs : ∀ c : K, 0 ≤ c → 0 ≤ E.sqrt c ∧ E.sqrt c * E.sqrt c = c)
    (wdata : WingBaseData K) (current_time : ℚ) (vel : Vector K) (chord dx a : K)
    (hspan : wdata.end_.sub wdata.start ≠ ⟨0, 0, 0⟩)
    (hpar : wdata.blade_x.cross (wdata.end_.sub wdata.start) ≠ ⟨0, 0, 0⟩)
    (hwind : (wind_vector E wdata vel).x ≠ 0 ∨ (wind_vector E wdata vel).z ≠ 0)
    (ha : angle_of_attack E wdata current_time (wind_vector E wdata vel) = .ok a) :
    ∃ r drag_dir lift_dir, compute_point E wdata current_time vel chord dx = .ok r ∧
      drag_dir = (((blade_frame E wdata).1.scale (wind_vector E wdata vel).x).add
        ((blade_frame E wdata).2.2.scale (wind_vector E wdata vel).z)).unit E.sqrt ∧
      lift_dir = drag_dir.cross (blade_frame E wdata).2.1 ∧
      lift_dir.unit E.sqrt = lift_dir ∧
      drag_dir.dot drag_dir = 1 ∧
      drag_dir.dot (blade_frame E wdata).2.1 = 0 ∧
      r.force = ((lift_dir.scale r.lift).add (drag_dir.scale r.drag)).neg ∧
      r.lift = 1 / 2 * ((wind_vector E wdata vel).x * (wind_vector E wdata vel).x +
        (wind_vector E wdata vel).z * (wind_vector E wdata vel).z) * chord * dx *
        (E.aflookup a).1 ∧
      r.drag = 1 / 2 * ((wind_vector E wdata vel).x * (wind_vector E wdata vel).x +
        (wind_vector E wdata vel).z * (wind_vector E wdata vel).z) * chord * dx *
        (E.aflookup a).2 ∧
      r.force.dot drag_dir = -r.drag ∧
      r.force.dot lift_dir = -r.lift ∧
      r.force.dot (blade_frame E wdata).2.1 = 0 ∧
      ((wind_vector E wdata vel).z = 0 → 0 < (wind_vector E wdata vel).x →
        r.force.dot (blade_frame E wdata).1 = -r.drag ∧
        r.force.dot (blade_frame E wdata).2.2 = -r.lift) := by
  obtain ⟨hxx, hyy, hzz, hxy, hxz, hyz, hx⟩ := blade_frame_orthonormal E hs wdata hspan hpar
  obtain ⟨r, dd, hr, hdd, hforce, _, _, _, _, hlift, hdrag⟩ :=
    compute_point_eq E wdata current_time vel chord dx a ha
  set bx := (blade_frame E wdata).1 with hbx
  set by_ := (blade_frame E wdata).2.1 with hby
  set bz := (blade_frame E wdata).2.2 with hbz
  set wx := (wind_vector E wdata vel).x with hwx
  set wz := (wind_vector E wdata vel).z with hwz
  set d0 := (bx.scale wx).add (bz.scale wz) with hd0
  have hzy : bz.dot by_ = 0 := by rw [dot_comm]; exact hyz
  have hzx : bz.dot bx = 0 := by rw [dot_comm]; exact hxz
  have hd0sq : d0.dot d0 = wx * wx + wz * wz := by
    rw [hd0, dot_combination_self, hxx, hzz, hxz]; ring
  have hd0ne : d0.dot d0 ≠ 0 := by
    rw [hd0sq]
    rcases hwind with h | h
    · have := mul_self_pos.mpr h
      nlinarith [mul_self_nonneg wz]
    · have := mul_self_pos.mpr h
      nlinarith [mul_self_nonneg wx]
  have hdd1 : dd.dot dd = 1 := by rw [hdd]; exact unit_dot_self E.sqrt hs d0 hd0ne
  have hddy : dd.dot by_ = 0 := by
    rw [hdd, dot_unit_left, hd0, dot_combination, hxy, hzy]; simp
  set l0 := dd.cross by_ with hl0
  have hl0sq : l0.dot l0 = 1 := by
    rw [hl0, dot_cross_cross, hdd1, hyy, hddy]; ring
  have hml0 : mag E.sqrt l0 = 1 := mag_eq_one E.sqrt hs l0 hl0sq
  have hl0u : l0.unit E.sqrt = l0 := by
    simp only [Vector.unit, hml0, div_one]
  have hl0d : l0.dot dd = 0 := by rw [hl0, dot_cross_left]
  have hdl0 : dd.dot l0 = 0 := by rw [dot_comm]; exact hl0d
  have hl0y : l0.dot by_ = 0 := by rw [hl0, dot_cross_right]
  rw [hl0u] at hforce
  have hmm := mag_mul_self E.sqrt hs (wind_vector E wdata vel)
  have hww : (wind_vector E wdata vel).dot (wind_vector E wdata vel) =
      (wind_vector E wdata vel).x * (wind_vector E wdata vel).x +
        (wind_vector E wdata vel).z * (wind_vector E wdata vel).z := by
    simp only [Vector.dot, wind_vector]
    ring
  have hlift2 : r.lift = 1 / 2 * ((wind_vector E wdata vel).x * (wind_vector E wdata vel).x +
      (wind_vector E wdata vel).z * (wind_vector E wdata vel).z) * chord * dx *
      (E.aflookup a).1 := by
    rw [hlift, mul_assoc (1 / 2 : K) (mag E.sqrt (wind_vector E wdata vel)), hmm, hww]
  have hdrag2 : r.drag = 1 / 2 * ((wind_vector E wdata vel).x * (wind_vector E wdata vel).x +
      (wind_vector E wdata vel).z * (wind_vector E wdata vel).z) * chord * dx *
      (E.aflookup a).2 := by
    rw [hdrag, mul_assoc (1 / 2 : K) (mag E.sqrt (wind_vector E wdata vel)), hmm, hww]
  refine ⟨r, dd, l0, hr, hdd, rfl, hl0u, hdd1, hddy, hforce, hlift2, hdrag2, ?_, ?_, ?_, ?_⟩
  · rw [hforce, dot_neg_left, dot_combination, hl0d, hdd1]; ring
  · rw [hforce, dot_neg_left, dot_combination, hl0sq, hdl0]; ring
  · rw [hforce, dot_neg_left, dot_combination, hl0y, hddy]; ring
  · intro hz0 hxpos
    have hmd0 : mag E.sqrt d0 = wx := by
      rw [mag_eq, hd0sq, hz0]
      have := sqrt_mul_self E.sqrt hs wx hxpos.le
      simpa using this
    have hddx : dd.dot bx = 1 := by
      rw [hdd, dot_unit_left, hmd0, hd0, dot_combination, hxx, hzx, hz0]
      field_simp
    have hddz : dd.dot bz = 0 := by
      rw [hdd, dot_unit_left, hd0, dot_combination, hxz, hzz, hz0]; simp
    have hl0x : l0.dot bx = 0 := by
      rw [hl0, dot_cross_assoc, hdd, dot_unit_left, hd0, dot_combination, hz0]
      have h1 : bx.dot (by_.cross bx) = 0 := by
        rw [dot_comm, dot_cross_right]
      rw [h1]; simp
    have hl0z : l0.dot bz = 1 := by
      rw [hl0, dot_cross_assoc, ← hx]; exact hddx
    constructor
    · rw [hforce, dot_neg_left, dot_combination, hl0x, hddx]; ring
    · rw [hforce, dot_neg_left, dot_combination, hl0z, hddz]; ring

theorem blade_frame_example_real :
    blade_frame (example_env Real.sqrt) (example_wing : WingBaseData ℝ) =
      (⟨1, 0, 0⟩, ⟨0, 1, 0⟩, ⟨0, 0, 1⟩) := by
  norm_num [blade_frame, example_env, example_wing, Vector.unit, mag, Vector.cross,
    Vector.sub]

theorem wind_vector_example_real :
    wind_vector (example_env Real.sqrt) (example_wing : WingBaseData ℝ) ⟨10, 0, 0⟩ =
      ⟨10, 0, 0⟩ := by
  rw [wind_vector, blade_frame_example_real]
  norm_num [example_wing, Vector.sub, Vector.dot]

/-- Instance of C17: the force-assembly example of the spec over the real numbers,
`blade_x = (1,0,0)`, span `(0,1,0)`, wind `(10,0,0)`: the relative wind is along
`+blade_x`, `force . blade_x = -drag`, `force . blade_z = -lift`, and with chord `3`,
segment length `2`, `Cl = 0.5` and `Cd = 0.05` the lift is `150`, the drag is `15` and
the force is `(-15, 0, -150)`. -/
theorem force_direction_witness :
    (∀ c : ℝ, 0 ≤ c → 0 ≤ Real.sqrt c ∧ Real.sqrt c * Real.sqrt c = c) ∧
    (example_wing : WingBaseData ℝ).end_.sub (example_wing : WingBaseData ℝ).start ≠
      ⟨0, 0, 0⟩ ∧
    (example_wing : WingBaseData ℝ).blade_x.cross
      ((example_wing : WingBaseData ℝ).end_.sub (example_wing : WingBaseData ℝ).start) ≠
      ⟨0, 0, 0⟩ ∧
    ((wind_vector (example_env Real.sqrt) (example_wing : WingBaseData ℝ) ⟨10, 0, 0⟩).x ≠ 0 ∨
      (wind_vector (example_env Real.sqrt) (example_wing : WingBaseData ℝ) ⟨10, 0, 0⟩).z ≠ 0) ∧
    angle_of_attack (example_env Real.sqrt) (example_wing : WingBaseData ℝ) 0
      (wind_vector (example_env Real.sqrt) (example_wing : WingBaseData ℝ) ⟨10, 0, 0⟩) =
        .ok 0 ∧
    ∃ r, compute_point (example_env Real.sqrt) (example_wing : WingBaseData ℝ) 0
        ⟨10, 0, 0⟩ 3 2 = .ok r ∧
      r.force.dot ⟨1, 0, 0⟩ = -r.drag ∧ r.force.dot ⟨0, 0, 1⟩ = -r.lift ∧
      r.force.dot ⟨0, 1, 0⟩ = 0 ∧
      r.lift = 150 ∧ r.drag = 15 ∧ r.force = ⟨-15, 0, -150⟩ := by
  have hs : ∀ c : ℝ, 0 ≤ c → 0 ≤ Real.sqrt c ∧ Real.sqrt c * Real.sqrt c = c :=
    fun c hc => ⟨Real.sqrt_nonneg c, Real.mul_self_sqrt hc⟩
  have hspan : (example_wing : WingBaseData ℝ).end_.sub
      (example_wing : WingBaseData ℝ).start ≠ ⟨0, 0, 0⟩ := by
    norm_num [example_wing, Vector.sub]
  have hpar : (example_wing : WingBaseData ℝ).blade_x.cross
      ((example_wing : WingBaseData ℝ).end_.sub (example_wing : WingBaseData ℝ).start) ≠
      ⟨0, 0, 0⟩ := by
    norm_num [example_wing, Vector.sub, Vector.cross]
  have hwind : (wind_vector (example_env Real.sqrt) (example_wing : WingBaseData ℝ)
        ⟨10, 0, 0⟩).x ≠ 0 ∨
      (wind_vector (example_env Real.sqrt) (example_wing : WingBaseData ℝ)
        ⟨10, 0, 0⟩).z ≠ 0 := by
    rw [wind_vector_example_real]; norm_num
  have ha : angle_of_attack (example_env Real.sqrt) (example_wing : WingBaseData ℝ) 0
      (wind_vector (example_env Real.sqrt) (example_wing : WingBaseData ℝ) ⟨10, 0, 0⟩) =
        .ok 0 := by
    rw [wind_vector_example_real]
    norm_num [angle_of_attack, example_wing, example_env]
  obtain ⟨r, _, _, hr, _, _, _, _, _, _, hl, hd, _, _, hy, hin⟩ :=
    force_direction (example_env Real.sqrt) hs example_wing 0 ⟨10, 0, 0⟩ 3 2 0 hspan hpar
      hwind ha
  rw [blade_frame_example_real] at hin hy
  rw [wind_vector_example_real] at hin hl hd
  obtain ⟨h1, h2⟩ := hin rfl (by norm_num)
  have hl150 : r.lift = 150 := by
    rw [hl]
    norm_num [example_env]
  have hd15 : r.drag = 15 := by
    rw [hd]
    norm_num [example_env]
  have hforce : r.force = ⟨-15, 0, -150⟩ := by
    rw [hd15] at h1
    rw [hl150] at h2
    cases hf : r.force with
    | mk fx fy fz =>
      rw [hf] at h1 h2 hy
      simp only [Vector.dot, mul_one, mul_zero, add_zero, zero_add] at h1 h2 hy
      rw [h1, h2, hy]
  exact ⟨hs, hspan, hpar, hwind, ha, r, hr, h1, h2, hy, hl150, hd15, hforce⟩

open amr_wind.interp (Fault)
open amr_wind.vs

variable {K : Type} [LinearOrderedField K]

/-- Scalar `linear` returns a value on every table (sorted or not) with at least one
point and a `y` column of the same length. -/
theorem linear_scalar_returns (x y : List ℚ) (q : ℚ) (h1 : 1 ≤ x.length)
    (hy : y.length = x.length) : ∃ v, interp.linear_scalar x y q = .ok v := by
  show ∃ v, interp.linear x y q = .ok v
  obtain ⟨r, hr, hlow, hup, hval⟩ := interp.bisection_search_any x q
  cases hl : r.lim
  · refine ⟨y.getD 0 0, ?_⟩
    have : interp.linear x y q = interp.readAt y r.idx := by
      simp [interp.linear, hr, hl]
    rw [this, hlow hl]
    simpa using interp.readAt_natCast y 0 (by omega)
  · obtain ⟨hi, h2⟩ := hup hl
    have : interp.linear x y q = interp.readAt y r.idx := by
      simp [interp.linear, hr, hl]
    rw [this, hi]
    exact ⟨_, interp.readAt_ok_of_lt y _ (by omega) (by omega)⟩
  · obtain ⟨h0, hlt⟩ := hval hl
    have : interp.linear x y q = interp.interpolate x y r.idx q := by
      simp [interp.linear, hr, hl]
    rw [this]
    have hcast : ((r.idx.toNat : Nat) : Int) = r.idx := Int.toNat_of_nonneg h0
    rw [← hcast]
    exact ⟨_, interp.interpolate_eq x y q r.idx.toNat (by omega) hy⟩

/-- C18: for every point, with `wx = (vel - vel_tr) . blade_x` and
`wz = (vel - vel_tr) . blade_z`, the angle passed to the airfoil lookup is
`atan2(wz, wx) + offset`; the offset is the value of scalar `linear` over the time table
and the pitch table at the current time when the pitch schedule is not empty (the table
having at least one point and both columns the same length), and otherwise the static
pitch converted to radians; the value recorded in `aoa` is that angle converted to
degrees. -/
theorem angle_of_attack_selection (E : Env K) (wdata : WingBaseData K) (current_time : ℚ)
    (vel : Vector K) (chord dx : K)
    (h : wdata.pitch_timetable_empty = true ∨
      (1 ≤ wdata.time_table.length ∧ wdata.pitch_table.length = wdata.time_table.length)) :
    ∃ r wx wz offset, compute_point E wdata current_time vel chord dx = .ok r ∧
      wx = (vel.sub wdata.vel_tr).dot (blade_frame E wdata).1 ∧
      wz = (vel.sub wdata.vel_tr).dot (blade_frame E wdata).2.2 ∧
      (wdata.pitch_timetable_empty = true → offset = E.radians wdata.pitch) ∧
      (wdata.pitch_timetable_empty = false →
        ∃ p : ℚ, interp.linear_scalar wdata.time_table wdata.pitch_table current_time = .ok p ∧
          offset = (p : K)) ∧
      (r.cl, r.cd) = E.aflookup (E.atan2 wz wx + offset) ∧
      r.aoa = E.degrees (E.atan2 wz wx + offset) := by
  by_cases he : wdata.pitch_timetable_empty = true
  · have ha : angle_of_attack E wdata current_time (wind_vector E wdata vel) =
        .ok (E.atan2 (wind_vector E wdata vel).z (wind_vector E wdata vel).x +
          E.radians wdata.pitch) := by
      simp [angle_of_attack, he]
    obtain ⟨r, _, hr, _, _, _, haoa, hcl, hcd, _, _⟩ :=
      compute_point_eq E wdata current_time vel chord dx _ ha
    refine ⟨r, _, _, E.radians wdata.pitch, hr, rfl, rfl, fun _ => rfl, ?_, ?_, haoa⟩
    · intro hf; rw [he] at hf; cases hf
    · rw [hcl, hcd]; rfl
  · have hf : wdata.pitch_timetable_empty = false := by
      cases hb : wdata.pitch_timetable_empty
      · rfl
      · exact absurd hb he
    have hlen : 1 ≤ wdata.time_table.length ∧
        wdata.pitch_table.length = wdata.time_table.length := by
      rcases h with h | h
      · exact absurd h he
      · exact h
    obtain ⟨p, hp⟩ := linear_scalar_returns wdata.time_table wdata.pitch_table current_time
      hlen.1 hlen.2
    have ha : angle_of_attack E wdata current_time (wind_vector E wdata vel) =
        .ok (E.atan2 (wind_vector E wdata vel).z (wind_vector E wdata vel).x + (p : K)) := by
      simp [angle_of_attack, hf, hp]
    obtain ⟨r, _, hr, _, _, _, haoa, hcl, hcd, _, _⟩ :=
      compute_point_eq E wdata current_time vel chord dx _ ha
    refine ⟨r, _, _, (p : K), hr, rfl, rfl, ?_, fun _ => ⟨p, hp, rfl⟩, ?_, haoa⟩
    · intro ht; exact absurd ht he
    · rw [hcl, hcd]; rfl

theorem linear_scalar_example : interp.linear_scalar [0, 10] [0, 1] 5 = .ok (1 / 2) := by
  obtain ⟨k, hb, hk, _, _, _⟩ :=
    interp.bisection_search_sorted [0, 10] 5 (by decide) (by decide)
      (by norm_num) (by norm_num)
  have hk0 : k = 0 := by
    have : k + 1 < 2 := hk
    omega
  subst hk0
  show interp.linear [0, 10] [0, 1] 5 = .ok (1 / 2)
  rw [interp.linear_of_valid _ _ _ _ hb, interp.interpolate_eq _ _ _ 0 (by decide) (by decide)]
  norm_num [interp.eps]

theorem blade_frame_example_scheduled :
    blade_frame (example_env example_sqrt) example_wing_scheduled =
      (⟨1, 0, 0⟩, ⟨0, 1, 0⟩, ⟨0, 0, 1⟩) := by
  norm_num [blade_frame, example_env, example_wing_scheduled, example_wing, Vector.unit, mag,
    Vector.cross, Vector.sub, example_sqrt]

/-- Instance of C18: the example wing with the pitch schedule `0` at time `0`, `1` at
time `10`, at current time `5` and wind `(10,0,0)`: the offset is `1/2`, and the angle
passed to the lookup and recorded (in degrees) is `atan2(0, 10) + 1/2`. -/
theorem angle_of_attack_selection_witness :
    ((example_wing_scheduled : WingBaseData ℚ).pitch_timetable_empty = true ∨
      (1 ≤ (example_wing_scheduled : WingBaseData ℚ).time_table.length ∧
        (example_wing_scheduled : WingBaseData ℚ).pitch_table.length =
          (example_wing_scheduled : WingBaseData ℚ).time_table.length)) ∧
    interp.linear_scalar (example_wing_scheduled : WingBaseData ℚ).time_table
      (example_wing_scheduled : WingBaseData ℚ).pitch_table 5 = .ok (1 / 2) ∧
    ∃ r, compute_point (example_env example_sqrt) example_wing_scheduled 5 ⟨10, 0, 0⟩ 3 2 =
        .ok r ∧
      (r.cl, r.cd) = (example_env example_sqrt).aflookup
        ((example_env example_sqrt).atan2 0 10 + 1 / 2) ∧
      r.aoa = (example_env example_sqrt).degrees
        ((example_env example_sqrt).atan2 0 10 + 1 / 2) := by
  have h : (example_wing_scheduled : WingBaseData ℚ).pitch_timetable_empty = true ∨
      (1 ≤ (example_wing_scheduled : WingBaseData ℚ).time_table.length ∧
        (example_wing_scheduled : WingBaseData ℚ).pitch_table.length =
          (example_wing_scheduled : WingBaseData ℚ).time_table.length) :=
    Or.inr ⟨by decide, by decide⟩
  have hlin : interp.linear_scalar (example_wing_scheduled : WingBaseData ℚ).time_table
      (example_wing_scheduled : WingBaseData ℚ).pitch_table 5 = .ok (1 / 2) :=
    linear_scalar_example
  obtain ⟨r, wx, wz, offset, hr, hwx, hwz, _, hoff, hc, haoa⟩ :=
    angle_of_attack_selection (example_env example_sqrt) example_wing_scheduled 5
      ⟨10, 0, 0⟩ 3 2 h
  obtain ⟨p, hp, hpo⟩ := hoff rfl
  rw [hlin] at hp
  have hp2 : p = 1 / 2 := (Except.ok.inj hp).symm
  rw [blade_frame_example_scheduled] at hwx hwz
  have hx : wx = 10 := by
    rw [hwx]; norm_num [example_wing_scheduled, example_wing, Vector.sub, Vector.dot]
  have hz : wz = 0 := by
    rw [hwz]; norm_num [example_wing_scheduled, example_wing, Vector.sub, Vector.dot]
  have ho : offset = 1 / 2 := by rw [hpo, hp2]; norm_num
  rw [hx, hz, ho] at hc haoa
  exact ⟨h, hlin, r, hr, hc, haoa⟩

open amr_wind.interp (Fault)
open amr_wind.vs

variable {K : Type} [LinearOrderedField K]

/-! ## `ComputeForceOp`: the FLLC activation -/

/-- The loop over actuator points does not touch the FLLC sub-model. -/
theorem compute_force_loop_fllc (E : Env K) (npts : Int) (current_time : ℚ) :
    ∀ (n : Nat) (ip : Int) (total_lift total_drag : K) (grid : ActGrid K)
      (wdata : WingBaseData K) (res : K × K × ActGrid K × WingBaseData K),
      (npts - ip).toNat = n →
      compute_force_loop E npts current_time ip total_lift total_drag grid wdata = .ok res →
      res.2.2.2.fllc = wdata.fllc := by
  intro n
  induction n with
  | zero =>
    intro ip tl td grid wdata res hn h
    rw [compute_force_loop] at h
    have hge : ¬ ip < npts := by omega
    simp only [hge, if_false, Except.ok.injEq] at h
    rw [← h]
  | succ n ih =>
    intro ip tl td grid wdata res hn h
    rw [compute_force_loop] at h
    have hlt : ip < npts := by omega
    simp only [hlt, if_true, bind, Except.bind] at h
    repeat' split at h
    all_goals first
      | exact absurd h (by simp)
      | simpa using ih _ _ _ _ _ res (by omega) h

/-- What a `ComputeForceOp` call does to the FLLC sub-model is `fllc_activation` at the
current time. -/
theorem ComputeForceOp_fllc (E : Env K) (data d1 : DataType K) (b : Bool)
    (h : ComputeForceOp E data = .ok (d1, b)) :
    (d1.wdata.fllc, b) = fllc_activation data.time.current_time data.wdata.fllc := by
  simp only [ComputeForceOp] at h
  split at h
  · exact absurd h (by simp)
  · rename_i tl td grid wdata hloop
    have hf := compute_force_loop_fllc E _ _ _ 0 0 0 _ _ _ rfl hloop
    simp only [Except.ok.injEq, Prod.mk.injEq] at h
    obtain ⟨hd, hb⟩ := h
    rw [← hd, ← hb]
    simp only at hf ⊢
    rw [hf]

theorem fllc_steps_initialized (T : ℚ) :
    ∀ ts : List ℚ, fllc_steps ts (some ⟨true, T⟩) = (some ⟨true, T⟩, 0) := by
  intro ts
  induction ts with
  | nil => rfl
  | cons t ts ih =>
    have ha : fllc_activation t (some ⟨true, T⟩) = (some ⟨true, T⟩, false) := by
      simp [fllc_activation]
    simp only [fllc_steps, ha, ih]
    rfl

theorem fllc_steps_waiting (T : ℚ) :
    ∀ ts : List ℚ, (∀ t ∈ ts, t ≤ T) →
      fllc_steps ts (some ⟨false, T⟩) = (some ⟨false, T⟩, 0) := by
  intro ts
  induction ts with
  | nil => intro _; rfl
  | cons t ts ih =>
    intro h
    have ht : ¬ t > T := not_lt.mpr (h t (List.mem_cons_self _ _))
    have ha : fllc_activation t (some ⟨false, T⟩) = (some ⟨false, T⟩, false) := by
      simp [fllc_activation, ht]
    simp only [fllc_steps, ha, ih (fun u hu => h u (List.mem_cons_of_mem _ hu))]
    rfl

theorem fllc_steps_trigger (T : ℚ) (t : ℚ) (ht : T < t) (post : List ℚ) :
    ∀ pre : List ℚ, (∀ u ∈ pre, u ≤ T) →
      fllc_steps (pre ++ t :: post) (some ⟨false, T⟩) = (some ⟨true, T⟩, 1) := by
  intro pre
  induction pre with
  | nil =>
    intro _
    have ha : fllc_activation t (some ⟨false, T⟩) = (some ⟨true, T⟩, true) := by
      simp [fllc_activation, FLLCInit, ht]
    simp only [List.nil_append, fllc_steps, ha, fllc_steps_initialized]
    rfl
  | cons u pre ih =>
    intro h
    have hu : ¬ u > T := not_lt.mpr (h u (List.mem_cons_self _ _))
    have ha : fllc_activation u (some ⟨false, T⟩) = (some ⟨false, T⟩, false) := by
      simp [fllc_activation, hu]
    have hi := ih (fun v hv => h v (List.mem_cons_of_mem _ hv))
    show fllc_steps (u :: (pre ++ t :: post)) (some ⟨false, T⟩) = (some ⟨true, T⟩, 1)
    simp only [fllc_steps, ha, hi]
    rfl

theorem fllc_steps_count_le (ts : List ℚ) :
    ∀ s : Option FLLCData, (fllc_steps ts s).2 ≤ 1 ∧
      (∀ f, s = some f → f.initialized = true → (fllc_steps ts s) = (s, 0)) := by
  induction ts with
  | nil =>
    intro s
    exact ⟨Nat.zero_le _, fun _ _ _ => rfl⟩
  | cons t ts ih =>
    intro s
    cases s with
    | none =>
      have ha : fllc_activation t none = (none, false) := rfl
      simp only [fllc_steps, ha]
      refine ⟨?_, fun f hf => by cases hf⟩
      have := (ih none).1
      simpa using this
    | some f =>
      by_cases hc : (!f.initialized && decide (t > f.fllc_start_time)) = true
      · have ha : fllc_activation t (some f) = (some (FLLCInit f), true) := by
          simp only [fllc_activation, hc, if_true]
        have hi := (ih (some (FLLCInit f))).2 (FLLCInit f) rfl rfl
        simp only [fllc_steps, ha, hi]
        refine ⟨by simp, ?_⟩
        intro g hg hgi
        cases hg
        rw [hgi] at hc
        simp at hc
      · have ha : fllc_activation t (some f) = (some f, false) := by
          simp only [fllc_activation, hc, if_false]
          rfl
        simp only [fllc_steps, ha]
        refine ⟨by simpa using (ih (some f)).1, ?_⟩
        intro g hg hgi
        have := (ih (some f)).2 g hg hgi
        rw [this]
        rfl

theorem fllc_steps_disabled : ∀ ts : List ℚ, fllc_steps ts none = (none, 0) := by
  intro ts
  induction ts with
  | nil => rfl
  | cons t ts ih =>
    have ha : fllc_activation t none = (none, false) := rfl
    simp only [fllc_steps, ha, ih]
    rfl

/-- The steps at times `1, 5, 6, 7, 2` with start time `5`: the activation happens once,
at time `6`. -/
theorem fllc_steps_example :
    fllc_steps [1, 5, 6, 7, 2] (some ⟨false, 5⟩) = (some ⟨true, 5⟩, 1) :=
  fllc_steps_trigger 5 6 (by norm_num) [7, 2] [1, 5] (by
    intro u hu
    simp only [List.mem_cons, List.mem_singleton, List.not_mem_nil, or_false] at hu
    rcases hu with h | h <;> simp [h])

/-- C19: the FLLC activation over successive `ComputeForceOp` steps, with `FLLCInit`
setting `initialized`.  For a wing with FLLC configured, start time `T` and
`initialized = false`: after any steps with `current_time <= T` it is still false and
`FLLCInit` was not invoked; on the first step with `current_time > T` it becomes true,
and whatever steps follow it stays true with exactly one invocation.  Over any sequence
of steps from any state `FLLCInit` is invoked at most once; an initialised state is
never left; without FLLC nothing is ever initialised.  Each `ComputeForceOp` call acts
on the FLLC sub-model as one such step at its current time. -/
theorem fllc_one_way (T : ℚ) :
    (∀ ts : List ℚ, (∀ t ∈ ts, t ≤ T) →
      fllc_steps ts (some ⟨false, T⟩) = (some ⟨false, T⟩, 0)) ∧
    (∀ (pre : List ℚ) (t : ℚ) (post : List ℚ), (∀ u ∈ pre, u ≤ T) → T < t →
      fllc_steps (pre ++ [t]) (some ⟨false, T⟩) = (some ⟨true, T⟩, 1) ∧
      fllc_steps (pre ++ t :: post) (some ⟨false, T⟩) = (some ⟨true, T⟩, 1)) ∧
    (∀ (ts : List ℚ) (s : Option FLLCData), (fllc_steps ts s).2 ≤ 1) ∧
    (∀ ts : List ℚ, fllc_steps ts (some ⟨true, T⟩) = (some ⟨true, T⟩, 0)) ∧
    (∀ ts : List ℚ, fllc_steps ts none = (none, 0)) ∧
    (∀ (E : Env K) (data d1 : DataType K) (b : Bool), ComputeForceOp E data = .ok (d1, b) →
      (d1.wdata.fllc, b) = fllc_activation data.time.current_time data.wdata.fllc) :=
  ⟨fllc_steps_waiting T,
    fun pre t post hpre ht =>
      ⟨fllc_steps_trigger T t ht [] pre hpre, fllc_steps_trigger T t ht post pre hpre⟩,
    fun ts s => (fllc_steps_count_le ts s).1,
    fllc_steps_initialized T,
    fllc_steps_disabled,
    fun E data d1 b h => ComputeForceOp_fllc E data d1 b h⟩

end amr_wind.actuator

namespace amr_wind.interp

/-! ## Termination of the bisection -/

theorem getLast?_cons_of_getLast? {α : Type} (a : α) (l : List α) (b : α)
    (h : l.getLast? = some b) : (a :: l).getLast? = some b := by
  cases l with
  | nil => simp at h
  | cons c cs => rw [List.getLast?_cons_cons]; exact h

/-- The loop-head states of the bisection started inside the table: each iteration
replaces `il` or `ir` by a `mid` strictly between them, so the width `ir - il` strictly
decreases; the last state has width exactly 1 and its `il` is what the loop returns; there
are at most `ir - il` states. -/
theorem bisection_loop_states_spec (x : List ℚ) (q xl : ℚ) :
    ∀ (n : Nat) (il ir : Int), (ir - il).toNat = n → 0 ≤ il → il < ir → ir ≤ x.length →
      (bisection_loop_states x q xl il ir).head? = some (il, ir) ∧
      List.Chain' (fun a b : Int × Int => a.2 - a.1 > 1 ∧ b.2 - b.1 < a.2 - a.1 ∧
        ∃ mid, a.1 < mid ∧ mid < a.2 ∧ (b = (a.1, mid) ∨ b = (mid, a.2)))
        (bisection_loop_states x q xl il ir) ∧
      (bisection_loop_states x q xl il ir).length ≤ n ∧
      ∃ fl fr, (bisection_loop_states x q xl il ir).getLast? = some (fl, fr) ∧
        fr - fl = 1 ∧ bisection_loop x q xl il ir = .ok fl := by
  intro n
  induction n using Nat.strong_induction_on with
  | _ n ih =>
    intro il ir hn h0 hlt hr
    rw [bisection_loop_states]
    by_cases h : ir - il > 1
    · have hm1 : il < (il + ir) / 2 := by omega
      have hm2 : (il + ir) / 2 < ir := by omega
      rw [bisection_loop_step x q xl il ir h h0 hr]
      simp only [h, if_true, shiftRight_one_eq,
        readAt_ok_of_lt x ((il + ir) / 2) (by omega) (by omega)]
      by_cases hc : (q - x.getD ((il + ir) / 2).toNat 0) * (q - xl) ≤ 0
      · simp only [hc, if_true]
        obtain ⟨hh, hch, hlen, fl, fr, hlast, hw, hres⟩ :=
          ih ((il + ir) / 2 - il).toNat (by omega) il ((il + ir) / 2) rfl h0 hm1 (by omega)
        refine ⟨rfl, ?_, ?_, fl, fr, getLast?_cons_of_getLast? _ _ _ hlast, hw, hres⟩
        · rw [List.chain'_cons']
          refine ⟨?_, hch⟩
          intro b hb
          rw [hh] at hb
          cases hb
          exact ⟨h, by simp only; omega, (il + ir) / 2, hm1, hm2, Or.inl rfl⟩
        · simp only [List.length_cons]
          omega
      · simp only [hc, if_false]
        obtain ⟨hh, hch, hlen, fl, fr, hlast, hw, hres⟩ :=
          ih (ir - (il + ir) / 2).toNat (by omega) ((il + ir) / 2) ir rfl (by omega) hm2 hr
        refine ⟨rfl, ?_, ?_, fl, fr, getLast?_cons_of_getLast? _ _ _ hlast, hw, hres⟩
        · rw [List.chain'_cons']
          refine ⟨?_, hch⟩
          intro b hb
          rw [hh] at hb
          cases hb
          exact ⟨h, by simp only; omega, (il + ir) / 2, hm1, hm2, Or.inr rfl⟩
        · simp only [List.length_cons]
          omega
    · rw [bisection_loop_exit x q xl il ir h]
      simp only [h, if_false]
      refine ⟨rfl, List.chain'_singleton _, ?_, il, ir, rfl, by omega, rfl⟩
      simp only [List.length_singleton]
      omega

/-- Exact arithmetic (rational samples, unbounded indices): `bisection_search` returns
for every table and every query.  Whenever
`ir - il > 1` the position `mid = (il + ir) >> 1` satisfies `il < mid < ir`; in the
`VALID` case the loop, started at `(0, len)`, replaces `il` or `ir` by such a `mid` at
each iteration, so that `ir - il` strictly decreases, it exits after at most `len - 1`
iterations in a state with `ir - il = 1`, and the index returned is the `il` of that
state. -/
theorem bisection_search_terminates (x : List ℚ) (q : ℚ) :
    (∃ r, bisection_search x q = .ok r) ∧
    (∀ il ir : Int, ir - il > 1 →
      il < (il + ir) >>> (1 : Nat) ∧ (il + ir) >>> (1 : Nat) < ir) ∧
    (check_bounds x q = .ok ⟨0, .VALID⟩ →
      (bisection_loop_states x q (x.getD 0 0) 0 x.length).head? = some (0, (x.length : Int)) ∧
      List.Chain' (fun a b : Int × Int => a.2 - a.1 > 1 ∧ b.2 - b.1 < a.2 - a.1 ∧
        ∃ mid, a.1 < mid ∧ mid < a.2 ∧ (b = (a.1, mid) ∨ b = (mid, a.2)))
        (bisection_loop_states x q (x.getD 0 0) 0 x.length) ∧
      (bisection_loop_states x q (x.getD 0 0) 0 x.length).length ≤ x.length ∧
      ∃ fl fr, (bisection_loop_states x q (x.getD 0 0) 0 x.length).getLast? = some (fl, fr) ∧
        fr - fl = 1 ∧ bisection_search x q = .ok ⟨fl, .VALID⟩) := by
  refine ⟨?_, ?_, ?_⟩
  · obtain ⟨r, hr, _⟩ := bisection_search_any x q
    exact ⟨r, hr⟩
  · intro il ir h
    rw [shiftRight_one_eq]
    omega
  · intro hv
    have h2 : 2 ≤ x.length := by
      by_contra hlt
      rw [check_bounds_short x q (by omega)] at hv
      simp at hv
    obtain ⟨hh, hch, hlen, fl, fr, hlast, hw, hres⟩ :=
      bisection_loop_states_spec x q (x.getD 0 0) _ 0 x.length rfl (le_refl _) (by omega)
        (le_refl _)
    have r0 : readAt x 0 = .ok (x.getD 0 0) := by
      simpa using readAt_natCast x 0 (by omega)
    refine ⟨hh, hch, by simpa using hlen, fl, fr, hlast, hw, ?_⟩
    simp only [bisection_search, hv, r0, hres, bind, Except.bind, reduceCtorEq, or_self,
      if_false]

/-! ## The index returned by the bisection -/

/-- Exact arithmetic (rational samples, unbounded indices): for every sorted table with
at least 2 points and every query `q` with
`x[0] <= q <= x[last]`, `bisection_search` returns `VALID` with the largest index `i`
such that `x[i] < q`, or `0` when there is no such index, which is the case exactly when
`q = x[0]`; hence on a strictly increasing table a query equal to a node `x[j0]` with
`1 <= j0` returns `j0 - 1`. -/
theorem bisection_search_largest (x : List ℚ) (q : ℚ) (hs : x.Sorted (· ≤ ·))
    (h2 : 2 ≤ x.length) (hlo : x.getD 0 0 ≤ q) (hhi : q ≤ x.getD (x.length - 1) 0) :
    ∃ j : Nat, bisection_search x q = .ok ⟨(j : Int), .VALID⟩ ∧ j + 1 < x.length ∧
      ((∃ i, i < x.length ∧ x.getD i 0 < q) →
        x.getD j 0 < q ∧ ∀ i, i < x.length → x.getD i 0 < q → i ≤ j) ∧
      ((¬ ∃ i, i < x.length ∧ x.getD i 0 < q) → j = 0) ∧
      ((¬ ∃ i, i < x.length ∧ x.getD i 0 < q) ↔ q = x.getD 0 0) ∧
      (∀ j0 : Nat, x.Sorted (· < ·) → 1 ≤ j0 → j0 < x.length → q = x.getD j0 0 →
        (j : Int) = (j0 : Int) - 1) := by
  obtain ⟨j, hb, hj, hjl, hj1, hj2⟩ := bisection_search_sorted x q hs h2 hlo hhi
  refine ⟨j, hb, hj, ?_, ?_, ?_, ?_⟩
  · rintro ⟨i, hi, hiq⟩
    constructor
    · rcases hjl with h | h
      · subst h
        exact lt_of_le_of_lt (sorted_getD_le x hs 0 i (Nat.zero_le _) hi) hiq
      · exact h
    · intro k hk hkq
      by_contra hlt
      have := sorted_getD_le x hs (j + 1) k (by omega) hk
      linarith
  · intro hnone
    rcases hjl with h | h
    · exact h
    · exact absurd ⟨j, by omega, h⟩ hnone
  · constructor
    · intro hnone
      have : ¬ x.getD 0 0 < q := fun h => hnone ⟨0, by omega, h⟩
      exact le_antisymm (not_lt.mp this) hlo
    · rintro heq ⟨i, hi, hiq⟩
      have := sorted_getD_le x hs 0 i (Nat.zero_le _) hi
      linarith
  · intro j0 hst h1 hj0 hq
    have hjlt : j < j0 := by
      rcases hjl with h | h
      · omega
      · by_contra hge
        have := sorted_getD_le x hs j0 j (by omega) (by omega)
        linarith
    have : j0 = j + 1 := by
      by_contra hne
      have := sorted_getD_lt x hst (j + 1) j0 (by omega) hj0
      linarith
    omega

/-- Instance of `bisection_search_largest`: the table `[0, 1, 2, 3]` queried at its
node `x[2] = 2`: the index
returned is `1`. -/
theorem bisection_search_largest_witness :
    ([0, 1, 2, 3] : List ℚ).Sorted (· ≤ ·) ∧ 2 ≤ ([0, 1, 2, 3] : List ℚ).length ∧
    ([0, 1, 2, 3] : List ℚ).getD 0 0 ≤ 2 ∧
    (2 : ℚ) ≤ ([0, 1, 2, 3] : List ℚ).getD (([0, 1, 2, 3] : List ℚ).length - 1) 0 ∧
    bisection_search [0, 1, 2, 3] 2 = .ok ⟨1, .VALID⟩ := by
  obtain ⟨j, hb, _, _, _, _, hnode⟩ :=
    bisection_search_largest [0, 1, 2, 3] 2 (by decide) (by decide) (by norm_num)
      (by norm_num)
  have hj := hnode 2 (by decide) (by decide) (by decide) (by norm_num)
  refine ⟨by decide, by decide, by norm_num, by norm_num, ?_⟩
  rw [hb, hj]
  norm_num

/-! ## Monotonicity of scalar `linear` -/

/-- C27: `linear_monotonic` depends on the order of the queries.  On the strictly
increasing table `x = [0, 1, 2]`, `y = [0, 10, 40]` and the query sequence `[5, 3/2]`
(an above-range query followed by an in-range one) the hint is `3` after the first
query, the scan of `find_index` does not run, the in-range query is interpolated from
segment `0` and `linear_monotonic` writes `15` for it, whereas scalar `linear` returns
`25` on the same table and query. -/
theorem linear_monotonic_order_dependent :
    ([0, 1, 2] : List ℚ).Sorted (· < ·) ∧
    ¬ ([5, 3 / 2] : List ℚ).Sorted (· ≤ ·) ∧
    find_index [0, 1, 2] 5 1 = .ok ⟨2, .UPLIM⟩ ∧
    find_index [0, 1, 2] (3 / 2) 3 = .ok ⟨0, .VALID⟩ ∧
    bisection_search [0, 1, 2] (3 / 2) = .ok ⟨1, .VALID⟩ ∧
    linear_monotonic true [0, 1, 2] [0, 10, 40] [5, 3 / 2] [0, 0] = .ok [40, 15] ∧
    linear [0, 1, 2] [0, 10, 40] (3 / 2) = .ok 25 ∧
    linear_vector true [0, 1, 2] [0, 10, 40] [5, 3 / 2] [0, 0] = .ok [40, 25] := by
  have hc1 : check_bounds [0, 1, 2] 5 = .ok ⟨2, .UPLIM⟩ := by
    rw [check_bounds_eq _ _ (by decide)]
    norm_num
  have hf1 : find_index [0, 1, 2] 5 1 = .ok ⟨2, .UPLIM⟩ := by
    simp only [find_index, hc1, or_true, if_true]
  have hc2 : check_bounds [0, 1, 2] (3 / 2) = .ok ⟨0, .VALID⟩ :=
    check_bounds_valid _ _ (by decide) (by norm_num) (by norm_num)
  have hf2 : find_index [0, 1, 2] (3 / 2) 3 = .ok ⟨0, .VALID⟩ := by
    simp only [find_index, hc2, reduceCtorEq, or_self, if_false]
    rw [find_index_loop]
    simp
  have hb : bisection_search [0, 1, 2] (3 / 2) = .ok ⟨1, .VALID⟩ := by
    obtain ⟨j, hj, hlt, _, hj1, hj2⟩ :=
      bisection_search_sorted [0, 1, 2] (3 / 2) (by decide) (by decide)
        (by norm_num) (by norm_num)
    have hj3 : j < 2 := by
      have : j + 1 < 3 := hlt
      omega
    interval_cases j
    · norm_num at hj2
    · exact hj
  have hi0 : interpolate [0, 1, 2] [0, 10, 40] 0 (3 / 2) = .ok 15 := by
    have := interpolate_eq [0, 1, 2] [0, 10, 40] (3 / 2) 0 (by decide) (by decide)
    rw [show ((0 : Nat) : Int) = 0 from rfl] at this
    rw [this]
    norm_num [eps]
  have hi1 : interpolate [0, 1, 2] [0, 10, 40] 1 (3 / 2) = .ok 25 := by
    have := interpolate_eq [0, 1, 2] [0, 10, 40] (3 / 2) 1 (by decide) (by decide)
    rw [show ((1 : Nat) : Int) = 1 from rfl] at this
    rw [this]
    norm_num [eps]
  have hl2 : linear [0, 1, 2] [0, 10, 40] (3 / 2) = .ok 25 := by
    rw [linear_of_valid _ _ _ _ hb]; exact hi1
  have hl1 : linear [0, 1, 2] [0, 10, 40] 5 = .ok 40 := by
    rw [linear_of_check _ _ _ _ hc1 (by simp)]
    rfl
  have hs : ¬ ([5, 3 / 2] : List ℚ).Sorted (· ≤ ·) := by
    norm_num [List.Sorted]
  refine ⟨by decide, hs, hf1, hf2, hb, ?_, hl2, ?_⟩
  · have hr0 : readAt [5, 3 / 2] 0 = .ok 5 := rfl
    have hr1 : readAt [5, 3 / 2] (0 + 1) = .ok (3 / 2) := rfl
    have hy2 : readAt [0, 10, 40] 2 = .ok 40 := rfl
    have hw0 : writeAt [0, 0] 0 40 = .ok [40, 0] := rfl
    have hw1 : writeAt [40, 0] (0 + 1) 15 = .ok [40, 15] := rfl
    simp only [linear_monotonic, amrex_assert, List.length_cons, List.length_nil,
      List.length_singleton, bind, Except.bind]
    norm_num
    rw [linear_monotonic_loop]
    simp only [show (0 : Int) < 2 by decide, if_true, hr0, hf1, or_true, hy2, Except.bind, hw0]
    rw [linear_monotonic_loop]
    simp only [show (0 : Int) + 1 < 2 by decide, if_true, hr1, hf2,
      show (2 : Int) + 1 = 3 by decide, reduceCtorEq, or_self, if_false, hi0, Except.bind, hw1]
    rw [linear_monotonic_loop]
    simp
  · have hr0 : readAt [5, 3 / 2] 0 = .ok 5 := rfl
    have hr1 : readAt [5, 3 / 2] (0 + 1) = .ok (3 / 2) := rfl
    have hw0 : writeAt [0, 0] 0 40 = .ok [40, 0] := rfl
    have hw1 : writeAt [40, 0] (0 + 1) 25 = .ok [40, 25] := rfl
    have hs1 : linear_scalar [0, 1, 2] [0, 10, 40] 5 = .ok 40 := hl1
    have hs2 : linear_scalar [0, 1, 2] [0, 10, 40] (3 / 2) = .ok 25 := hl2
    simp only [linear_vector, amrex_assert, List.length_cons, List.length_nil,
      List.length_singleton, bind, Except.bind]
    norm_num
    rw [linear_vector_loop]
    simp only [show (0 : Int) < 2 by decide, if_true, hr0, hs1, Except.bind, hw0]
    rw [linear_vector_loop]
    simp only [show (0 : Int) + 1 < 2 by decide, if_true, hr1, hs2, Except.bind, hw1]
    rw [linear_vector_loop]
    simp

end amr_wind.interp

namespace amr_wind.turbulence

/-! ## The AMD kernels are guarded and clipped -/

variable {K : Type} [LinearOrderedField K]

theorem tiny_pos : (0 : K) < tiny := by
  unfold tiny
  positivity

theorem amd_muvel_denom_ge (g : Gradients K) : tiny ≤ amd_muvel_denom g := by
  unfold amd_muvel_denom
  have h : (0 : K) ≤ g.ux * g.ux + g.uy * g.uy + g.uz * g.uz + g.vx * g.vx + g.vy * g.vy +
      g.vz * g.vz + g.wx * g.wx + g.wy * g.wy + g.wz * g.wz := by
    have h1 := mul_self_nonneg g.ux
    have h2 := mul_self_nonneg g.uy
    have h3 := mul_self_nonneg g.uz
    have h4 := mul_self_nonneg g.vx
    have h5 := mul_self_nonneg g.vy
    have h6 := mul_self_nonneg g.vz
    have h7 := mul_self_nonneg g.wx
    have h8 := mul_self_nonneg g.wy
    have h9 := mul_self_nonneg g.wz
    linarith
  linarith

theorem amd_thermal_diff_denom_ge (g : Gradients K) : tiny ≤ amd_thermal_diff_denom g := by
  unfold amd_thermal_diff_denom
  have h1 := mul_self_nonneg g.tx
  have h2 := mul_self_nonneg g.ty
  have h3 := mul_self_nonneg g.tz
  linarith

/-- C28: for all stencil coefficients, field values, coefficients `C` and `beta` and
non-zero grid spacings, the divisor of `amd_muvel` and the divisor of `amd_thermal_diff`
are at least `1e-15`, hence not zero, and each kernel returns a value that is at least
`1e-15`. The spacings are non-zero so that the reciprocals `1 / dx`, `1 / dy`, `1 / dz`
of the source are defined. -/
theorem amd_guarded_and_clipped (S : Stencil K) (i j k : Int) (dx dy dz beta C : K)
    (vel : Int → Int → Int → Int → K) (theta : Int → Int → Int → K)
    (hdx : dx ≠ 0) (hdy : dy ≠ 0) (hdz : dz ≠ 0) :
    (1 / 1000000000000000 : K) ≤ amd_muvel_denom (amd_gradients S i j k dx dy dz vel theta) ∧
    amd_muvel_denom (amd_gradients S i j k dx dy dz vel theta) ≠ 0 ∧
    (1 / 1000000000000000 : K) ≤
      amd_thermal_diff_denom (amd_gradients S i j k dx dy dz vel theta) ∧
    amd_thermal_diff_denom (amd_gradients S i j k dx dy dz vel theta) ≠ 0 ∧
    (1 / 1000000000000000 : K) ≤ amd_muvel S i j k dx dy dz beta C vel theta ∧
    (1 / 1000000000000000 : K) ≤ amd_thermal_diff S i j k dx dy dz C vel theta := by
  have _ := hdx
  have _ := hdy
  have _ := hdz
  have hm := amd_muvel_denom_ge (amd_gradients S i j k dx dy dz vel theta)
  have ht := amd_thermal_diff_denom_ge (amd_gradients S i j k dx dy dz vel theta)
  have hp : (0 : K) < tiny := tiny_pos
  refine ⟨hm, ?_, ht, ?_, ?_, ?_⟩
  · exact ne_of_gt (lt_of_lt_of_le hp hm)
  · exact ne_of_gt (lt_of_lt_of_le hp ht)
  · exact le_max_left _ _
  · exact le_max_left _ _

/-- A central-difference stencil on a unit grid with a converging velocity field: the
kernels are evaluated at cell `(0, 0, 0)`. -/
theorem amd_guarded_and_clipped_witness :
    ((1 : ℚ) ≠ 0 ∧ (1 : ℚ) ≠ 0 ∧ (1 : ℚ) ≠ 0) ∧
    ((1 / 1000000000000000 : ℚ) ≤
      amd_muvel_denom (amd_gradients ⟨1/2, 0, -1/2, 1/2, 0, -1/2, 1/2, 0, -1/2⟩ 0 0 0 1 1 1
        (fun i _ _ n => ((-(i * (1 - n)) : Int) : ℚ))
        (fun i _ k => ((300 + k - i : Int) : ℚ))) ∧
    amd_muvel_denom (amd_gradients ⟨1/2, 0, -1/2, 1/2, 0, -1/2, 1/2, 0, -1/2⟩ 0 0 0 1 1 1
        (fun i _ _ n => ((-(i * (1 - n)) : Int) : ℚ))
        (fun i _ k => ((300 + k - i : Int) : ℚ))) ≠ 0 ∧
    (1 / 1000000000000000 : ℚ) ≤
      amd_thermal_diff_denom (amd_gradients ⟨1/2, 0, -1/2, 1/2, 0, -1/2, 1/2, 0, -1/2⟩
        0 0 0 1 1 1
        (fun i _ _ n => ((-(i * (1 - n)) : Int) : ℚ))
        (fun i _ k => ((300 + k - i : Int) : ℚ))) ∧
    amd_thermal_diff_denom (amd_gradients ⟨1/2, 0, -1/2, 1/2, 0, -1/2, 1/2, 0, -1/2⟩
        0 0 0 1 1 1
        (fun i _ _ n => ((-(i * (1 - n)) : Int) : ℚ))
        (fun i _ k => ((300 + k - i : Int) : ℚ))) ≠ 0 ∧
    (1 / 1000000000000000 : ℚ) ≤
      amd_muvel ⟨1/2, 0, -1/2, 1/2, 0, -1/2, 1/2, 0, -1/2⟩ 0 0 0 1 1 1 (1/300) (1/3)
        (fun i _ _ n => ((-(i * (1 - n)) : Int) : ℚ))
        (fun i _ k => ((300 + k - i : Int) : ℚ)) ∧
    (1 / 1000000000000000 : ℚ) ≤
      amd_thermal_diff ⟨1/2, 0, -1/2, 1/2, 0, -1/2, 1/2, 0, -1/2⟩ 0 0 0 1 1 1 (1/3)
        (fun i _ _ n => ((-(i * (1 - n)) : Int) : ℚ))
        (fun i _ k => ((300 + k - i : Int) : ℚ))) :=
  ⟨⟨by norm_num, by norm_num, by norm_num⟩,
    amd_guarded_and_clipped _ 0 0 0 1 1 1 (1/300) (1/3) _ _
      (by norm_num) (by norm_num) (by norm_num)⟩

/-- The kernels on the example: neither value is clipped. -/
theorem amd_example :
    amd_muvel (K := ℚ) ⟨1/2, 0, -1/2, 1/2, 0, -1/2, 1/2, 0, -1/2⟩ 0 0 0 1 1 1 (1/300) (1/3)
        (fun i _ _ n => ((-(i * (1 - n)) : Int) : ℚ))
        (fun i _ k => ((300 + k - i : Int) : ℚ)) = 11990000000000000 / 18000000000000009 ∧
    (1 / 1000000000000000 : ℚ) <
      amd_thermal_diff ⟨1/2, 0, -1/2, 1/2, 0, -1/2, 1/2, 0, -1/2⟩ 0 0 0 1 1 1 (1/3)
        (fun i _ _ n => ((-(i * (1 - n)) : Int) : ℚ))
        (fun i _ k => ((300 + k - i : Int) : ℚ)) := by
  constructor
  · norm_num [amd_muvel, amd_gradients, amd_muvel_denom, tiny]
  · norm_num [amd_thermal_diff, amd_gradients, amd_thermal_diff_denom, tiny]

end amr_wind.turbulence

namespace amr_wind.actuator

/-! ## `ComputeForceOp`: the local frame is orthonormal -/

open amr_wind.vs

variable {K : Type} [LinearOrderedField K]

/-- A vector whose cross product with a non-zero vector `s` vanishes is a multiple
of `s`. -/
theorem parallel_of_cross_eq_zero (b s : Vector K) (hs : s ≠ ⟨0, 0, 0⟩)
    (h : b.cross s = ⟨0, 0, 0⟩) : b = s.scale (b.dot s / s.dot s) := by
  have hss : s.dot s ≠ 0 := dot_self_ne_zero s hs
  simp only [Vector.cross, Vector.mk.injEq] at h
  obtain ⟨h1, h2, h3⟩ := h
  cases b with
  | mk bx b_y bz =>
    cases s with
    | mk sx sy sz =>
      simp only [Vector.dot] at hss ⊢
      simp only [Vector.scale, Vector.mk.injEq]
      simp only at h1 h2 h3
      refine ⟨?_, ?_, ?_⟩
      · field_simp
        linear_combination sy * h3 - sz * h2
      · field_simp
        linear_combination sz * h1 - sx * h3
      · field_simp
        linear_combination sx * h2 - sy * h1

theorem sub_ne_zero_of_ne (a b : Vector K) (h : a ≠ b) : a.sub b ≠ ⟨0, 0, 0⟩ := by
  intro h0
  apply h
  simp only [Vector.sub, Vector.mk.injEq] at h0
  obtain ⟨h1, h2, h3⟩ := h0
  cases a
  cases b
  simp only [Vector.mk.injEq]
  simp only at h1 h2 h3
  exact ⟨by linarith, by linarith, by linarith⟩

/-- C21: for a wing with `end ≠ start` and a reference direction `blade_x` that is
non-zero and not a multiple of `end - start`, with an exact square root, the frame of
`ComputeForceOp` is made of three unit vectors that are pairwise orthogonal; nothing
is asked about the angle between the configured `blade_x` and the span. -/
theorem frame_orthonormal (E : Env K)
    (hs : ∀ c : K, 0 ≤ c → 0 ≤ E.sqrt c ∧ E.sqrt c * E.sqrt c = c) (wdata : WingBaseData K)
    (hne : wdata.end_ ≠ wdata.start) (hbx : wdata.blade_x ≠ ⟨0, 0, 0⟩)
    (hpar : ∀ t : K, wdata.blade_x ≠ (wdata.end_.sub wdata.start).scale t) :
    (blade_frame E wdata).1.dot (blade_frame E wdata).1 = 1 ∧
    (blade_frame E wdata).2.1.dot (blade_frame E wdata).2.1 = 1 ∧
    (blade_frame E wdata).2.2.dot (blade_frame E wdata).2.2 = 1 ∧
    (blade_frame E wdata).1.dot (blade_frame E wdata).2.1 = 0 ∧
    (blade_frame E wdata).1.dot (blade_frame E wdata).2.2 = 0 ∧
    (blade_frame E wdata).2.1.dot (blade_frame E wdata).2.2 = 0 := by
  have _ := hbx
  have hspan : wdata.end_.sub wdata.start ≠ ⟨0, 0, 0⟩ := sub_ne_zero_of_ne _ _ hne
  have hcross : wdata.blade_x.cross (wdata.end_.sub wdata.start) ≠ ⟨0, 0, 0⟩ := by
    intro h0
    exact hpar _ (parallel_of_cross_eq_zero _ _ hspan h0)
  obtain ⟨h1, h2, h3, h4, h5, h6, _⟩ := blade_frame_orthonormal E hs wdata hspan hcross
  exact ⟨h1, h2, h3, h4, h5, h6⟩

/-- Instance of C21 over the real numbers: the span is `(0,1,0)` and the configured
`blade_x = (1,1,0)` is at 45 degrees from it. -/
theorem frame_orthonormal_witness :
    ((∀ c : ℝ, 0 ≤ c → 0 ≤ Real.sqrt c ∧ Real.sqrt c * Real.sqrt c = c) ∧
      (example_wing_skewed : WingBaseData ℝ).end_ ≠
        (example_wing_skewed : WingBaseData ℝ).start ∧
      (example_wing_skewed : WingBaseData ℝ).blade_x ≠ ⟨0, 0, 0⟩ ∧
      (example_wing_skewed : WingBaseData ℝ).blade_x.dot
        ((example_wing_skewed : WingBaseData ℝ).end_.sub
          (example_wing_skewed : WingBaseData ℝ).start) ≠ 0 ∧
      ∀ t : ℝ, (example_wing_skewed : WingBaseData ℝ).blade_x ≠
        ((example_wing_skewed : WingBaseData ℝ).end_.sub
          (example_wing_skewed : WingBaseData ℝ).start).scale t) ∧
    (blade_frame (example_env Real.sqrt) (example_wing_skewed : WingBaseData ℝ)).1.dot
      (blade_frame (example_env Real.sqrt) (example_wing_skewed : WingBaseData ℝ)).1 = 1 ∧
    (blade_frame (example_env Real.sqrt) (example_wing_skewed : WingBaseData ℝ)).2.1.dot
      (blade_frame (example_env Real.sqrt) (example_wing_skewed : WingBaseData ℝ)).2.1 = 1 ∧
    (blade_frame (example_env Real.sqrt) (example_wing_skewed : WingBaseData ℝ)).2.2.dot
      (blade_frame (example_env Real.sqrt) (example_wing_skewed : WingBaseData ℝ)).2.2 = 1 ∧
    (blade_frame (example_env Real.sqrt) (example_wing_skewed : WingBaseData ℝ)).1.dot
      (blade_frame (example_env Real.sqrt) (example_wing_skewed : WingBaseData ℝ)).2.1 = 0 ∧
    (blade_frame (example_env Real.sqrt) (example_wing_skewed : WingBaseData ℝ)).1.dot
      (blade_frame (example_env Real.sqrt) (example_wing_skewed : WingBaseData ℝ)).2.2 = 0 ∧
    (blade_frame (example_env Real.sqrt) (example_wing_skewed : WingBaseData ℝ)).2.1.dot
      (blade_frame (example_env Real.sqrt) (example_wing_skewed : WingBaseData ℝ)).2.2 = 0 := by
  have hs : ∀ c : ℝ, 0 ≤ c → 0 ≤ Real.sqrt c ∧ Real.sqrt c * Real.sqrt c = c :=
    fun c hc => ⟨Real.sqrt_nonneg c, Real.mul_self_sqrt hc⟩
  have hne : (example_wing_skewed : WingBaseData ℝ).end_ ≠
      (example_wing_skewed : WingBaseData ℝ).start := by
    norm_num [example_wing_skewed, example_wing]
  have hbx : (example_wing_skewed : WingBaseData ℝ).blade_x ≠ ⟨0, 0, 0⟩ := by
    norm_num [example_wing_skewed, example_wing]
  have hskew : (example_wing_skewed : WingBaseData ℝ).blade_x.dot
      ((example_wing_skewed : WingBaseData ℝ).end_.sub
        (example_wing_skewed : WingBaseData ℝ).start) ≠ 0 := by
    norm_num [example_wing_skewed, example_wing, Vector.dot, Vector.sub]
  have hpar : ∀ t : ℝ, (example_wing_skewed : WingBaseData ℝ).blade_x ≠
      ((example_wing_skewed : WingBaseData ℝ).end_.sub
        (example_wing_skewed : WingBaseData ℝ).start).scale t := by
    intro t
    norm_num [example_wing_skewed, example_wing, Vector.scale, Vector.sub]
  exact ⟨⟨hs, hne, hbx, hskew, hpar⟩,
    frame_orthonormal (example_env Real.sqrt) hs example_wing_skewed hne hbx hpar⟩

/-! ## `ComputeForceOp`: the loop over the actuator points -/

open amr_wind.vs
open amr_wind.interp (Fault)

variable {K : Type} [LinearOrderedField K]

theorem bind_eq_ok {α β : Type} (x : Except Fault α) (f : α → Except Fault β) (r : β)
    (h : (x >>= f) = .ok r) : ∃ a, x = .ok a ∧ f a = .ok r := by
  cases x with
  | error e => exact absurd h (by simp [bind, Except.bind])
  | ok a => exact ⟨a, rfl, h⟩

theorem readElem_eq_ok {α : Type} (a : List α) (i : Int) (v : α) :
    readElem a i = .ok v ↔ 0 ≤ i ∧ a[i.toNat]? = some v := by
  unfold readElem
  by_cases hi : 0 ≤ i
  · simp only [hi, if_true, true_and]
    cases hq : a[i.toNat]? with
    | none => simp
    | some w => simp
  · simp [hi]

theorem readElem_natCast {α : Type} (a : List α) (i : Nat) (h : i < a.length) :
    readElem a (i : Int) = .ok (a.get ⟨i, h⟩) := by
  rw [readElem_eq_ok]
  refine ⟨by omega, ?_⟩
  simp [List.getElem?_eq_getElem h]

theorem readElem_writeElem_same {α : Type} (a a1 : List α) (i : Int) (v : α)
    (h : writeElem a i v = .ok a1) : readElem a1 i = .ok v := by
  unfold writeElem at h
  split at h
  · rename_i hc
    simp only [Except.ok.injEq] at h
    rw [readElem_eq_ok, ← h]
    refine ⟨hc.1, ?_⟩
    simp [List.getElem?_set, hc.2]
  · exact absurd h (by simp)

theorem readElem_writeElem_ne {α : Type} (a a1 : List α) (i j : Int) (v : α)
    (h : writeElem a i v = .ok a1) (hij : j ≠ i) : readElem a1 j = readElem a j := by
  unfold writeElem at h
  split at h
  · rename_i hc
    simp only [Except.ok.injEq] at h
    rw [← h]
    unfold readElem
    by_cases hj : 0 ≤ j
    · have hne : i.toNat ≠ j.toNat := by omega
      simp only [hj, if_true, List.getElem?_set_ne hne]
    · simp [hj]
  · exact absurd h (by simp)

theorem writeElem_length {α : Type} (a a1 : List α) (i : Int) (v : α)
    (h : writeElem a i v = .ok a1) : a1.length = a.length := by
  unfold writeElem at h
  split at h
  · simp only [Except.ok.injEq] at h
    rw [← h, List.length_set]
  · exact absurd h (by simp)

/-- One pass of the loop: the reads, the point values, the five stores, and the rest
of the loop on the updated arrays. -/
theorem compute_force_loop_step (E : Env K) (npts : Int) (current_time : ℚ) (ip : Int)
    (tl td : K) (grid : ActGrid K) (wdata : WingBaseData K)
    (res : K × K × ActGrid K × WingBaseData K) (hlt : ip < npts)
    (h : compute_force_loop E npts current_time ip tl td grid wdata = .ok res) :
    ∃ (pt : PointForce K) (force vel_rel : List (Vector K)) (aoa cl cd : List K),
      point_values E current_time grid wdata ip = .ok pt ∧
      writeElem grid.force ip pt.force = .ok force ∧
      writeElem wdata.vel_rel ip pt.vel_rel = .ok vel_rel ∧
      writeElem wdata.aoa ip pt.aoa = .ok aoa ∧
      writeElem wdata.cl ip pt.cl = .ok cl ∧
      writeElem wdata.cd ip pt.cd = .ok cd ∧
      compute_force_loop E npts current_time (ip + 1) (tl + pt.lift) (td + pt.drag)
        { grid with force := force }
        { wdata with vel_rel := vel_rel, aoa := aoa, cl := cl, cd := cd } = .ok res := by
  rw [compute_force_loop] at h
  simp only [hlt, if_true] at h
  obtain ⟨vel, hvel, h⟩ := bind_eq_ok _ _ _ h
  obtain ⟨chord, hchord, h⟩ := bind_eq_ok _ _ _ h
  obtain ⟨dx, hdx, h⟩ := bind_eq_ok _ _ _ h
  obtain ⟨pt, hpt, h⟩ := bind_eq_ok _ _ _ h
  obtain ⟨force, hforce, h⟩ := bind_eq_ok _ _ _ h
  obtain ⟨vel_rel, hvr, h⟩ := bind_eq_ok _ _ _ h
  obtain ⟨aoa, haoa, h⟩ := bind_eq_ok _ _ _ h
  obtain ⟨cl, hcl, h⟩ := bind_eq_ok _ _ _ h
  obtain ⟨cd, hcd, h⟩ := bind_eq_ok _ _ _ h
  refine ⟨pt, force, vel_rel, aoa, cl, cd, ?_, hforce, hvr, haoa, hcl, hcd, h⟩
  unfold point_values
  rw [hvel, hchord, hdx]
  exact hpt

/-- The point values do not depend on the arrays that the loop writes, nor on the
stored totals. -/
theorem point_values_update (E : Env K) (current_time : ℚ) (grid : ActGrid K)
    (wdata : WingBaseData K) (ip : Int) (force vel_rel : List (Vector K))
    (aoa cl cd : List K) :
    point_values E current_time { grid with force := force }
      { wdata with vel_rel := vel_rel, aoa := aoa, cl := cl, cd := cd } ip =
    point_values E current_time grid wdata ip := rfl

theorem point_values_totals (E : Env K) (current_time : ℚ) (grid : ActGrid K)
    (wdata : WingBaseData K) (ip : Int) (l0 d0 : K) :
    point_values E current_time grid { wdata with lift := l0, drag := d0 } ip =
    point_values E current_time grid wdata ip := rfl

/-- What the loop started at `ip` leaves behind when it returns: the members it does
not write are as before, and so are the positions below `ip` of the arrays it writes;
the point values of the points `ip, ip + 1, ...` are stored at their positions, and
their lift and drag are added to the running totals. -/
theorem compute_force_loop_spec (E : Env K) (npts : Int) (current_time : ℚ) :
    ∀ (n : Nat) (ip : Int) (tl td : K) (grid : ActGrid K) (wdata : WingBaseData K)
      (res : K × K × ActGrid K × WingBaseData K),
      (npts - ip).toNat = n → 0 ≤ ip →
      compute_force_loop E npts current_time ip tl td grid wdata = .ok res →
      (∀ j : Int, j < ip →
        readElem res.2.2.1.force j = readElem grid.force j ∧
        readElem res.2.2.2.vel_rel j = readElem wdata.vel_rel j ∧
        readElem res.2.2.2.aoa j = readElem wdata.aoa j ∧
        readElem res.2.2.2.cl j = readElem wdata.cl j ∧
        readElem res.2.2.2.cd j = readElem wdata.cd j) ∧
      ∃ pts : List (PointForce K), pts.length = n ∧
        (∀ (i : Nat) (p : PointForce K), pts[i]? = some p →
          point_values E current_time grid wdata (ip + i) = .ok p ∧
          readElem res.2.2.1.force (ip + i) = .ok p.force ∧
          readElem res.2.2.2.vel_rel (ip + i) = .ok p.vel_rel ∧
          readElem res.2.2.2.aoa (ip + i) = .ok p.aoa ∧
          readElem res.2.2.2.cl (ip + i) = .ok p.cl ∧
          readElem res.2.2.2.cd (ip + i) = .ok p.cd) ∧
        res.1 = tl + (pts.map PointForce.lift).sum ∧
        res.2.1 = td + (pts.map PointForce.drag).sum := by
  intro n
  induction n with
  | zero =>
    intro ip tl td grid wdata res hn hip h
    rw [compute_force_loop] at h
    have hge : ¬ ip < npts := by omega
    simp only [hge, if_false, Except.ok.injEq] at h
    subst h
    refine ⟨fun j _ => ⟨rfl, rfl, rfl, rfl, rfl⟩, [], rfl, ?_, by simp, by simp⟩
    intro i p hp
    simp at hp
  | succ n ih =>
    intro ip tl td grid wdata res hn hip h
    have hlt : ip < npts := by omega
    obtain ⟨pt, force, vel_rel, aoa, cl, cd, hpt, hforce, hvr, haoa, hcl, hcd, hrest⟩ :=
      compute_force_loop_step E npts current_time ip tl td grid wdata res hlt h
    obtain ⟨hbelow, pts, hlen, hvals, hl, hd⟩ :=
      ih (ip + 1) _ _ _ _ res (by omega) (by omega) hrest
    refine ⟨?_, pt :: pts, by simp [hlen], ?_, ?_, ?_⟩
    · intro j hj
      obtain ⟨b1, b2, b3, b4, b5⟩ := hbelow j (by omega)
      have hne : j ≠ ip := by omega
      exact ⟨b1.trans (readElem_writeElem_ne _ _ _ _ _ hforce hne),
        b2.trans (readElem_writeElem_ne _ _ _ _ _ hvr hne),
        b3.trans (readElem_writeElem_ne _ _ _ _ _ haoa hne),
        b4.trans (readElem_writeElem_ne _ _ _ _ _ hcl hne),
        b5.trans (readElem_writeElem_ne _ _ _ _ _ hcd hne)⟩
    · intro i p hp
      cases i with
      | zero =>
        simp only [List.getElem?_cons_zero, Option.some.injEq] at hp
        subst hp
        obtain ⟨b1, b2, b3, b4, b5⟩ := hbelow ip (by omega)
        simp only [Nat.cast_zero, add_zero]
        exact ⟨hpt, b1.trans (readElem_writeElem_same _ _ _ _ hforce),
          b2.trans (readElem_writeElem_same _ _ _ _ hvr),
          b3.trans (readElem_writeElem_same _ _ _ _ haoa),
          b4.trans (readElem_writeElem_same _ _ _ _ hcl),
          b5.trans (readElem_writeElem_same _ _ _ _ hcd)⟩
      | succ i =>
        simp only [List.getElem?_cons_succ] at hp
        have hv := hvals i p hp
        have he : ip + ((i + 1 : Nat) : Int) = ip + 1 + (i : Int) := by push_cast; ring
        rw [he]
        rw [point_values_update] at hv
        exact hv
    · rw [hl]
      simp only [List.map_cons, List.sum_cons]
      ring
    · rw [hd]
      simp only [List.map_cons, List.sum_cons]
      ring

/-- The loop writes only `grid.force` and the four diagnostic arrays. -/
theorem compute_force_loop_frame (E : Env K) (npts : Int) (current_time : ℚ) :
    ∀ (n : Nat) (ip : Int) (tl td : K) (grid : ActGrid K) (wdata : WingBaseData K)
      (res : K × K × ActGrid K × WingBaseData K),
      (npts - ip).toNat = n →
      compute_force_loop E npts current_time ip tl td grid wdata = .ok res →
      res.2.2.1 = { grid with force := res.2.2.1.force } ∧
      res.2.2.2 = { wdata with vel_rel := res.2.2.2.vel_rel, aoa := res.2.2.2.aoa,
                               cl := res.2.2.2.cl, cd := res.2.2.2.cd } := by
  intro n
  induction n with
  | zero =>
    intro ip tl td grid wdata res hn h
    rw [compute_force_loop] at h
    have hge : ¬ ip < npts := by omega
    simp only [hge, if_false, Except.ok.injEq] at h
    subst h
    exact ⟨rfl, rfl⟩
  | succ n ih =>
    intro ip tl td grid wdata res hn h
    have hlt : ip < npts := by omega
    obtain ⟨pt, force, vel_rel, aoa, cl, cd, _, _, _, _, _, _, hrest⟩ :=
      compute_force_loop_step E npts current_time ip tl td grid wdata res hlt h
    obtain ⟨h1, h2⟩ := ih (ip + 1) _ _ _ _ res (by omega) hrest
    exact ⟨h1, h2⟩

/-- The values of the operator: when `ComputeForceOp` returns, there is the list of
the point values of the points `0, ..., num_pts - 1`, computed from the data after the
motion update; the values of each point are stored at its position, and the totals
are the sums of the lifts and of the drags of the list. -/
theorem ComputeForceOp_spec (E : Env K) (data r : DataType K) (b : Bool)
    (h : ComputeForceOp E data = .ok (r, b)) :
    ∃ pts : List (PointForce K), pts.length = data.wdata.num_pts.toNat ∧
      (∀ (i : Nat) (p : PointForce K), pts[i]? = some p →
        point_values E data.time.current_time (move_wing E data).1 (move_wing E data).2 i =
          .ok p ∧
        readElem r.grid.force i = .ok p.force ∧
        readElem r.wdata.vel_rel i = .ok p.vel_rel ∧
        readElem r.wdata.aoa i = .ok p.aoa ∧
        readElem r.wdata.cl i = .ok p.cl ∧
        readElem r.wdata.cd i = .ok p.cd) ∧
      r.wdata.lift = (pts.map PointForce.lift).sum ∧
      r.wdata.drag = (pts.map PointForce.drag).sum := by
  simp only [ComputeForceOp] at h
  split at h
  · exact absurd h (by simp)
  · rename_i tl td grid wdata hloop
    obtain ⟨_, pts, hlen, hvals, hl, hd⟩ :=
      compute_force_loop_spec E _ _ _ 0 0 0 _ _ _ rfl (le_refl 0) hloop
    simp only [Except.ok.injEq, Prod.mk.injEq] at h
    obtain ⟨hr, _⟩ := h
    subst hr
    refine ⟨pts, by simpa using hlen, ?_, by simpa using hl, by simpa using hd⟩
    intro i p hp
    have hv := hvals i p hp
    simp only [zero_add] at hv
    exact hv

theorem ok_bind {α β : Type} (a : α) (f : α → Except Fault β) :
    ((Except.ok a : Except Fault α) >>= f) = f a := rfl

theorem readElem_returns {α : Type} (a : List α) (i : Int) (h0 : 0 ≤ i)
    (h : i < a.length) : ∃ v, readElem a i = .ok v := by
  have hi : i.toNat < a.length := by omega
  refine ⟨a.get ⟨i.toNat, hi⟩, ?_⟩
  rw [readElem_eq_ok]
  exact ⟨h0, by simp [List.getElem?_eq_getElem hi]⟩

theorem writeElem_returns {α : Type} (a : List α) (i : Int) (v : α) (h0 : 0 ≤ i)
    (h : i < a.length) : ∃ a1, writeElem a i v = .ok a1 ∧ a1.length = a.length := by
  have hi : i.toNat < a.length := by omega
  refine ⟨a.set i.toNat v, ?_, List.length_set _ _ _⟩
  unfold writeElem
  simp [h0, hi]

/-- The loop body returns for every sampled velocity when the wing has no pitch
schedule, or a schedule with at least one point and columns of equal lengths. -/
theorem compute_point_returns (E : Env K) (wdata : WingBaseData K) (current_time : ℚ)
    (vel : Vector K) (chord dx : K)
    (hp : wdata.pitch_timetable_empty = true ∨
      (1 ≤ wdata.time_table.length ∧ wdata.pitch_table.length = wdata.time_table.length)) :
    ∃ pt, compute_point E wdata current_time vel chord dx = .ok pt := by
  have ha : ∃ a, angle_of_attack E wdata current_time (wind_vector E wdata vel) = .ok a := by
    unfold angle_of_attack
    rcases hp with hp | ⟨h1, h2⟩
    · simp [hp]
    · obtain ⟨v, hv⟩ := linear_scalar_returns wdata.time_table wdata.pitch_table
        current_time h1 h2
      cases he : wdata.pitch_timetable_empty
      · simp [hv]
      · simp
  obtain ⟨a, ha⟩ := ha
  simp only [compute_point, ha]
  exact ⟨_, rfl⟩

/-- The loop returns when the eight arrays it indexes have at least `npts` elements and
the pitch schedule, if there is one, is usable. -/
theorem compute_force_loop_returns (E : Env K) (npts : Int) (current_time : ℚ) :
    ∀ (n : Nat) (ip : Int) (tl td : K) (grid : ActGrid K) (wdata : WingBaseData K),
      (npts - ip).toNat = n → 0 ≤ ip →
      npts ≤ grid.vel.length → npts ≤ wdata.chord.length → npts ≤ wdata.dx.length →
      npts ≤ grid.force.length → npts ≤ wdata.vel_rel.length → npts ≤ wdata.aoa.length →
      npts ≤ wdata.cl.length → npts ≤ wdata.cd.length →
      (wdata.pitch_timetable_empty = true ∨
        (1 ≤ wdata.time_table.length ∧
          wdata.pitch_table.length = wdata.time_table.length)) →
      ∃ res, compute_force_loop E npts current_time ip tl td grid wdata = .ok res := by
  intro n
  induction n with
  | zero =>
    intro ip tl td grid wdata hn _ _ _ _ _ _ _ _ _ _
    rw [compute_force_loop]
    have hge : ¬ ip < npts := by omega
    simp only [hge, if_false]
    exact ⟨_, rfl⟩
  | succ n ih =>
    intro ip tl td grid wdata hn hip h1 h2 h3 h4 h5 h6 h7 h8 hp
    have hlt : ip < npts := by omega
    obtain ⟨vel, hvel⟩ := readElem_returns grid.vel ip hip (by omega)
    obtain ⟨chord, hchord⟩ := readElem_returns wdata.chord ip hip (by omega)
    obtain ⟨dx, hdx⟩ := readElem_returns wdata.dx ip hip (by omega)
    obtain ⟨pt, hpt⟩ := compute_point_returns E wdata current_time vel chord dx hp
    obtain ⟨force, hforce, lforce⟩ :=
      writeElem_returns grid.force ip pt.force hip (by omega)
    obtain ⟨vel_rel, hvr, lvr⟩ :=
      writeElem_returns wdata.vel_rel ip pt.vel_rel hip (by omega)
    obtain ⟨aoa, haoa, laoa⟩ := writeElem_returns wdata.aoa ip pt.aoa hip (by omega)
    obtain ⟨cl, hcl, lcl⟩ := writeElem_returns wdata.cl ip pt.cl hip (by omega)
    obtain ⟨cd, hcd, lcd⟩ := writeElem_returns wdata.cd ip pt.cd hip (by omega)
    rw [compute_force_loop]
    simp only [hlt, if_true]
    rw [hvel, ok_bind, hchord, ok_bind, hdx, ok_bind, hpt, ok_bind, hforce, ok_bind, hvr,
      ok_bind, haoa, ok_bind, hcl, ok_bind, hcd, ok_bind]
    have g4 : npts ≤ (force.length : Int) := by omega
    have g5 : npts ≤ (vel_rel.length : Int) := by omega
    have g6 : npts ≤ (aoa.length : Int) := by omega
    have g7 : npts ≤ (cl.length : Int) := by omega
    have g8 : npts ≤ (cd.length : Int) := by omega
    exact ih (ip + 1) _ _ _ _ (by omega) (by omega) h1 h2 h3 g4 g5 g6 g7 g8 hp

/-- The operator returns when the eight arrays it indexes have at least `num_pts`
elements and the pitch schedule, if there is one, is usable. -/
theorem ComputeForceOp_returns (E : Env K) (data : DataType K)
    (h1 : data.wdata.num_pts ≤ data.grid.vel.length)
    (h2 : data.wdata.num_pts ≤ data.wdata.chord.length)
    (h3 : data.wdata.num_pts ≤ data.wdata.dx.length)
    (h4 : data.wdata.num_pts ≤ data.grid.force.length)
    (h5 : data.wdata.num_pts ≤ data.wdata.vel_rel.length)
    (h6 : data.wdata.num_pts ≤ data.wdata.aoa.length)
    (h7 : data.wdata.num_pts ≤ data.wdata.cl.length)
    (h8 : data.wdata.num_pts ≤ data.wdata.cd.length)
    (hp : data.wdata.pitch_timetable_empty = true ∨
      (1 ≤ data.wdata.time_table.length ∧
        data.wdata.pitch_table.length = data.wdata.time_table.length)) :
    ∃ r b, ComputeForceOp E data = .ok (r, b) := by
  obtain ⟨res, hres⟩ := compute_force_loop_returns E data.wdata.num_pts
    data.time.current_time _ 0 0 0
    { data.grid with pos := (move_wing E data).1.pos }
    { data.wdata with vel_tr := (move_wing E data).2.vel_tr } rfl (le_refl 0)
    h1 h2 h3 h4 h5 h6 h7 h8 hp
  obtain ⟨tl, td, grid, wdata⟩ := res
  simp only [move_wing] at hres
  simp only [ComputeForceOp, hres]
  exact ⟨_, _, rfl⟩

/-! ## `ComputeForceOp`: the points are independent of each other -/

open amr_wind.vs
open amr_wind.interp (Fault)

variable {K : Type} [LinearOrderedField K]

/-- The loop body reads the meta data only through the end points, the reference
direction, the body velocity and the pitch settings. -/
theorem compute_point_congr (E : Env K) (w1 w2 : WingBaseData K) (current_time : ℚ)
    (vel : Vector K) (chord dx : K)
    (hstart : w1.start = w2.start) (hend : w1.end_ = w2.end_)
    (hbx : w1.blade_x = w2.blade_x) (hvtr : w1.vel_tr = w2.vel_tr)
    (hempty : w1.pitch_timetable_empty = w2.pitch_timetable_empty)
    (htt : w1.time_table = w2.time_table) (hpt : w1.pitch_table = w2.pitch_table)
    (hpitch : w1.pitch = w2.pitch) :
    compute_point E w1 current_time vel chord dx =
      compute_point E w2 current_time vel chord dx := by
  simp only [compute_point, blade_frame, wind_vector, angle_of_attack, hstart, hend, hbx,
    hvtr, hempty, htt, hpt, hpitch]

/-- C22: two runs of `ComputeForceOp` on wings with the same number of points, end
points, reference direction and pitch settings, at the same time and with the same
body velocity after the motion update, whose inputs `vel[ip]`, `chord[ip]` and
`dx[ip]` agree at a point `ip` (nothing is asked of the other points, nor of the
previous contents of the output arrays) store the same values for that point: both
runs store in `force[ip]`, `vel_rel[ip]`, `aoa[ip]`, `cl[ip]`, `cd[ip]` the point
values computed from the inputs of point `ip`. -/
theorem per_point_independence (E : Env K) (d1 d2 r1 r2 : DataType K) (b1 b2 : Bool)
    (ip : Int)
    (hnum : d1.wdata.num_pts = d2.wdata.num_pts)
    (hstart : d1.wdata.start = d2.wdata.start) (hend : d1.wdata.end_ = d2.wdata.end_)
    (hbx : d1.wdata.blade_x = d2.wdata.blade_x)
    (hempty : d1.wdata.pitch_timetable_empty = d2.wdata.pitch_timetable_empty)
    (htt : d1.wdata.time_table = d2.wdata.time_table)
    (hpt : d1.wdata.pitch_table = d2.wdata.pitch_table)
    (hpitch : d1.wdata.pitch = d2.wdata.pitch)
    (htime : d1.time.current_time = d2.time.current_time)
    (hmotion : (move_wing E d1).2.vel_tr = (move_wing E d2).2.vel_tr)
    (hvel : readElem d1.grid.vel ip = readElem d2.grid.vel ip)
    (hchord : readElem d1.wdata.chord ip = readElem d2.wdata.chord ip)
    (hdx : readElem d1.wdata.dx ip = readElem d2.wdata.dx ip)
    (hip : 0 ≤ ip) (hlt : ip < d1.wdata.num_pts)
    (h1 : ComputeForceOp E d1 = .ok (r1, b1)) (h2 : ComputeForceOp E d2 = .ok (r2, b2)) :
    ∃ p : PointForce K,
      point_values E d1.time.current_time (move_wing E d1).1 (move_wing E d1).2 ip = .ok p ∧
      point_values E d2.time.current_time (move_wing E d2).1 (move_wing E d2).2 ip = .ok p ∧
      readElem r1.grid.force ip = .ok p.force ∧ readElem r2.grid.force ip = .ok p.force ∧
      readElem r1.wdata.vel_rel ip = .ok p.vel_rel ∧
      readElem r2.wdata.vel_rel ip = .ok p.vel_rel ∧
      readElem r1.wdata.aoa ip = .ok p.aoa ∧ readElem r2.wdata.aoa ip = .ok p.aoa ∧
      readElem r1.wdata.cl ip = .ok p.cl ∧ readElem r2.wdata.cl ip = .ok p.cl ∧
      readElem r1.wdata.cd ip = .ok p.cd ∧ readElem r2.wdata.cd ip = .ok p.cd := by
  obtain ⟨pts1, hlen1, hvals1, _, _⟩ := ComputeForceOp_spec E d1 r1 b1 h1
  obtain ⟨pts2, hlen2, hvals2, _, _⟩ := ComputeForceOp_spec E d2 r2 b2 h2
  have hi1 : ip.toNat < pts1.length := by omega
  have hi2 : ip.toNat < pts2.length := by omega
  have hcast : ((ip.toNat : Nat) : Int) = ip := Int.toNat_of_nonneg hip
  obtain ⟨a1, a2, a3, a4, a5, a6⟩ :=
    hvals1 ip.toNat (pts1.get ⟨ip.toNat, hi1⟩) (by simp [List.getElem?_eq_getElem hi1])
  obtain ⟨c1, c2, c3, c4, c5, c6⟩ :=
    hvals2 ip.toNat (pts2.get ⟨ip.toNat, hi2⟩) (by simp [List.getElem?_eq_getElem hi2])
  rw [hcast] at a1 a2 a3 a4 a5 a6 c1 c2 c3 c4 c5 c6
  have hsame : point_values E d2.time.current_time (move_wing E d2).1 (move_wing E d2).2 ip =
      point_values E d1.time.current_time (move_wing E d1).1 (move_wing E d1).2 ip := by
    unfold point_values
    have e1 : (move_wing E d2).1.vel = d2.grid.vel := rfl
    have e2 : (move_wing E d2).2.chord = d2.wdata.chord := rfl
    have e3 : (move_wing E d2).2.dx = d2.wdata.dx := rfl
    have f1 : (move_wing E d1).1.vel = d1.grid.vel := rfl
    have f2 : (move_wing E d1).2.chord = d1.wdata.chord := rfl
    have f3 : (move_wing E d1).2.dx = d1.wdata.dx := rfl
    rw [e1, e2, e3, f1, f2, f3, ← hvel, ← hchord, ← hdx, ← htime]
    have hc : ∀ vel chord dx,
        compute_point E (move_wing E d2).2 d1.time.current_time vel chord dx =
          compute_point E (move_wing E d1).2 d1.time.current_time vel chord dx := by
      intro vel chord dx
      exact compute_point_congr E _ _ _ _ _ _ hstart.symm hend.symm hbx.symm hmotion.symm
        hempty.symm htt.symm hpt.symm hpitch.symm
    simp only [hc]
  rw [hsame, a1] at c1
  simp only [Except.ok.injEq] at c1
  rw [← c1] at c2 c3 c4 c5 c6
  exact ⟨_, a1, by rw [hsame, a1], a2, c2, a3, c3, a4, c4, a5, c5, a6, c6⟩

/-- Instance of C22: the example wing at time `0` with the data `example_data` and
with the data `example_data_other`, which differ at the second point, in the output
arrays and in the stored totals; the first point has the same inputs in both runs. -/
theorem per_point_independence_witness :
    ∃ (r1 r2 : DataType ℚ) (b1 b2 : Bool),
      ComputeForceOp (example_env example_sqrt) (example_data ⟨10, 0, 0⟩) = .ok (r1, b1) ∧
      ComputeForceOp (example_env example_sqrt) example_data_other = .ok (r2, b2) ∧
      ∃ p : PointForce ℚ,
        point_values (example_env example_sqrt) 0
          (move_wing (example_env example_sqrt) (example_data ⟨10, 0, 0⟩)).1
          (move_wing (example_env example_sqrt) (example_data ⟨10, 0, 0⟩)).2 0 = .ok p ∧
        readElem r1.grid.force 0 = .ok p.force ∧ readElem r2.grid.force 0 = .ok p.force ∧
        readElem r1.wdata.vel_rel 0 = .ok p.vel_rel ∧
        readElem r2.wdata.vel_rel 0 = .ok p.vel_rel ∧
        readElem r1.wdata.aoa 0 = .ok p.aoa ∧ readElem r2.wdata.aoa 0 = .ok p.aoa ∧
        readElem r1.wdata.cl 0 = .ok p.cl ∧ readElem r2.wdata.cl 0 = .ok p.cl ∧
        readElem r1.wdata.cd 0 = .ok p.cd ∧ readElem r2.wdata.cd 0 = .ok p.cd := by
  obtain ⟨r1, b1, h1⟩ := ComputeForceOp_returns (example_env example_sqrt)
    (example_data ⟨10, 0, 0⟩ : DataType ℚ)
    (by decide) (by decide) (by decide) (by decide) (by decide) (by decide) (by decide)
    (by decide) (Or.inl rfl)
  obtain ⟨r2, b2, h2⟩ := ComputeForceOp_returns (example_env example_sqrt)
    (example_data_other : DataType ℚ)
    (by decide) (by decide) (by decide) (by decide) (by decide) (by decide) (by decide)
    (by decide) (Or.inl rfl)
  obtain ⟨p, hp1, _, q⟩ := per_point_independence (example_env example_sqrt)
    (example_data ⟨10, 0, 0⟩) example_data_other r1 r2 b1 b2 0
    rfl rfl rfl rfl rfl rfl rfl rfl rfl rfl rfl rfl rfl (le_refl 0) (by decide) h1 h2
  exact ⟨r1, r2, b1, b2, h1, h2, p, hp1, q⟩

/-! ## `ComputeForceOp`: the totals -/

open amr_wind.vs
open amr_wind.interp (Fault)

variable {K : Type} [LinearOrderedField K]

/-- A list of point values is determined by its length and by the value at each
position. -/
theorem point_list_unique {α : Type} (f : Int → Except Fault α)
    (l1 l2 : List α) (hlen : l1.length = l2.length)
    (h1 : ∀ (i : Nat) (p : α), l1[i]? = some p → f i = .ok p)
    (h2 : ∀ (i : Nat) (p : α), l2[i]? = some p → f i = .ok p) : l1 = l2 := by
  apply List.ext_getElem? 
  intro i
  by_cases hi : i < l1.length
  · have hi2 : i < l2.length := by omega
    have e1 := h1 i _ (List.getElem?_eq_getElem hi)
    have e2 := h2 i _ (List.getElem?_eq_getElem hi2)
    rw [e1] at e2
    simp only [Except.ok.injEq] at e2
    rw [List.getElem?_eq_getElem hi, List.getElem?_eq_getElem hi2, e2]
  · have hi2 : ¬ i < l2.length := by omega
    rw [List.getElem?_eq_none (by omega), List.getElem?_eq_none (by omega)]

/-- C23: whatever totals `l0`, `d0` are stored before the call, when `ComputeForceOp`
returns, its `wdata.lift` and `wdata.drag` are the sums of the lifts and of the drags of
the point values of the points `0, ..., num_pts - 1`, computed in this call from the
data after the motion update; another run that differs only in the stored totals
returns the same totals; with `num_pts = 0` (or less) both totals are `0`. -/
theorem totals_are_sums (E : Env K) (data r : DataType K) (b : Bool) (l0 d0 : K)
    (h : ComputeForceOp E { data with wdata := { data.wdata with lift := l0, drag := d0 } } =
      .ok (r, b)) :
    (∃ pts : List (PointForce K), pts.length = data.wdata.num_pts.toNat ∧
      (∀ (i : Nat) (p : PointForce K), pts[i]? = some p →
        point_values E data.time.current_time (move_wing E data).1 (move_wing E data).2 i =
          .ok p) ∧
      r.wdata.lift = (pts.map PointForce.lift).sum ∧
      r.wdata.drag = (pts.map PointForce.drag).sum) ∧
    (∀ (l1 d1 : K) (r1 : DataType K) (b1 : Bool),
      ComputeForceOp E { data with wdata := { data.wdata with lift := l1, drag := d1 } } =
        .ok (r1, b1) → r1.wdata.lift = r.wdata.lift ∧ r1.wdata.drag = r.wdata.drag) ∧
    (data.wdata.num_pts ≤ 0 → r.wdata.lift = 0 ∧ r.wdata.drag = 0) := by
  have key : ∀ (l1 d1 : K) (r1 : DataType K) (b1 : Bool),
      ComputeForceOp E { data with wdata := { data.wdata with lift := l1, drag := d1 } } =
        .ok (r1, b1) →
      ∃ pts : List (PointForce K), pts.length = data.wdata.num_pts.toNat ∧
        (∀ (i : Nat) (p : PointForce K), pts[i]? = some p →
          point_values E data.time.current_time (move_wing E data).1 (move_wing E data).2 i =
            .ok p) ∧
        r1.wdata.lift = (pts.map PointForce.lift).sum ∧
        r1.wdata.drag = (pts.map PointForce.drag).sum := by
    intro l1 d1 r1 b1 h1
    obtain ⟨pts, hlen, hvals, hl, hd⟩ := ComputeForceOp_spec E _ r1 b1 h1
    refine ⟨pts, hlen, ?_, hl, hd⟩
    intro i p hp
    exact (hvals i p hp).1
  obtain ⟨pts, hlen, hvals, hl, hd⟩ := key l0 d0 r b h
  refine ⟨⟨pts, hlen, hvals, hl, hd⟩, ?_, ?_⟩
  · intro l1 d1 r1 b1 h1
    obtain ⟨pts1, hlen1, hvals1, hl1, hd1⟩ := key l1 d1 r1 b1 h1
    have he : pts1 = pts :=
      point_list_unique _ pts1 pts (by omega) hvals1 hvals
    rw [hl1, hd1, hl, hd, he]
    exact ⟨rfl, rfl⟩
  · intro h0
    have hnil : pts = [] := List.length_eq_zero.mp (by omega)
    rw [hl, hd, hnil]
    exact ⟨rfl, rfl⟩

/-- The point values of the two points of the example. -/
theorem point_values_example (i : Nat) (hi : i < 2) :
    ∃ p, point_values (example_env example_sqrt) 0
        (move_wing (example_env example_sqrt) (example_data ⟨10, 0, 0⟩)).1
        (move_wing (example_env example_sqrt) (example_data ⟨10, 0, 0⟩)).2 i = .ok p ∧
      p.lift = 150 ∧ p.drag = 15 := by
  interval_cases i
  · norm_num [point_values, move_wing, example_data, example_env, example_wing, readElem,
      compute_point, angle_of_attack, wind_vector, blade_frame, Vector.unit, mag,
      Vector.cross, Vector.sub, Vector.dot, example_sqrt, bind, Except.bind]
  · norm_num [point_values, move_wing, example_data, example_env, example_wing, readElem,
      compute_point, angle_of_attack, wind_vector, blade_frame, Vector.unit, mag,
      Vector.cross, Vector.sub, Vector.dot, example_sqrt, bind, Except.bind]

/-- Instance of C23: the force-assembly example of the spec with the totals `7` and `9`
stored before the call; the call returns, and its totals are the sums of the lifts
`150 + 150` and of the drags `15 + 15` of the two points. -/
theorem totals_are_sums_witness :
    ∃ (r : DataType ℚ) (b : Bool),
      ComputeForceOp (example_env example_sqrt)
        { (example_data ⟨10, 0, 0⟩ : DataType ℚ) with
          wdata := { (example_data ⟨10, 0, 0⟩ : DataType ℚ).wdata with
            lift := 7, drag := 9 } } = .ok (r, b) ∧
      (∃ pts : List (PointForce ℚ),
        pts.length = (example_data ⟨10, 0, 0⟩ : DataType ℚ).wdata.num_pts.toNat ∧
        (∀ (i : Nat) (p : PointForce ℚ), pts[i]? = some p →
          point_values (example_env example_sqrt)
            (example_data ⟨10, 0, 0⟩ : DataType ℚ).time.current_time
            (move_wing (example_env example_sqrt) (example_data ⟨10, 0, 0⟩)).1
            (move_wing (example_env example_sqrt) (example_data ⟨10, 0, 0⟩)).2 i = .ok p) ∧
        r.wdata.lift = (pts.map PointForce.lift).sum ∧
        r.wdata.drag = (pts.map PointForce.drag).sum) ∧
      r.wdata.lift = 300 ∧ r.wdata.drag = 30 := by
  obtain ⟨r, b, h⟩ := ComputeForceOp_returns (example_env example_sqrt)
    { (example_data ⟨10, 0, 0⟩ : DataType ℚ) with
      wdata := { (example_data ⟨10, 0, 0⟩ : DataType ℚ).wdata with lift := 7, drag := 9 } }
    (by decide) (by decide) (by decide) (by decide) (by decide) (by decide) (by decide)
    (by decide) (Or.inl rfl)
  have hsum := (totals_are_sums (example_env example_sqrt) (example_data ⟨10, 0, 0⟩) r b
    7 9 h).1
  refine ⟨r, b, h, hsum, ?_⟩
  obtain ⟨pts, hlen, hvals, hl, hd⟩ := hsum
  have hlen2 : pts.length = 2 := hlen
  obtain ⟨p0, p1, hpts⟩ := List.length_eq_two.mp hlen2
  subst hpts
  obtain ⟨q0, hq0, hl0, hd0⟩ := point_values_example 0 (by decide)
  obtain ⟨q1, hq1, hl1, hd1⟩ := point_values_example 1 (by decide)
  have e0 := hvals 0 p0 rfl
  have e1 := hvals 1 p1 rfl
  have t0 : (example_data ⟨10, 0, 0⟩ : DataType ℚ).time.current_time = 0 := rfl
  rw [t0] at e0 e1
  rw [hq0] at e0
  rw [hq1] at e1
  simp only [Except.ok.injEq] at e0 e1
  subst e0
  subst e1
  rw [hl, hd]
  simp only [List.map_cons, List.map_nil, List.sum_cons, List.sum_nil, hl0, hl1, hd0, hd1]
  norm_num

end amr_wind.actuator

namespace amr_wind.interp.machine

/-! ## Machine arithmetic: unfolding lemmas -/

open amr_wind.machine

theorem except_ok_bind {ε α β : Type} (a : α) (f : α → Except ε β) :
    ((Except.ok a : Except ε α) >>= f) = f a := rfl

theorem bisection_loop_succ (x : List Dbl) (q xl : Dbl) (fuel : Nat) (il ir : Int) :
    bisection_loop x q xl (fuel + 1) il ir =
      if int32 (ir - il) > 1 then
        match readAt x (int32 (il + ir) >>> (1 : Nat)) with
        | .error e => .error e
        | .ok xmid =>
          if ((q.sub xmid).mul (q.sub xl)).le zero then
            bisection_loop x q xl fuel il (int32 (il + ir) >>> (1 : Nat))
          else bisection_loop x q xl fuel (int32 (il + ir) >>> (1 : Nat)) ir
      else .ok il := rfl

theorem readAt_of_neg (x : List Dbl) (i : Int) (h : i < 0) :
    readAt x i = .error .OutOfBounds := by
  unfold readAt
  rw [if_neg (by omega)]

theorem readAt_replicate_append (n : Nat) (a : Dbl) (l : List Dbl) (i : Int)
    (h0 : 0 ≤ i) (h : i < n) : readAt (List.replicate n a ++ l) i = .ok a := by
  unfold readAt
  rw [if_pos h0]
  have hi : i.toNat < n := by omega
  rw [List.getElem?_append_left (by simpa using hi), List.getElem?_replicate]
  simp [hi]

theorem readAt_append_last (n : Nat) (a b : Dbl) :
    readAt (List.replicate n a ++ [b]) (n : Int) = .ok b := by
  unfold readAt
  rw [if_pos (by omega)]
  have : ((n : Int)).toNat = n := by omega
  rw [this, List.getElem?_append_right (by simp)]
  simp

theorem machine_check_bounds_eq (x : List Dbl) (q x0 xlast : Dbl)
    (h2 : ¬ int32 x.length < 2) (h0 : readAt x 0 = .ok x0)
    (hl : readAt x (int32 (int32 x.length - 1)) = .ok xlast) :
    check_bounds x q =
      if q.lt x0 then .ok ⟨0, .LOWLIM⟩
      else if xlast.lt q then .ok ⟨int32 (int32 x.length - 1), .UPLIM⟩
      else .ok ⟨0, .VALID⟩ := by
  unfold check_bounds
  show (if int32 x.length < 2 then _ else _) = _
  rw [if_neg h2, h0]
  show (if q.lt x0 = true then _ else _) = _
  by_cases hq : q.lt x0 = true
  · rw [if_pos hq, if_pos hq]
  · rw [if_neg hq, if_neg hq, hl]
    rfl

theorem bisection_search_of_valid (x : List Dbl) (q xl : Dbl)
    (hc : check_bounds x q = .ok ⟨0, .VALID⟩) (h0 : readAt x 0 = .ok xl) :
    bisection_search x q =
      match bisection_loop x q xl x.length 0 (int32 x.length) with
      | .error e => .error e
      | .ok il => .ok ⟨il, .VALID⟩ := by
  unfold bisection_search
  rw [hc]
  show (if Limits.VALID = Limits.LOWLIM ∨ Limits.VALID = Limits.UPLIM then _ else _) = _
  rw [if_neg (by decide), h0, except_ok_bind]
  generalize bisection_loop x q xl x.length 0 (int32 x.length) = r
  cases r <;> rfl

theorem bisection_loop_left (x : List Dbl) (q xl xmid : Dbl) (fuel : Nat) (il ir : Int)
    (hw : int32 (ir - il) > 1)
    (hr : readAt x (int32 (il + ir) >>> (1 : Nat)) = .ok xmid)
    (ht : ((q.sub xmid).mul (q.sub xl)).le zero = true) :
    bisection_loop x q xl (fuel + 1) il ir =
      bisection_loop x q xl fuel il (int32 (il + ir) >>> (1 : Nat)) := by
  rw [bisection_loop_succ, if_pos hw, hr]
  simp only [ht, if_true]

theorem bisection_loop_right (x : List Dbl) (q xl xmid : Dbl) (fuel : Nat) (il ir : Int)
    (hw : int32 (ir - il) > 1)
    (hr : readAt x (int32 (il + ir) >>> (1 : Nat)) = .ok xmid)
    (ht : ((q.sub xmid).mul (q.sub xl)).le zero = false) :
    bisection_loop x q xl (fuel + 1) il ir =
      bisection_loop x q xl fuel (int32 (il + ir) >>> (1 : Nat)) ir := by
  rw [bisection_loop_succ, if_pos hw, hr]
  simp only [ht, Bool.false_eq_true, if_false]

theorem bisection_loop_fault (x : List Dbl) (q xl : Dbl) (fuel : Nat) (il ir : Int)
    (e : Fault) (hw : int32 (ir - il) > 1)
    (hr : readAt x (int32 (il + ir) >>> (1 : Nat)) = .error e) :
    bisection_loop x q xl (fuel + 1) il ir = .error e := by
  rw [bisection_loop_succ, if_pos hw, hr]



/-! ## Machine arithmetic: the iteration bound of `bisection_loop` is never reached -/


theorem int32_of_range (z : Int) (h0 : -2147483648 ≤ z) (h1 : z < 2147483648) :
    int32 z = z := by
  unfold int32
  omega

theorem int32_range (z : Int) : -2147483648 ≤ int32 z ∧ int32 z < 2147483648 := by
  unfold int32
  omega

theorem int32_wrapped (z : Int) (h0 : 2147483648 ≤ z) (h1 : z < 4294967296) :
    int32 z = z - 4294967296 := by
  unfold int32
  omega

theorem int32_le_self (z : Int) (h0 : 0 ≤ z) : int32 z ≤ z := by
  unfold int32
  omega

theorem readAt_error (x : List Dbl) (i : Int) (e : Fault) (h : readAt x i = .error e) :
    e = .OutOfBounds := by
  unfold readAt at h
  split at h
  · split at h
    · exact absurd h (by simp)
    · exact (Except.error.inj h).symm
  · exact (Except.error.inj h).symm

theorem readAt_ok_nonneg (x : List Dbl) (i : Int) (v : Dbl) (h : readAt x i = .ok v) :
    0 ≤ i ∧ i < x.length := by
  unfold readAt at h
  split at h
  · rename_i h0
    split at h
    · rename_i w hw
      have := (List.getElem?_eq_some_iff.mp hw).1
      omega
    · exact absurd h (by simp)
  · exact absurd h (by simp)

theorem bisection_loop_zero (x : List Dbl) (q xl : Dbl) (il ir : Int) :
    bisection_loop x q xl 0 il ir =
      if int32 (ir - il) > 1 then .error .NoFuel else .ok il := rfl

/-- The loop does not run out of iterations when it is given at least `ir - il - 1` of
them: a pass either faults on its read or narrows the interval. -/
theorem bisection_loop_fuel (x : List Dbl) (q xl : Dbl) :
    ∀ (fuel : Nat) (il ir : Int), 0 ≤ il → il ≤ ir → ir < 2147483648 →
      ir - il ≤ fuel + 1 → bisection_loop x q xl fuel il ir ≠ .error .NoFuel := by
  intro fuel
  induction fuel with
  | zero =>
    intro il ir h0 hle hr hf
    rw [bisection_loop_zero, int32_of_range _ (by omega) (by omega), if_neg (by omega)]
    simp
  | succ n ih =>
    intro il ir h0 hle hr hf
    rw [bisection_loop_succ, int32_of_range (ir - il) (by omega) (by omega)]
    by_cases hw : ir - il > 1
    · rw [if_pos hw]
      cases hread : readAt x (int32 (il + ir) >>> (1 : Nat)) with
      | error e =>
        rw [readAt_error x _ e hread]
        simp
      | ok xmid =>
        have hmid := (readAt_ok_nonneg x _ xmid hread).1
        rw [Int.shiftRight_eq_div_pow] at hmid
        have hsum : il + ir < 2147483648 := by
          by_contra hge
          rw [int32_wrapped (il + ir) (by omega) (by omega)] at hmid
          omega
        have hm : int32 (il + ir) >>> (1 : Nat) = (il + ir) / 2 := by
          rw [int32_of_range (il + ir) (by omega) hsum, Int.shiftRight_eq_div_pow]
          rfl
        rw [hm]
        show (if ((q.sub xmid).mul (q.sub xl)).le zero = true then _ else _) ≠ _
        split
        · exact ih il _ h0 (by omega) (by omega) (by omega)
        · exact ih _ ir (by omega) (by omega) hr (by omega)
    · rw [if_neg hw]
      simp



theorem check_bounds_error (x : List Dbl) (q : Dbl) (e : Fault)
    (h : check_bounds x q = .error e) : e = .OutOfBounds := by
  unfold check_bounds at h
  simp only [bind, Except.bind] at h
  repeat' split at h
  all_goals first
    | (rename_i h1; rw [← Except.error.inj h]; exact readAt_error _ _ _ h1)
    | exact absurd h (by simp)

theorem machine_bisection_loop_exit (x : List Dbl) (q xl : Dbl) (fuel : Nat) (il ir : Int)
    (h : ¬ int32 (ir - il) > 1) : bisection_loop x q xl fuel il ir = .ok il := by
  cases fuel with
  | zero => rw [bisection_loop_zero, if_neg h]
  | succ n => rw [bisection_loop_succ, if_neg h]

/-- The function `bisection_search` never runs out of the iterations it gives to its
loop: the bound `len` is not a restriction. -/
theorem bisection_search_fuel (x : List Dbl) (q : Dbl) :
    bisection_search x q ≠ .error .NoFuel := by
  have hloop : ∀ xl, bisection_loop x q xl x.length 0 (int32 x.length) ≠ .error .NoFuel := by
    intro xl
    by_cases hs : int32 (x.length : Int) ≤ 1
    · rw [machine_bisection_loop_exit]
      · simp
      · have := int32_range (x.length : Int)
        rw [int32_of_range _ (by omega) (by omega)]
        omega
    · have h1 := int32_range (x.length : Int)
      have h2 := int32_le_self (x.length : Int) (by omega)
      exact bisection_loop_fuel x q xl x.length 0 _ (le_refl 0) (by omega) h1.2 (by omega)
  unfold bisection_search
  cases hc : check_bounds x q with
  | error e =>
    rw [check_bounds_error x q e hc]
    simp
  | ok idx =>
    show (if idx.lim = .LOWLIM ∨ idx.lim = .UPLIM then _ else _) ≠ _
    split
    · simp
    · cases h0 : readAt x 0 with
      | error e =>
        rw [readAt_error x 0 e h0]
        simp [bind, Except.bind]
      | ok xl =>
        rw [except_ok_bind]
        have := hloop xl
        cases hL : bisection_loop x q xl x.length 0 (int32 x.length) with
        | error e =>
          rw [hL] at this
          intro hcon
          apply this
          simpa [bind, Except.bind] using hcon
        | ok il => simp [bind, Except.bind]

/-! ## Machine arithmetic: `amrex::Abort` -/

/-- C3: in `double` arithmetic the invariant of `bisection_search` fails.  On the
sorted table `x = [-0.25, 0, 1]` and the query `q = 2^(-1074)` (the smallest positive
`double`), classified `VALID`, the test of line 53 at `mid = 1` multiplies
`q - x[1] = 2^(-1074)` by `q - x[0] = 0.25`; the product `2^(-1076)` rounds to `0`,
the test `<= 0.0` succeeds and the search goes left: it returns `idx = 0`, although
`x[1] = 0 < q`, so that `q <= x[idx + 1]` does not hold. -/
theorem bisection_search_underflow :
    ((Dbl.lit 1 4).neg.le zero = true ∧ zero.le one = true) ∧
    check_bounds [(Dbl.lit 1 4).neg, zero, one] (Dbl.lit 1 (2 ^ 1074)) = .ok ⟨0, .VALID⟩ ∧
    (Dbl.lit 1 (2 ^ 1074)).sub zero = Dbl.lit 1 (2 ^ 1074) ∧
    (Dbl.lit 1 (2 ^ 1074)).sub (Dbl.lit 1 4).neg = Dbl.lit 1 4 ∧
    (Dbl.lit 1 (2 ^ 1074)).mul (Dbl.lit 1 4) = zero ∧
    bisection_search [(Dbl.lit 1 4).neg, zero, one] (Dbl.lit 1 (2 ^ 1074)) =
      .ok ⟨0, .VALID⟩ ∧
    readAt [(Dbl.lit 1 4).neg, zero, one] (0 + 1) = .ok zero ∧
    zero.lt (Dbl.lit 1 (2 ^ 1074)) = true ∧
    (Dbl.lit 1 (2 ^ 1074)).le zero = false := by
  decide!

/-- C7: in `double` arithmetic the hinted scan and the bisection disagree.  On the
sorted table `x = [-0.25, 0, 1]` and the one-query sequence `q = 2^(-1074)`,
`find_index` with hint `1` compares `q <= x[1] = 0` (false) and `q <= x[2] = 1` (true)
and returns `idx = 1`, while `bisection_search`, whose loop test underflows, returns
`idx = 0`; both classify the query `VALID`. -/
theorem find_index_differs_from_bisection :
    ((Dbl.lit 1 4).neg.le zero = true ∧ zero.le one = true) ∧
    find_index [(Dbl.lit 1 4).neg, zero, one] (Dbl.lit 1 (2 ^ 1074)) 1 = .ok ⟨1, .VALID⟩ ∧
    bisection_search [(Dbl.lit 1 4).neg, zero, one] (Dbl.lit 1 (2 ^ 1074)) =
      .ok ⟨0, .VALID⟩ ∧
    find_index [(Dbl.lit 1 4).neg, zero, one] (Dbl.lit 1 (2 ^ 1074)) 1 ≠
      bisection_search [(Dbl.lit 1 4).neg, zero, one] (Dbl.lit 1 (2 ^ 1074)) := by
  decide!

/-- C8: in `double` arithmetic `linear_monotonic` and scalar `linear` disagree.  On the
sorted table `x = [0, 2^(-600), 2^(-599), 1]`, `y = [0, 1, 2, 3]` and the one-query
sequence `q = 3 * 2^(-600)`, which lies between `x[2]` and `x[3]`, `linear_monotonic`
(with or without assertions) finds the bracket `2` and writes `2`, while scalar
`linear`, whose loop test underflows at `mid = 2` and at `mid = 1`, takes the bracket
`0` and returns `y[1] = 1`. -/
theorem linear_monotonic_differs_from_linear :
    (zero.le (Dbl.lit 1 (2 ^ 600)) = true ∧
      (Dbl.lit 1 (2 ^ 600)).le (Dbl.lit 1 (2 ^ 599)) = true ∧
      (Dbl.lit 1 (2 ^ 599)).le one = true) ∧
    find_index [zero, Dbl.lit 1 (2 ^ 600), Dbl.lit 1 (2 ^ 599), one]
      (Dbl.lit 3 (2 ^ 600)) 1 = .ok ⟨2, .VALID⟩ ∧
    bisection_search [zero, Dbl.lit 1 (2 ^ 600), Dbl.lit 1 (2 ^ 599), one]
      (Dbl.lit 3 (2 ^ 600)) = .ok ⟨0, .VALID⟩ ∧
    linear_monotonic true [zero, Dbl.lit 1 (2 ^ 600), Dbl.lit 1 (2 ^ 599), one]
      [zero, one, Dbl.lit 2 1, Dbl.lit 3 1] [Dbl.lit 3 (2 ^ 600)] [zero] =
      .ok [Dbl.lit 2 1] ∧
    linear_monotonic false [zero, Dbl.lit 1 (2 ^ 600), Dbl.lit 1 (2 ^ 599), one]
      [zero, one, Dbl.lit 2 1, Dbl.lit 3 1] [Dbl.lit 3 (2 ^ 600)] [zero] =
      .ok [Dbl.lit 2 1] ∧
    linear [zero, Dbl.lit 1 (2 ^ 600), Dbl.lit 1 (2 ^ 599), one]
      [zero, one, Dbl.lit 2 1, Dbl.lit 3 1] (Dbl.lit 3 (2 ^ 600)) = .ok one := by
  decide!

/-- C25: in `double` arithmetic `bisection_search` does not return the largest index
below the query.  On the sorted table `x = [0, 2^(-600), 2^(-599), 1]` and the
in-range query `q = 3 * 2^(-600)` the entries `x[0]`, `x[1]`, `x[2]` are below `q` and
`x[3]` is not, so the largest index `i` with `x[i] < q` is `2`; the loop test
underflows at `mid = 2` (product `3 * 2^(-1200)`) and at `mid = 1` (product
`3 * 2^(-1199)`), and `bisection_search` returns `idx = 0`. -/
theorem bisection_search_not_largest :
    (zero.le (Dbl.lit 3 (2 ^ 600)) = true ∧ (Dbl.lit 3 (2 ^ 600)).le one = true) ∧
    (zero.lt (Dbl.lit 3 (2 ^ 600)) = true ∧
      (Dbl.lit 1 (2 ^ 600)).lt (Dbl.lit 3 (2 ^ 600)) = true ∧
      (Dbl.lit 1 (2 ^ 599)).lt (Dbl.lit 3 (2 ^ 600)) = true ∧
      one.lt (Dbl.lit 3 (2 ^ 600)) = false) ∧
    ((Dbl.lit 3 (2 ^ 600)).sub (Dbl.lit 1 (2 ^ 599))).mul
      ((Dbl.lit 3 (2 ^ 600)).sub zero) = zero ∧
    ((Dbl.lit 3 (2 ^ 600)).sub (Dbl.lit 1 (2 ^ 600))).mul
      ((Dbl.lit 3 (2 ^ 600)).sub zero) = zero ∧
    bisection_search [zero, Dbl.lit 1 (2 ^ 600), Dbl.lit 1 (2 ^ 599), one]
      (Dbl.lit 3 (2 ^ 600)) = .ok ⟨0, .VALID⟩ := by
  decide!

/-- C15: in `double` arithmetic `bisection_search` returns an index above `len - 2`.
On the two-point table `x = [-1e308, 1e308]` and the query `q = x[0]`, classified
`VALID`, the loop reads `mid = 1`; `q - x[1]` overflows to minus infinity, `q - x[0]`
is `0`, their product is a NaN, the test `<= 0.0` fails and the search goes right: it
returns `idx = 1 = len - 1`, so that scalar `linear` then reads `x[2]`, outside the
table. -/
theorem bisection_search_overflow :
    ((Dbl.lit (10 ^ 308) 1).neg.le (Dbl.lit (10 ^ 308) 1) = true) ∧
    check_bounds [(Dbl.lit (10 ^ 308) 1).neg, Dbl.lit (10 ^ 308) 1]
      (Dbl.lit (10 ^ 308) 1).neg = .ok ⟨0, .VALID⟩ ∧
    (Dbl.lit (10 ^ 308) 1).neg.sub (Dbl.lit (10 ^ 308) 1) = .ninf ∧
    (Dbl.lit (10 ^ 308) 1).neg.sub (Dbl.lit (10 ^ 308) 1).neg = zero ∧
    Dbl.ninf.mul zero = .nan ∧
    Dbl.nan.le zero = false ∧
    bisection_search [(Dbl.lit (10 ^ 308) 1).neg, Dbl.lit (10 ^ 308) 1]
      (Dbl.lit (10 ^ 308) 1).neg = .ok ⟨1, .VALID⟩ ∧
    linear [(Dbl.lit (10 ^ 308) 1).neg, Dbl.lit (10 ^ 308) 1] [zero, one]
      (Dbl.lit (10 ^ 308) 1).neg = .error .OutOfBounds := by
  decide!


/-! ## Machine arithmetic: the midpoint of `bisection_search` -/

theorem long_table_length : long_table.length = 1600000000 := by
  unfold long_table
  rw [List.length_append, List.length_replicate, List.length_singleton]

theorem long_table_check : check_bounds long_table one = .ok ⟨0, .VALID⟩ := by
  have h0 : readAt long_table 0 = .ok zero :=
    readAt_replicate_append _ _ _ 0 (by omega) (by norm_num)
  have e1 : int32 ((long_table.length : Nat) : Int) = 1600000000 := by
    rw [long_table_length]; decide!
  have e2 : int32 ((1600000000 : Int) - 1) = 1599999999 := by decide!
  have hl : readAt long_table (int32 (int32 long_table.length - 1)) = .ok one := by
    rw [e1, e2]
    exact readAt_append_last 1599999999 zero one
  have c1 : one.lt zero = false := by decide!
  have c2 : one.lt one = false := by decide!
  rw [machine_check_bounds_eq long_table one zero one (by rw [e1]; decide) h0 hl, c1, c2]
  rfl

theorem long_table_search :
    bisection_search long_table one = .error .OutOfBounds := by
  have h0 : readAt long_table 0 = .ok zero :=
    readAt_replicate_append _ _ _ 0 (by omega) (by norm_num)
  have hm : readAt long_table 800000000 = .ok zero :=
    readAt_replicate_append _ _ _ 800000000 (by omega) (by norm_num)
  have hneg : readAt long_table (-947483648) = .error .OutOfBounds :=
    readAt_of_neg _ _ (by decide)
  have m1 : int32 (0 + 1600000000) >>> (1 : Nat) = 800000000 := by decide!
  have m2 : int32 (800000000 + 1600000000) >>> (1 : Nat) = -947483648 := by decide!
  have t1 : ((one.sub zero).mul (one.sub zero)).le zero = false := by decide!
  have e1 : int32 ((1600000000 : Nat) : Int) = 1600000000 := by decide!
  have s1 : bisection_loop long_table one zero 1600000000 0 1600000000 =
      bisection_loop long_table one zero 1599999999 800000000 1600000000 := by
    rw [bisection_loop_right long_table one zero zero 1599999999 0 1600000000 (by decide!)
      (by rw [m1]; exact hm) t1, m1]
  have s2 : bisection_loop long_table one zero 1599999999 800000000 1600000000 =
      .error .OutOfBounds :=
    bisection_loop_fault long_table one zero 1599999998 800000000 1600000000
      .OutOfBounds (by decide!) (by rw [m2]; exact hneg)
  rw [bisection_search_of_valid long_table one zero long_table_check h0, long_table_length,
    e1, s1, s2]

/-- C24: with `int` indices the midpoint of `bisection_search` leaves the interval.
On the table of 1 600 000 000 entries made of zeros followed by `1.0`, and the query
`1.0` (classified `VALID`), the first pass has `il = 0`, `ir = 1600000000`, reads
`mid = 800000000` and goes right; in the second pass `il + ir = 2400000000` exceeds
`2^31 - 1` and wraps to `-1894967296`, so that `mid = -947483648`, which is not
between `il` and `ir`, and the read of `x[mid]` is outside the table: the search does
not return an index. -/
theorem bisection_mid_overflow :
    long_table.length = 1600000000 ∧
    check_bounds long_table one = .ok ⟨0, .VALID⟩ ∧
    int32 (0 + 1600000000) >>> (1 : Nat) = 800000000 ∧
    readAt long_table 800000000 = .ok zero ∧
    ((one.sub zero).mul (one.sub zero)).le zero = false ∧
    int32 (800000000 + 1600000000) >>> (1 : Nat) = -947483648 ∧
    readAt long_table (-947483648) = .error .OutOfBounds ∧
    bisection_search long_table one = .error .OutOfBounds :=
  ⟨long_table_length, long_table_check, by decide!,
    readAt_replicate_append _ _ _ 800000000 (by omega) (by norm_num), by decide!,
    by decide!, readAt_of_neg _ _ (by decide), long_table_search⟩

end amr_wind.interp.machine

namespace amr_wind.interp

/-! ## The degenerate denominator in `linear_monotonic` -/

end amr_wind.interp
